import Mathlib

/-!
# MPEG-TS parser: a shallow embedding of `mpegts_parser.go`

The Go package reads 188-byte transport packets from an `io.Reader`.  The
embedding keeps the source's names and control flow:

* a byte is a `Fin 256`; a Go `[]byte` is a `List Byte`;
* the `io.Reader` behind `MPEGTSParser.Source` is a finite stream, held as the
  list of bytes not read yet (what `bytes.Reader` or a file gives): a read at
  the end of the list reports `io.EOF`;
* methods with a pointer receiver take the parser and return the new one;
* `ParsePacket`, `sync` and `Parse` compute with unbounded integers and
  natural-number offsets: they are the program on a parser made by
  `NewMPEGTSParser` (a counter would need `2^63` bytes of input to wrap) and on
  offsets inside the buffer;
* `Machine.ParsePacket`, `Machine.sync` and `Machine.Parse` compute with Go's
  64-bit `int`, every sum reduced by `wrapInt`: they are the program on any
  parser state and any `int` offset, and `Machine_ParsePacket_wrap` and
  `Machine_Parse_wrap` show that they are the unbounded functions with the
  counters reduced to 64 bits;
* a run-time panic (index out of range) is the result `none`;
* a `Payload` is a slice that shares its array with the buffer it was cut
  from.  The embedding stores the bytes visible through the slice, and
  `Parse.loop` rewrites them whenever the shared read buffer is written.
-/

namespace MpegtsParser

/-- One octet of the stream. -/
abbrev Byte := Fin 256

/-- Parser state; `Source` holds the bytes the reader has not delivered yet. -/
structure MPEGTSParser where
  Source : List Byte
  Synced : Bool
  BytesRead : Int
  BytesParsed : Int
  PacketsParsed : Int
deriving DecidableEq, Repr

/-- A decoded packet. -/
structure MPEGTSPacket where
  PID : Int
  Payload : List Byte
  Flags : List Bool
deriving DecidableEq, Repr

/-- Error value built by `ParseError`. -/
structure MPEGTSParserError where
  Message : String
  BytesRead : Int
  PacketsParsed : Int
deriving DecidableEq, Repr

/-- The error values that reach a caller: the two sentinels of package `io`,
an `errors.New` text, and the parser's own error type. -/
inductive GoError where
  | EOF
  | ErrUnexpectedEOF
  | New (text : String)
  | Parser (e : MPEGTSParserError)
deriving DecidableEq, Repr

def MPEGTS_PACKET_SIZE : Nat := 188

def MPEGTS_SYNC_BYTE : Byte := 0x47

def MINIMUM_PACKETS_BUFFER_SIZE : Nat := 2

def NewMPEGTSParser (source : List Byte) : MPEGTSParser :=
  { Source := source
    Synced := false
    BytesRead := 0
    BytesParsed := 0
    PacketsParsed := 0 }

def MPEGTSParser.ParseError (p : MPEGTSParser) (message : String) : MPEGTSParserError :=
  { Message := message
    BytesRead := p.BytesRead
    PacketsParsed := p.PacketsParsed }

def MPEGTSParser.NoSyncBytePresentError (p : MPEGTSParser) : MPEGTSParserError :=
  p.ParseError "No sync byte present"

/-- Zero value of `MPEGTSPacket`, as left by `make([]MPEGTSPacket, 3)`. -/
def MPEGTSPacket.zero : MPEGTSPacket :=
  { PID := 0, Payload := [], Flags := [] }

/-- Go slice expression `b[lo:hi]`. -/
def slice (b : List Byte) (lo hi : Nat) : List Byte :=
  (b.take hi).drop lo

/-- Outcome of `io.ReadFull`: bytes read, the destination buffer afterwards,
the rest of the stream, and the error. -/
structure ReadResult where
  n : Nat
  buf : List Byte
  src : List Byte
  err : Option GoError
deriving DecidableEq, Repr

/-- Go's `io.ReadFull(r, buf)` on a finite stream `r`: fills `buf` when the
stream has enough bytes (also when `buf` is empty); otherwise it copies what is
left and reports `io.EOF` if that was nothing, `io.ErrUnexpectedEOF` if not. -/
def ReadFull (r : List Byte) (buf : List Byte) : ReadResult :=
  if buf.length ≤ r.length then
    { n := buf.length, buf := r.take buf.length, src := r.drop buf.length, err := none }
  else if r.length = 0 then
    { n := 0, buf := buf, src := [], err := some GoError.EOF }
  else
    { n := r.length, buf := r ++ buf.drop r.length, src := [],
      err := some GoError.ErrUnexpectedEOF }

/-- Outcome of `ParsePacket`: the parser and the destination packet after the
call, and the returned error. -/
structure PacketResult where
  p : MPEGTSParser
  packet : MPEGTSPacket
  err : Option GoError
deriving DecidableEq, Repr

/-- Method `func (p *MPEGTSParser) ParsePacket(packet *MPEGTSPacket, buffer *[]byte, offset int) error`
for a non-negative `offset`. -/
def ParsePacket (p : MPEGTSParser) (packet : MPEGTSPacket) (buffer : List Byte)
    (offset : Nat) : Option PacketResult :=
  if buffer.length < offset + MPEGTS_PACKET_SIZE then
    some { p := p, packet := packet,
           err := some (GoError.New "buffer too small to parse packet") }
  else
    match buffer[offset]? with
    | none => none
    | some b0 =>
      if b0 ≠ MPEGTS_SYNC_BYTE then
        some { p := p, packet := packet,
               err := some (GoError.Parser p.NoSyncBytePresentError) }
      else
        match buffer[offset + 1]?, buffer[offset + 2]? with
        | some b1, some b2 =>
          some
            { p := { p with PacketsParsed := p.PacketsParsed + 1,
                            BytesParsed := p.BytesParsed + MPEGTS_PACKET_SIZE }
              packet :=
                { Flags := [b1.val &&& 0b10000000 != 0,
                            b1.val &&& 0b01000000 != 0,
                            b1.val &&& 0b00100000 != 0]
                  PID := (((b1.val &&& 0b00011111) <<< 8 ||| b2.val : Nat) : Int)
                  Payload := slice buffer (offset + 3) (offset + MPEGTS_PACKET_SIZE) }
              err := none }
        | _, _ => none

/-- Outcome of `sync`: the parser afterwards, the returned packets (`nil` on
error) and the error. -/
structure SyncResult where
  p : MPEGTSParser
  packets : List MPEGTSPacket
  err : Option GoError
deriving DecidableEq, Repr

/-- The condition of the `if` in the search loop of `sync`, with Go's
short-circuit `&&`: a later byte is indexed only when the earlier ones match. -/
def sync.isCandidate (buffer : List Byte) (firstPacketOffset : Nat) : Option Bool :=
  let secondPacketOffset := firstPacketOffset + MPEGTS_PACKET_SIZE
  let thirdPacketOffset := secondPacketOffset + MPEGTS_PACKET_SIZE
  match buffer[firstPacketOffset]? with
  | none => none
  | some b1 =>
    if b1 ≠ MPEGTS_SYNC_BYTE then some false
    else
      match buffer[secondPacketOffset]? with
      | none => none
      | some b2 =>
        if b2 ≠ MPEGTS_SYNC_BYTE then some false
        else
          match buffer[thirdPacketOffset]? with
          | none => none
          | some b3 => some (decide (b3 = MPEGTS_SYNC_BYTE))

/-- Body of the `if` in `sync` (lines 108-130): decode the two frames inside
the window, read the tail of the third from the source, decode it. -/
def sync.found (p : MPEGTSParser) (buffer : List Byte) (firstPacketOffset : Nat) :
    Option SyncResult :=
  let secondPacketOffset := firstPacketOffset + MPEGTS_PACKET_SIZE
  let thirdPacketOffset := secondPacketOffset + MPEGTS_PACKET_SIZE
  let packets := List.replicate 3 MPEGTSPacket.zero
  match ParsePacket p MPEGTSPacket.zero buffer firstPacketOffset with
  | none => none
  | some r0 =>
    match r0.err with
    | some err => some { p := r0.p, packets := [], err := some err }
    | none =>
      let packets := packets.set 0 r0.packet
      let p := { r0.p with BytesParsed := r0.p.BytesParsed + firstPacketOffset }
      match ParsePacket p MPEGTSPacket.zero buffer secondPacketOffset with
      | none => none
      | some r1 =>
        match r1.err with
        | some err => some { p := r1.p, packets := [], err := some err }
        | none =>
          let packets := packets.set 1 r1.packet
          let p := r1.p
          let size : Int := (MPEGTS_PACKET_SIZE : Int) - ((buffer.length : Int) - thirdPacketOffset)
          if size < 0 ∨ buffer.length < thirdPacketOffset then none
          else
            let rd := ReadFull p.Source (List.replicate size.toNat 0)
            let p := { p with Source := rd.src, BytesRead := p.BytesRead + rd.n }
            match rd.err with
            | some err => some { p := p, packets := [], err := some err }
            | none =>
              let thirdPacketBuffer := buffer.drop thirdPacketOffset ++ rd.buf
              match ParsePacket p MPEGTSPacket.zero thirdPacketBuffer 0 with
              | none => none
              | some r2 =>
                match r2.err with
                | some err => some { p := r2.p, packets := [], err := some err }
                | none =>
                  some { p := r2.p, packets := packets.set 2 r2.packet, err := none }

/-- The search loop of `sync` (lines 102-133).  `todo` counts the iterations
left, `MPEGTS_PACKET_SIZE - firstPacketOffset`, so `todo = 0` is the loop
condition `firstPacketOffset < MPEGTS_PACKET_SIZE` being false. -/
def sync.loop (p : MPEGTSParser) (buffer : List Byte) : Nat → Nat → Option SyncResult
  | 0, _ => some { p := p, packets := [], err := some (GoError.Parser p.NoSyncBytePresentError) }
  | todo + 1, firstPacketOffset =>
    match sync.isCandidate buffer firstPacketOffset with
    | none => none
    | some true => sync.found p buffer firstPacketOffset
    | some false => sync.loop p buffer todo (firstPacketOffset + 1)

/-- Method `func (p *MPEGTSParser) sync() (packets []MPEGTSPacket, err error)`. -/
def sync (p : MPEGTSParser) : Option SyncResult :=
  let rd := ReadFull p.Source (List.replicate (MPEGTS_PACKET_SIZE * 3) 0)
  let p := { p with Source := rd.src, BytesRead := p.BytesRead + rd.n }
  match rd.err with
  | some err => some { p := p, packets := [], err := some err }
  | none => sync.loop p rd.buf MPEGTS_PACKET_SIZE 0

/-- Outcome of `Parse`: the parser and the caller's slots afterwards, and the
two returned values. -/
structure ParseResult where
  p : MPEGTSParser
  packetBuffer : List MPEGTSPacket
  n : Int
  err : Option GoError
deriving DecidableEq, Repr

/-- The slots `first ≤ i < upto` were decoded from the read buffer of the
running `Parse` call, so their `Payload` slices share its array: after a write
to that array each of them shows `buffer[3:188]`. -/
def aliasPayloads (buffer : List Byte) (first upto : Nat) :
    Nat → List MPEGTSPacket → List MPEGTSPacket
  | _, [] => []
  | i, pkt :: rest =>
    (if first ≤ i ∧ i < upto then
        { pkt with Payload := slice buffer 3 MPEGTS_PACKET_SIZE }
      else pkt) :: aliasPayloads buffer first upto (i + 1) rest

/-- The fill loop of `Parse` (lines 71-86).  `todo` counts the iterations
left, `len(*packetBuffer) - packetsBufferOffset`, so `todo = 0` is the loop
condition being false.  `first` is the value `packetsBufferOffset` had when the
loop was entered and `buffer` the content of the one read buffer of line 70. -/
def Parse.loop (first : Nat) :
    Nat → MPEGTSParser → List MPEGTSPacket → List Byte → Nat → Int → Option ParseResult
  | 0, p, packetBuffer, _, _, numberOfPackets =>
    some { p := p, packetBuffer := packetBuffer, n := numberOfPackets, err := none }
  | todo + 1, p, packetBuffer, buffer, packetsBufferOffset, numberOfPackets =>
    let rd := ReadFull p.Source buffer
    let p := { p with Source := rd.src, BytesRead := p.BytesRead + rd.n }
    let packetBuffer := aliasPayloads rd.buf first packetsBufferOffset 0 packetBuffer
    match rd.err with
    | some err =>
      if err = GoError.EOF ∧ numberOfPackets > 0 then
        some { p := p, packetBuffer := packetBuffer, n := numberOfPackets, err := none }
      else
        some { p := p, packetBuffer := packetBuffer, n := numberOfPackets, err := some err }
    | none =>
      match packetBuffer[packetsBufferOffset]? with
      | none => none
      | some slot =>
        match ParsePacket p slot rd.buf 0 with
        | none => none
        | some r =>
          let packetBuffer := packetBuffer.set packetsBufferOffset r.packet
          match r.err with
          | some err =>
            some { p := r.p, packetBuffer := packetBuffer, n := numberOfPackets, err := some err }
          | none =>
            Parse.loop first todo r.p packetBuffer rd.buf (packetsBufferOffset + 1)
              (numberOfPackets + 1)

/-- Assignment `(*packetBuffer)[i] = v`; out of range is a panic. -/
def setSlot (packetBuffer : List MPEGTSPacket) (i : Nat) (v : MPEGTSPacket) :
    Option (List MPEGTSPacket) :=
  if i < packetBuffer.length then some (packetBuffer.set i v) else none

/-- Method `func (p *MPEGTSParser) Parse(packetBuffer *[]MPEGTSPacket) (n int, err error)`. -/
def Parse (p : MPEGTSParser) (packetBuffer : List MPEGTSPacket) : Option ParseResult :=
  let buffer : List Byte := List.replicate MPEGTS_PACKET_SIZE 0
  if !p.Synced then
    match sync p with
    | none => none
    | some s =>
      match s.err with
      | some err => some { p := s.p, packetBuffer := packetBuffer, n := 0, err := some err }
      | none =>
        let p := { s.p with Synced := true }
        match s.packets[0]?, s.packets[1]?, s.packets[2]? with
        | some k0, some k1, some k2 =>
          match setSlot packetBuffer 0 k0 with
          | none => none
          | some b0 =>
            match setSlot b0 1 k1 with
            | none => none
            | some b1 =>
              match setSlot b1 2 k2 with
              | none => none
              | some b2 => Parse.loop 3 (b2.length - 3) p b2 buffer 3 3
        | _, _, _ => none
  else
    Parse.loop 0 (packetBuffer.length - 0) p packetBuffer buffer 0 0

/-- What the format description reads off a frame `f` of 188 bytes: flags from
bits 7, 6, 5 of byte 1, the 13-bit identifier from the low five bits of byte 1
and byte 2, the payload from bytes 3 to 187. -/
def decodeFrame (f : List Byte) : MPEGTSPacket :=
  { PID := ((((f.getD 1 0).val &&& 0x1F) <<< 8 ||| (f.getD 2 0).val : Nat) : Int)
    Flags := [(f.getD 1 0).val &&& 0x80 != 0, (f.getD 1 0).val &&& 0x40 != 0,
              (f.getD 1 0).val &&& 0x20 != 0]
    Payload := slice f 3 188 }

/-- The header fields of a packet: identifier and flags. -/
def header (k : MPEGTSPacket) : Int × List Bool := (k.PID, k.Flags)

/-- A frame as the claims describe it: 188 bytes, the first one `0x47`. -/
def ValidFrame (f : List Byte) : Prop :=
  f.length = 188 ∧ f[0]? = some 0x47

instance (f : List Byte) : Decidable (ValidFrame f) := by
  unfold ValidFrame; infer_instance

/-- The sync byte stands at `o`, `o+188` and `o+376` of `s`. -/
def TripleAt (s : List Byte) (o : Nat) : Prop :=
  s[o]? = some 0x47 ∧ s[o + 188]? = some 0x47 ∧ s[o + 376]? = some 0x47

instance (s : List Byte) (o : Nat) : Decidable (TripleAt s o) := by
  unfold TripleAt; infer_instance

/-- What a caller sees that calls `Parse` on the same slots until a call
returns an error (the loop of `main`): the counts of the calls that returned a
nil error, the headers of the packets those calls delivered, in order, and the
outcome of the call that returned the error. -/
structure Drained where
  counts : List Int
  delivered : List (Int × List Bool)
  last : ParseResult
deriving DecidableEq, Repr

/-- Repeated `Parse` until the first error, at most `calls` calls; `none` when
a call panics or `calls` calls were not enough. -/
def ParseUntilError : Nat → MPEGTSParser → List MPEGTSPacket → Option Drained
  | 0, _, _ => none
  | calls + 1, p, packetBuffer =>
    match Parse p packetBuffer with
    | none => none
    | some r =>
      match r.err with
      | some _ => some { counts := [], delivered := [], last := r }
      | none =>
        match ParseUntilError calls r.p r.packetBuffer with
        | none => none
        | some d =>
          some { counts := r.n :: d.counts
                 delivered := (r.packetBuffer.take r.n.toNat).map header ++ d.delivered
                 last := d.last }

/-- The states a parser made by `NewMPEGTSParser` can be in after any number
of `Parse` calls, each with at least three slots. -/
inductive ReachedByParse (source : List Byte) : MPEGTSParser → Prop where
  | new : ReachedByParse source (NewMPEGTSParser source)
  | parse (p : MPEGTSParser) (packetBuffer : List MPEGTSPacket) (r : ParseResult) :
      ReachedByParse source p → 3 ≤ packetBuffer.length → Parse p packetBuffer = some r →
      ReachedByParse source r.p

/-- The states a parser made by `NewMPEGTSParser` can be in after any number
of operations: `Parse` calls with at least three slots and `ParsePacket` calls
on any packet, buffer and offset. -/
inductive Reached (source : List Byte) : MPEGTSParser → Prop where
  | new : Reached source (NewMPEGTSParser source)
  | parse (p : MPEGTSParser) (packetBuffer : List MPEGTSPacket) (r : ParseResult) :
      Reached source p → 3 ≤ packetBuffer.length → Parse p packetBuffer = some r →
      Reached source r.p
  | parsePacket (p : MPEGTSParser) (packet : MPEGTSPacket) (buffer : List Byte) (offset : Nat)
      (r : PacketResult) :
      Reached source p → ParsePacket p packet buffer offset = some r → Reached source r.p

/-- A frame for the worked instances: sync byte, flags `[false, true, false]`,
identifier 258, zero payload. -/
def sampleFrame : List Byte := 0x47 :: 0x41 :: 0x02 :: List.replicate 185 0

/-- A 188-byte frame without the sync byte. -/
def sampleBadFrame : List Byte := List.replicate 188 0

/-- A second frame for the worked instances: sync byte, no flag, identifier 3,
payload of 185 bytes `0xFF`. -/
def sampleFrameB : List Byte := 0x47 :: 0x00 :: 0x03 :: List.replicate 185 0xFF

/-- A stream of 564 bytes cut inside its third frame: five leading zero bytes,
two whole frames, and the first 183 bytes of a third one. -/
def cutStream : List Byte :=
  List.replicate 5 0 ++ (sampleFrame ++ (sampleFrame ++ sampleFrame.take 183))

/-- The search of `sync` (lines 102-107) alone: the `firstPacketOffset` at
which the `if` of the loop is taken, `none` when the loop runs out (or an index
is out of range). -/
def sync.firstPacketOffset (buffer : List Byte) : Nat → Nat → Option Nat
  | 0, _ => none
  | todo + 1, firstPacketOffset =>
    match sync.isCandidate buffer firstPacketOffset with
    | none => none
    | some true => some firstPacketOffset
    | some false => sync.firstPacketOffset buffer todo (firstPacketOffset + 1)

/-- What a `Parse` call on `p` adds to `BytesParsed` at line 113
(`p.BytesParsed += firstPacketOffset`): nothing when `p` is synchronised
(`sync` is not called) or the first read of `sync` fails or its search finds no
offset, else the offset the search stops at. -/
def Parse.alignmentOffset (p : MPEGTSParser) : Nat :=
  if p.Synced then 0
  else
    let rd := ReadFull p.Source (List.replicate (MPEGTS_PACKET_SIZE * 3) 0)
    match rd.err with
    | some _ => 0
    | none => (sync.firstPacketOffset rd.buf MPEGTS_PACKET_SIZE 0).getD 0

/-- The states a parser made by `NewMPEGTSParser` can be in after any number
of operations, `Parse` calls on any number of slots and `ParsePacket` calls on
any packet, buffer and offset, each state with the sum of the alignment
offsets that its `Parse` calls added to `BytesParsed`. -/
inductive ReachedSkipping (source : List Byte) : MPEGTSParser → Nat → Prop where
  | new : ReachedSkipping source (NewMPEGTSParser source) 0
  | parse (p : MPEGTSParser) (skipped : Nat) (packetBuffer : List MPEGTSPacket)
      (r : ParseResult) :
      ReachedSkipping source p skipped → Parse p packetBuffer = some r →
      ReachedSkipping source r.p (skipped + Parse.alignmentOffset p)
  | parsePacket (p : MPEGTSParser) (skipped : Nat) (packet : MPEGTSPacket) (buffer : List Byte)
      (offset : Nat) (r : PacketResult) :
      ReachedSkipping source p skipped → ParsePacket p packet buffer offset = some r →
      ReachedSkipping source r.p skipped

/-! ## Go's 64-bit `int`

The definitions above compute with unbounded integers.  They describe the
program on every input that keeps its `int` values inside 64 bits: a parser
made by `NewMPEGTSParser` on a source of fewer than `2^63` bytes, offsets with
`offset + 188 ≤ MaxInt64`.  The definitions of this section compute as the
machine does, wrapping every `int` sum that can leave that range; they are the
ones to use for a parser state or an offset chosen by the caller. -/

def MaxInt64 : Int := 9223372036854775807

def MinInt64 : Int := -9223372036854775808

/-- The value Go's `int` holds after an arithmetic result `x`: two's complement
in 64 bits. -/
@[irreducible]
def wrapInt (x : Int) : Int :=
  (9223372036854775808 + x) % 18446744073709551616 - 9223372036854775808

/-- The counters of a parser are values of Go's `int`. -/
def MPEGTSParser.CountersInRange (p : MPEGTSParser) : Prop :=
  (MinInt64 ≤ p.BytesRead ∧ p.BytesRead ≤ MaxInt64) ∧
  (MinInt64 ≤ p.BytesParsed ∧ p.BytesParsed ≤ MaxInt64) ∧
  (MinInt64 ≤ p.PacketsParsed ∧ p.PacketsParsed ≤ MaxInt64)

instance (p : MPEGTSParser) : Decidable p.CountersInRange := by
  unfold MPEGTSParser.CountersInRange; infer_instance

/-- Go index expression `b[i]` with an `int` index: out of range is a panic. -/
def Machine.index (b : List Byte) (i : Int) : Option Byte :=
  if 0 ≤ i then b[i.toNat]? else none

/-- Go slice expression `b[lo:hi]` with `int` bounds: a panic unless
`0 ≤ lo ≤ hi ≤ len(b)`. -/
def Machine.slice (b : List Byte) (lo hi : Int) : Option (List Byte) :=
  if 0 ≤ lo ∧ lo ≤ hi ∧ hi ≤ (b.length : Int) then
    some (MpegtsParser.slice b lo.toNat hi.toNat)
  else none

/-- Method `func (p *MPEGTSParser) ParsePacket(packet *MPEGTSPacket, buffer *[]byte, offset int) error`
with 64-bit `int` arithmetic: the sums `offset+188`, `offset+1`, `offset+2`,
`offset+3` and both counter updates wrap. -/
def Machine.ParsePacket (p : MPEGTSParser) (packet : MPEGTSPacket) (buffer : List Byte)
    (offset : Int) : Option PacketResult :=
  if (buffer.length : Int) < wrapInt (offset + MPEGTS_PACKET_SIZE) then
    some { p := p, packet := packet,
           err := some (GoError.New "buffer too small to parse packet") }
  else
    match Machine.index buffer offset with
    | none => none
    | some b0 =>
      if b0 ≠ MPEGTS_SYNC_BYTE then
        some { p := p, packet := packet,
               err := some (GoError.Parser p.NoSyncBytePresentError) }
      else
        match Machine.index buffer (wrapInt (offset + 1)),
            Machine.index buffer (wrapInt (offset + 2)),
            Machine.slice buffer (wrapInt (offset + 3))
              (wrapInt (offset + MPEGTS_PACKET_SIZE)) with
        | some b1, some b2, some payload =>
          some
            { p := { p with PacketsParsed := wrapInt (p.PacketsParsed + 1),
                            BytesParsed := wrapInt (p.BytesParsed + MPEGTS_PACKET_SIZE) }
              packet :=
                { Flags := [b1.val &&& 0b10000000 != 0,
                            b1.val &&& 0b01000000 != 0,
                            b1.val &&& 0b00100000 != 0]
                  PID := (((b1.val &&& 0b00011111) <<< 8 ||| b2.val : Nat) : Int)
                  Payload := payload }
              err := none }
        | _, _, _ => none

/-- Body of the `if` in `sync` (lines 108-130) with 64-bit counters. -/
def Machine.sync.found (p : MPEGTSParser) (buffer : List Byte) (firstPacketOffset : Nat) :
    Option SyncResult :=
  let secondPacketOffset := firstPacketOffset + MPEGTS_PACKET_SIZE
  let thirdPacketOffset := secondPacketOffset + MPEGTS_PACKET_SIZE
  let packets := List.replicate 3 MPEGTSPacket.zero
  match Machine.ParsePacket p MPEGTSPacket.zero buffer firstPacketOffset with
  | none => none
  | some r0 =>
    match r0.err with
    | some err => some { p := r0.p, packets := [], err := some err }
    | none =>
      let packets := packets.set 0 r0.packet
      let p := { r0.p with BytesParsed := wrapInt (r0.p.BytesParsed + firstPacketOffset) }
      match Machine.ParsePacket p MPEGTSPacket.zero buffer secondPacketOffset with
      | none => none
      | some r1 =>
        match r1.err with
        | some err => some { p := r1.p, packets := [], err := some err }
        | none =>
          let packets := packets.set 1 r1.packet
          let p := r1.p
          let size : Int := (MPEGTS_PACKET_SIZE : Int) - ((buffer.length : Int) - thirdPacketOffset)
          if size < 0 ∨ buffer.length < thirdPacketOffset then none
          else
            let rd := ReadFull p.Source (List.replicate size.toNat 0)
            let p := { p with Source := rd.src, BytesRead := wrapInt (p.BytesRead + rd.n) }
            match rd.err with
            | some err => some { p := p, packets := [], err := some err }
            | none =>
              let thirdPacketBuffer := buffer.drop thirdPacketOffset ++ rd.buf
              match Machine.ParsePacket p MPEGTSPacket.zero thirdPacketBuffer 0 with
              | none => none
              | some r2 =>
                match r2.err with
                | some err => some { p := r2.p, packets := [], err := some err }
                | none =>
                  some { p := r2.p, packets := packets.set 2 r2.packet, err := none }

/-- The search loop of `sync` (lines 102-133); its offsets stay below 564. -/
def Machine.sync.loop (p : MPEGTSParser) (buffer : List Byte) : Nat → Nat → Option SyncResult
  | 0, _ => some { p := p, packets := [], err := some (GoError.Parser p.NoSyncBytePresentError) }
  | todo + 1, firstPacketOffset =>
    match sync.isCandidate buffer firstPacketOffset with
    | none => none
    | some true => Machine.sync.found p buffer firstPacketOffset
    | some false => Machine.sync.loop p buffer todo (firstPacketOffset + 1)

/-- Method `func (p *MPEGTSParser) sync() (packets []MPEGTSPacket, err error)`
with 64-bit counters. -/
def Machine.sync (p : MPEGTSParser) : Option SyncResult :=
  let rd := ReadFull p.Source (List.replicate (MPEGTS_PACKET_SIZE * 3) 0)
  let p := { p with Source := rd.src, BytesRead := wrapInt (p.BytesRead + rd.n) }
  match rd.err with
  | some err => some { p := p, packets := [], err := some err }
  | none => Machine.sync.loop p rd.buf MPEGTS_PACKET_SIZE 0

/-- The fill loop of `Parse` (lines 71-86) with 64-bit counters.
`packetsBufferOffset` and `numberOfPackets` stay at or below
`len(*packetBuffer)`, itself an `int`, so their increments do not wrap. -/
def Machine.Parse.loop (first : Nat) :
    Nat → MPEGTSParser → List MPEGTSPacket → List Byte → Nat → Int → Option ParseResult
  | 0, p, packetBuffer, _, _, numberOfPackets =>
    some { p := p, packetBuffer := packetBuffer, n := numberOfPackets, err := none }
  | todo + 1, p, packetBuffer, buffer, packetsBufferOffset, numberOfPackets =>
    let rd := ReadFull p.Source buffer
    let p := { p with Source := rd.src, BytesRead := wrapInt (p.BytesRead + rd.n) }
    let packetBuffer := aliasPayloads rd.buf first packetsBufferOffset 0 packetBuffer
    match rd.err with
    | some err =>
      if err = GoError.EOF ∧ numberOfPackets > 0 then
        some { p := p, packetBuffer := packetBuffer, n := numberOfPackets, err := none }
      else
        some { p := p, packetBuffer := packetBuffer, n := numberOfPackets, err := some err }
    | none =>
      match packetBuffer[packetsBufferOffset]? with
      | none => none
      | some slot =>
        match Machine.ParsePacket p slot rd.buf 0 with
        | none => none
        | some r =>
          let packetBuffer := packetBuffer.set packetsBufferOffset r.packet
          match r.err with
          | some err =>
            some { p := r.p, packetBuffer := packetBuffer, n := numberOfPackets, err := some err }
          | none =>
            Machine.Parse.loop first todo r.p packetBuffer rd.buf (packetsBufferOffset + 1)
              (numberOfPackets + 1)

/-- Method `func (p *MPEGTSParser) Parse(packetBuffer *[]MPEGTSPacket) (n int, err error)`
with 64-bit counters. -/
def Machine.Parse (p : MPEGTSParser) (packetBuffer : List MPEGTSPacket) :
    Option ParseResult :=
  let buffer : List Byte := List.replicate MPEGTS_PACKET_SIZE 0
  if !p.Synced then
    match Machine.sync p with
    | none => none
    | some s =>
      match s.err with
      | some err => some { p := s.p, packetBuffer := packetBuffer, n := 0, err := some err }
      | none =>
        let p := { s.p with Synced := true }
        match s.packets[0]?, s.packets[1]?, s.packets[2]? with
        | some k0, some k1, some k2 =>
          match setSlot packetBuffer 0 k0 with
          | none => none
          | some b0 =>
            match setSlot b0 1 k1 with
            | none => none
            | some b1 =>
              match setSlot b1 2 k2 with
              | none => none
              | some b2 => Machine.Parse.loop 3 (b2.length - 3) p b2 buffer 3 3
        | _, _, _ => none
  else
    Machine.Parse.loop 0 (packetBuffer.length - 0) p packetBuffer buffer 0 0

/-- The parser with each counter reduced to its 64-bit value. -/
def wrapCounters (p : MPEGTSParser) : MPEGTSParser :=
  { p with BytesRead := wrapInt p.BytesRead, BytesParsed := wrapInt p.BytesParsed,
           PacketsParsed := wrapInt p.PacketsParsed }

/-- An error value with the counters it carries reduced to 64 bits. -/
def wrapError : GoError → GoError
  | GoError.Parser e =>
    GoError.Parser { e with BytesRead := wrapInt e.BytesRead,
                            PacketsParsed := wrapInt e.PacketsParsed }
  | e => e

def wrapPacketResult (r : PacketResult) : PacketResult :=
  { p := wrapCounters r.p, packet := r.packet, err := r.err.map wrapError }

def wrapSyncResult (r : SyncResult) : SyncResult :=
  { p := wrapCounters r.p, packets := r.packets, err := r.err.map wrapError }

def wrapParseResult (r : ParseResult) : ParseResult :=
  { p := wrapCounters r.p, packetBuffer := r.packetBuffer, n := r.n,
    err := r.err.map wrapError }

/-- A parser for the worked instances: synchronised after three packets, one
frame without a sync byte left in its source. -/
def sampleSyncedParser : MPEGTSParser :=
  { Source := sampleBadFrame, Synced := true, BytesRead := 564, BytesParsed := 564,
    PacketsParsed := 3 }

/-- A parser state with `PacketsParsed` at the largest `int`. -/
def sampleFullParser : MPEGTSParser :=
  { Source := [], Synced := true, BytesRead := 0, BytesParsed := 0, PacketsParsed := MaxInt64 }

/-- A parser state with `BytesRead` and `BytesParsed` at the largest `int` and
one frame left in its source. -/
def sampleBrimParser : MPEGTSParser :=
  { Source := sampleFrame, Synced := true, BytesRead := MaxInt64, BytesParsed := MaxInt64,
    PacketsParsed := 0 }

/-! ## Lemmas on slices, reads and the three functions -/

theorem ParsePacket_too_small (p : MPEGTSParser) (packet : MPEGTSPacket) (b : List Byte) (o : Nat)
    (h : b.length < o + 188) :
    ParsePacket p packet b o =
      some { p := p, packet := packet, err := some (GoError.New "buffer too small to parse packet") } := by
  simp [ParsePacket, MPEGTS_PACKET_SIZE, h]

theorem ParsePacket_no_sync (p : MPEGTSParser) (packet : MPEGTSPacket) (b : List Byte) (o : Nat)
    (h : o + 188 ≤ b.length) (hb : b[o]? ≠ some MPEGTS_SYNC_BYTE) :
    ParsePacket p packet b o =
      some { p := p, packet := packet, err := some (GoError.Parser p.NoSyncBytePresentError) } := by
  have h0 : o < b.length := by omega
  have hn : ¬ b.length < o + 188 := by omega
  have hb2 : b[o] ≠ MPEGTS_SYNC_BYTE := fun e => hb (by rw [List.getElem?_eq_getElem h0, e])
  simp [ParsePacket, MPEGTS_PACKET_SIZE, hn, List.getElem?_eq_getElem h0, hb2]

theorem getElem?_slice (b : List Byte) (lo hi i : Nat) (h : lo + i < hi) :
    (slice b lo hi)[i]? = b[lo + i]? := by
  unfold slice
  rw [List.getElem?_drop, List.getElem?_take_of_lt h]

theorem length_slice (b : List Byte) (lo hi : Nat) (h : hi ≤ b.length) :
    (slice b lo hi).length = hi - lo := by
  unfold slice
  simp [List.length_drop, List.length_take, Nat.min_eq_left h]

theorem slice_slice (b : List Byte) (o lo hi w : Nat) (h : hi ≤ w) :
    slice (slice b o (o + w)) lo hi = slice b (o + lo) (o + hi) := by
  apply List.ext_getElem?
  intro i
  by_cases hi' : lo + i < hi
  · rw [getElem?_slice _ _ _ _ hi', getElem?_slice _ _ _ _ (by omega),
      getElem?_slice _ _ _ _ (by omega)]
    congr 1; omega
  · unfold slice
    rw [List.getElem?_eq_none, List.getElem?_eq_none]
    · simp [List.length_drop, List.length_take]; omega
    · simp [List.length_drop, List.length_take]; omega

theorem getD_slice (b : List Byte) (lo hi i : Nat) (h : lo + i < hi) :
    (slice b lo hi).getD i 0 = b.getD (lo + i) 0 := by
  simp only [List.getD_eq_getElem?_getD, getElem?_slice _ _ _ _ h]

theorem ParsePacket_ok (p : MPEGTSParser) (packet : MPEGTSPacket) (b : List Byte) (o : Nat)
    (h : o + 188 ≤ b.length) (hb : b[o]? = some MPEGTS_SYNC_BYTE) :
    ParsePacket p packet b o =
      some { p := { p with PacketsParsed := p.PacketsParsed + 1,
                            BytesParsed := p.BytesParsed + 188 }
             packet := decodeFrame (slice b o (o + 188))
             err := none } := by
  have h0 : o < b.length := by omega
  have h1 : o + 1 < b.length := by omega
  have h2 : o + 2 < b.length := by omega
  have hn : ¬ b.length < o + 188 := by omega
  rw [List.getElem?_eq_getElem h0] at hb
  simp only [Option.some.injEq] at hb
  have e1 := getD_slice b o (o + 188) 1 (by omega)
  have e2 := getD_slice b o (o + 188) 2 (by omega)
  have e3 := slice_slice b o 3 188 188 (le_refl _)
  simp only [decodeFrame, e1, e2, e3]
  simp [ParsePacket, MPEGTS_PACKET_SIZE, hn, List.getElem?_eq_getElem, h0, h1, h2, hb, List.getD_eq_getElem]

theorem ReadFull_ok (r buf : List Byte) (h : buf.length ≤ r.length) :
    ReadFull r buf =
      { n := buf.length, buf := r.take buf.length, src := r.drop buf.length, err := none } := by
  simp [ReadFull, h]

theorem ReadFull_eof (buf : List Byte) (h : 0 < buf.length) :
    ReadFull [] buf = { n := 0, buf := buf, src := [], err := some GoError.EOF } := by
  have : ¬ buf.length ≤ 0 := by omega
  simp [ReadFull, this]

theorem ReadFull_short (r buf : List Byte) (h : r.length < buf.length) (h0 : 0 < r.length) :
    ReadFull r buf =
      { n := r.length, buf := r ++ buf.drop r.length, src := [],
        err := some GoError.ErrUnexpectedEOF } := by
  have h1 : ¬ buf.length ≤ r.length := by omega
  have h2 : ¬ r.length = 0 := by omega
  simp [ReadFull, h1, h2]

/-- Every outcome of a read: all of the buffer, or the end of the stream. -/
theorem ReadFull_cases (r buf : List Byte) :
    (buf.length ≤ r.length ∧ ReadFull r buf =
        { n := buf.length, buf := r.take buf.length, src := r.drop buf.length, err := none }) ∨
    (r = [] ∧ 0 < buf.length ∧ ReadFull r buf =
        { n := 0, buf := buf, src := [], err := some GoError.EOF }) ∨
    (0 < r.length ∧ r.length < buf.length ∧ ReadFull r buf =
        { n := r.length, buf := r ++ buf.drop r.length, src := [],
          err := some GoError.ErrUnexpectedEOF }) := by
  by_cases h : buf.length ≤ r.length
  · exact Or.inl ⟨h, ReadFull_ok r buf h⟩
  · by_cases h0 : r.length = 0
    · have hr : r = [] := List.length_eq_zero.mp h0
      subst hr
      have hb : 0 < buf.length := by
        simp only [List.length_nil] at h; omega
      exact Or.inr (Or.inl ⟨rfl, hb, ReadFull_eof buf hb⟩)
    · exact Or.inr (Or.inr ⟨by omega, by omega, ReadFull_short r buf (by omega) (by omega)⟩)

theorem isCandidate_eq (buffer : List Byte) (o : Nat) (hlen : buffer.length = 564)
    (ho : o < 188) :
    sync.isCandidate buffer o = some (decide (TripleAt buffer o)) := by
  have h1 : o < buffer.length := by omega
  have h2 : o + 188 < buffer.length := by omega
  have h3 : o + 188 + 188 < buffer.length := by omega
  have h3' : o + 376 < buffer.length := by omega
  have e : o + 188 + 188 = o + 376 := by omega
  simp only [sync.isCandidate, TripleAt, MPEGTS_PACKET_SIZE, MPEGTS_SYNC_BYTE, e,
    List.getElem?_eq_getElem h1, List.getElem?_eq_getElem h2, List.getElem?_eq_getElem h3',
    Option.some.injEq]
  by_cases a : buffer[o] = 71
  · by_cases b : buffer[o + 188] = 71
    · by_cases c : buffer[o + 376] = 71 <;> simp [a, b, c]
    · simp [a, b]
  · simp [a]

theorem sync_loop_found (p : MPEGTSParser) (buffer : List Byte) (hlen : buffer.length = 564)
    (o : Nat) (ho : o < 188) (ht : TripleAt buffer o) :
    ∀ (todo o0 : Nat), o0 + todo = 188 → o0 ≤ o →
      (∀ o1, o0 ≤ o1 → o1 < o → ¬ TripleAt buffer o1) →
      sync.loop p buffer todo o0 = sync.found p buffer o := by
  intro todo
  induction todo with
  | zero => intro o0 h1 h2 _; omega
  | succ k ih =>
    intro o0 h1 h2 hmin
    rw [sync.loop, isCandidate_eq buffer o0 hlen (by omega)]
    by_cases e : o0 = o
    · subst e; simp [ht]
    · have hn : ¬ TripleAt buffer o0 := hmin o0 (le_refl _) (by omega)
      simp only [hn, decide_False]
      exact ih (o0 + 1) (by omega) (by omega) (fun o1 a b => hmin o1 (by omega) b)

theorem sync_loop_none (p : MPEGTSParser) (buffer : List Byte) (hlen : buffer.length = 564) :
    ∀ (todo o0 : Nat), o0 + todo = 188 →
      (∀ o1, o0 ≤ o1 → o1 < 188 → ¬ TripleAt buffer o1) →
      sync.loop p buffer todo o0 =
        some { p := p, packets := [], err := some (GoError.Parser p.NoSyncBytePresentError) } := by
  intro todo
  induction todo with
  | zero => intro o0 _ _; rfl
  | succ k ih =>
    intro o0 h1 hmin
    rw [sync.loop, isCandidate_eq buffer o0 hlen (by omega)]
    have hn : ¬ TripleAt buffer o0 := hmin o0 (le_refl _) (by omega)
    simp only [hn, decide_False]
    exact ih (o0 + 1) (by omega) (fun o1 a b => hmin o1 (by omega) b)

theorem sync_found_eq (p : MPEGTSParser) (buffer : List Byte) (hlen : buffer.length = 564)
    (o : Nat) (ho : o < 188) (ht : TripleAt buffer o) :
    sync.found p buffer o =
      (let rd := ReadFull p.Source (List.replicate o 0)
       let q : MPEGTSParser :=
         { Source := rd.src, Synced := p.Synced, BytesRead := p.BytesRead + rd.n,
           BytesParsed := p.BytesParsed + 188 + o + 188,
           PacketsParsed := p.PacketsParsed + 1 + 1 }
       match rd.err with
       | some err => some { p := q, packets := [], err := some err }
       | none =>
         some { p := { q with PacketsParsed := q.PacketsParsed + 1,
                              BytesParsed := q.BytesParsed + 188 }
                packets := [decodeFrame (slice buffer o (o + 188)),
                            decodeFrame (slice buffer (o + 188) (o + 376)),
                            decodeFrame (buffer.drop (o + 376) ++ rd.buf)]
                err := none }) := by
  obtain ⟨t1, t2, t3⟩ := ht
  have hsz : ((MPEGTS_PACKET_SIZE : Int) - ((buffer.length : Int) - ((o + 376 : Nat) : Int))) = (o : Int) := by
    simp only [MPEGTS_PACKET_SIZE, hlen]
    push_cast
    omega
  have hnp : ¬ ((o : Int) < 0 ∨ buffer.length < o + 376) := by
    simp only [hlen]; omega
  unfold sync.found
  simp only []
  rw [ParsePacket_ok _ _ buffer o (by omega) t1]
  simp only []
  rw [show o + MPEGTS_PACKET_SIZE = o + 188 from rfl,
    ParsePacket_ok _ _ buffer (o + 188) (by omega) t2]
  simp only []
  rw [show o + 188 + MPEGTS_PACKET_SIZE = o + 376 from rfl, hsz, if_neg hnp, Int.toNat_ofNat]
  rcases ReadFull_cases p.Source (List.replicate o 0) with ⟨hl, hr⟩ | ⟨_, _, hr⟩ | ⟨_, _, hr⟩
  · rw [hr]
    simp only [List.length_replicate] at hl ⊢
    have hlen3 : (List.drop (o + 376) buffer ++ List.take o p.Source).length = 188 := by
      simp only [List.length_append, List.length_drop, List.length_take, hlen]
      omega
    have h0 : (List.drop (o + 376) buffer ++ List.take o p.Source)[0]? = some MPEGTS_SYNC_BYTE := by
      rw [List.getElem?_append_left (by simp only [List.length_drop, hlen]; omega),
        List.getElem?_drop]
      exact t3
    rw [ParsePacket_ok _ _ _ 0 (by omega) h0]
    have hs : slice (List.drop (o + 376) buffer ++ List.take o p.Source) 0 (0 + 188) =
        List.drop (o + 376) buffer ++ List.take o p.Source := by
      unfold slice
      rw [List.drop_zero, List.take_of_length_le (by omega)]
    simp only [hs]
    rfl
  · rw [hr]
  · rw [hr]

theorem TripleAt_take (s : List Byte) (o : Nat) (ho : o < 188) :
    TripleAt (s.take 564) o ↔ TripleAt s o := by
  unfold TripleAt
  rw [List.getElem?_take_of_lt (by omega), List.getElem?_take_of_lt (by omega),
    List.getElem?_take_of_lt (by omega)]

theorem sync_window (p : MPEGTSParser) (h : 564 ≤ p.Source.length) :
    sync p = sync.loop { p with Source := p.Source.drop 564, BytesRead := p.BytesRead + 564 }
      (p.Source.take 564) 188 0 := by
  have hrl : (List.replicate (MPEGTS_PACKET_SIZE * 3) (0 : Byte)).length = 564 := by
    rw [List.length_replicate]; rfl
  unfold sync
  simp only []
  rw [ReadFull_ok _ _ (by rw [hrl]; exact h)]
  simp only [hrl]
  rfl

theorem sync_short (p : MPEGTSParser) (h : p.Source.length < 564) :
    sync p = some { p := { p with Source := [], BytesRead := p.BytesRead + p.Source.length },
                    packets := [],
                    err := some (if p.Source = [] then GoError.EOF else GoError.ErrUnexpectedEOF) } := by
  have hrl : (List.replicate (MPEGTS_PACKET_SIZE * 3) (0 : Byte)).length = 564 := by
    rw [List.length_replicate]; rfl
  unfold sync
  simp only []
  rcases ReadFull_cases p.Source (List.replicate (MPEGTS_PACKET_SIZE * 3) 0) with
    ⟨hl, _⟩ | ⟨he, _, hr⟩ | ⟨h0, _, hr⟩
  · rw [hrl] at hl; omega
  · rw [hr]
    simp only [he, List.length_nil, if_true]
  · rw [hr]
    have hne : p.Source ≠ [] := by
      intro e; rw [e] at h0; simp at h0
    simp only [hne, if_false]

theorem slice_take (s : List Byte) (lo hi w : Nat) (h : hi ≤ w) :
    slice (s.take w) lo hi = slice s lo hi := by
  unfold slice
  rw [List.take_take, Nat.min_eq_left h]

theorem sync_aligned (p : MPEGTSParser) (o : Nat) (ho : o < 188)
    (hlen : 564 + o ≤ p.Source.length) (ht : TripleAt p.Source o)
    (hmin : ∀ o1, o1 < o → ¬ TripleAt p.Source o1) :
    sync p =
      some { p := { Source := p.Source.drop (564 + o), Synced := p.Synced,
                    BytesRead := p.BytesRead + 564 + o,
                    BytesParsed := p.BytesParsed + 188 + o + 188 + 188,
                    PacketsParsed := p.PacketsParsed + 1 + 1 + 1 }
             packets := [decodeFrame (slice p.Source o (o + 188)),
                         decodeFrame (slice p.Source (o + 188) (o + 376)),
                         decodeFrame (slice p.Source (o + 376) (o + 564))]
             err := none } := by
  have hwl : (p.Source.take 564).length = 564 := by
    rw [List.length_take]; omega
  rw [sync_window p (by omega),
    sync_loop_found _ _ hwl o ho ((TripleAt_take _ _ ho).mpr ht) 188 0 (by omega) (by omega)
      (fun o1 _ h2 => fun h => hmin o1 h2 ((TripleAt_take _ _ (by omega)).mp h)),
    sync_found_eq _ _ hwl o ho ((TripleAt_take _ _ ho).mpr ht)]
  simp only []
  rw [ReadFull_ok _ _ (by simp only [List.length_replicate, List.length_drop]; omega)]
  simp only [List.length_replicate, List.drop_drop]
  have e3 : List.drop (o + 376) (List.take 564 p.Source) ++ List.take o (List.drop 564 p.Source) =
      slice p.Source (o + 376) (o + 564) := by
    unfold slice
    rw [show o + 564 = 564 + o by omega, List.take_add,
      List.drop_append_of_le_length (by rw [hwl]; omega)]
  rw [e3, slice_take _ _ _ _ (by omega), slice_take _ _ _ _ (by omega)]

theorem length_aliasPayloads (buffer : List Byte) (first upto : Nat) :
    ∀ (pb : List MPEGTSPacket) (i : Nat),
      (aliasPayloads buffer first upto i pb).length = pb.length := by
  intro pb
  induction pb with
  | nil => intro i; rfl
  | cons k rest ih => intro i; simp [aliasPayloads, ih]

theorem map_header_aliasPayloads (buffer : List Byte) (first upto : Nat) :
    ∀ (pb : List MPEGTSPacket) (i : Nat),
      (aliasPayloads buffer first upto i pb).map header = pb.map header := by
  intro pb
  induction pb with
  | nil => intro i; rfl
  | cons k rest ih =>
    intro i
    simp only [aliasPayloads, List.map_cons, ih]
    split <;> rfl

theorem take_succ_set (l : List MPEGTSPacket) (i : Nat) (x : MPEGTSPacket) (h : i < l.length) :
    (l.set i x).take (i + 1) = l.take i ++ [x] := by
  induction l generalizing i with
  | nil => simp at h
  | cons a t ih =>
    cases i with
    | zero => simp
    | succ j =>
      simp only [List.length_cons, Nat.add_lt_add_iff_right] at h
      simp [ih j h]

theorem slice_full (f : List Byte) (h : f.length = 188) : slice f 0 (0 + 188) = f := by
  unfold slice
  rw [List.drop_zero, List.take_of_length_le (by omega)]

/-- One iteration of the fill loop on a frame that starts with the sync byte. -/
theorem loop_step_ok (first todo : Nat) (p : MPEGTSParser) (pb : List MPEGTSPacket)
    (buf : List Byte) (off : Nat) (n : Int) (f rest : List Byte)
    (hs : p.Source = f ++ rest) (hf : ValidFrame f) (hoff : off < pb.length)
    (hbuf : buf.length = 188) :
    Parse.loop first (todo + 1) p pb buf off n =
      Parse.loop first todo
        { Source := rest, Synced := p.Synced, BytesRead := p.BytesRead + 188,
          BytesParsed := p.BytesParsed + 188, PacketsParsed := p.PacketsParsed + 1 }
        ((aliasPayloads f first off 0 pb).set off (decodeFrame f)) f (off + 1) (n + 1) := by
  obtain ⟨hfl, hf0⟩ := hf
  have hr : ReadFull p.Source buf = { n := 188, buf := f, src := rest, err := none } := by
    rw [ReadFull_ok _ _ (by rw [hs, List.length_append]; omega), hbuf, hs,
      List.take_left' hfl, List.drop_left' hfl]
  have hoff2 : off < (aliasPayloads f first off 0 pb).length := by
    rw [length_aliasPayloads]; exact hoff
  rw [Parse.loop]
  simp only [hr, List.getElem?_eq_getElem hoff2]
  rw [ParsePacket_ok _ _ f 0 (by omega) hf0, slice_full f hfl]
  rfl

theorem loop_frames (first : Nat) :
    ∀ (fs : List (List Byte)) (todo : Nat) (p : MPEGTSParser) (pb : List MPEGTSPacket)
      (buf : List Byte) (off : Nat) (n : Int) (rest : List Byte),
      p.Source = fs.flatten ++ rest → (∀ f ∈ fs, ValidFrame f) →
      off + fs.length ≤ pb.length → fs.length ≤ todo → buf.length = 188 →
      ∃ pb2 buf2, Parse.loop first todo p pb buf off n =
          Parse.loop first (todo - fs.length)
            { Source := rest, Synced := p.Synced, BytesRead := p.BytesRead + 188 * fs.length,
              BytesParsed := p.BytesParsed + 188 * fs.length,
              PacketsParsed := p.PacketsParsed + fs.length }
            pb2 buf2 (off + fs.length) (n + fs.length) ∧
        pb2.length = pb.length ∧ buf2.length = 188 ∧
        (pb2.take (off + fs.length)).map header =
          (pb.take off).map header ++ fs.map (fun f => header (decodeFrame f)) := by
  intro fs
  induction fs with
  | nil =>
    intro todo p pb buf off n rest hs _ _ _ hbuf
    refine ⟨pb, buf, ?_, rfl, hbuf, by simp⟩
    simp only [List.flatten_nil, List.nil_append] at hs
    simp only [List.length_nil, Nat.sub_zero, Nat.cast_zero, mul_zero, add_zero, Nat.add_zero]
    rw [← hs]
  | cons f fs ih =>
    intro todo p pb buf off n rest hs hv hoff htodo hbuf
    simp only [List.length_cons] at hoff htodo
    obtain ⟨t, rfl⟩ : ∃ t, todo = t + 1 := ⟨todo - 1, by omega⟩
    have hf : ValidFrame f := hv f (List.mem_cons_self _ _)
    rw [List.flatten_cons, List.append_assoc] at hs
    rw [loop_step_ok first t p pb buf off n f (fs.flatten ++ rest) hs hf (by omega) hbuf]
    obtain ⟨pb2, buf2, h1, h2, h3, h4⟩ := ih t
      { Source := fs.flatten ++ rest, Synced := p.Synced, BytesRead := p.BytesRead + 188,
        BytesParsed := p.BytesParsed + 188, PacketsParsed := p.PacketsParsed + 1 }
      ((aliasPayloads f first off 0 pb).set off (decodeFrame f)) f (off + 1) (n + 1) rest rfl
      (fun g hg => hv g (List.mem_cons_of_mem _ hg))
      (by rw [List.length_set, length_aliasPayloads]; omega) (by omega) hf.1
    refine ⟨pb2, buf2, ?_, ?_, h3, ?_⟩
    · rw [h1]
      have e1 : t + 1 - (fs.length + 1) = t - fs.length := by omega
      have e2 : off + (fs.length + 1) = off + 1 + fs.length := by omega
      have e3 : n + 1 + (fs.length : Int) = n + ((fs.length + 1 : Nat) : Int) := by
        push_cast; ring
      have e4 : p.BytesRead + 188 + 188 * (fs.length : Int) =
          p.BytesRead + 188 * ((fs.length + 1 : Nat) : Int) := by push_cast; ring
      have e5 : p.BytesParsed + 188 + 188 * (fs.length : Int) =
          p.BytesParsed + 188 * ((fs.length + 1 : Nat) : Int) := by push_cast; ring
      have e6 : p.PacketsParsed + 1 + (fs.length : Int) =
          p.PacketsParsed + ((fs.length + 1 : Nat) : Int) := by push_cast; ring
      simp only [List.length_cons, e1, e2, e3, e4, e5, e6]
    · rw [h2, List.length_set, length_aliasPayloads]
    · have e2 : off + (fs.length + 1) = off + 1 + fs.length := by omega
      rw [List.length_cons, e2, h4, take_succ_set _ _ _ (by rw [length_aliasPayloads]; omega),
        List.map_append, List.map_take, map_header_aliasPayloads, ← List.map_take]
      simp

theorem length_buffer0 : (List.replicate MPEGTS_PACKET_SIZE (0 : Byte)).length = 188 := by
  rw [List.length_replicate]; rfl

/-- The fill loop at the clean end of the stream. -/
theorem loop_eof (first todo : Nat) (p : MPEGTSParser) (pb : List MPEGTSPacket)
    (buf : List Byte) (off : Nat) (n : Int) (hs : p.Source = []) (hbuf : buf.length = 188) :
    Parse.loop first (todo + 1) p pb buf off n =
      some { p := { p with Source := [], BytesRead := p.BytesRead + 0 }
             packetBuffer := aliasPayloads buf first off 0 pb
             n := n
             err := if n > 0 then none else some GoError.EOF } := by
  rw [Parse.loop]
  simp only [hs, ReadFull_eof buf (by omega)]
  by_cases h : n > 0
  · simp [h]
  · simp [h]

/-- The fill loop on a stream that ends inside a frame. -/
theorem loop_short (first todo : Nat) (p : MPEGTSParser) (pb : List MPEGTSPacket)
    (buf : List Byte) (off : Nat) (n : Int) (h0 : 0 < p.Source.length)
    (h1 : p.Source.length < 188) (hbuf : buf.length = 188) :
    Parse.loop first (todo + 1) p pb buf off n =
      some { p := { p with Source := [], BytesRead := p.BytesRead + p.Source.length }
             packetBuffer :=
               aliasPayloads (p.Source ++ buf.drop p.Source.length) first off 0 pb
             n := n
             err := some GoError.ErrUnexpectedEOF } := by
  rw [Parse.loop]
  simp only [ReadFull_short p.Source buf (by omega) h0]
  simp

theorem set_getElem_same (l : List MPEGTSPacket) (i : Nat) (h : i < l.length) :
    l.set i l[i] = l := by
  induction l generalizing i with
  | nil => simp at h
  | cons a t ih =>
    cases i with
    | zero => rfl
    | succ j =>
      simp only [List.length_cons, Nat.add_lt_add_iff_right] at h
      simp only [List.getElem_cons_succ, List.set_cons_succ, ih j h]

/-- The fill loop on a frame that does not start with the sync byte. -/
theorem loop_bad (first todo : Nat) (p : MPEGTSParser) (pb : List MPEGTSPacket)
    (buf : List Byte) (off : Nat) (n : Int) (f rest : List Byte)
    (hs : p.Source = f ++ rest) (hfl : f.length = 188) (hf0 : f[0]? ≠ some MPEGTS_SYNC_BYTE)
    (hoff : off < pb.length) (hbuf : buf.length = 188) :
    Parse.loop first (todo + 1) p pb buf off n =
      some { p := { p with Source := rest, BytesRead := p.BytesRead + 188 }
             packetBuffer := aliasPayloads f first off 0 pb
             n := n
             err := some (GoError.Parser
               { Message := "No sync byte present", BytesRead := p.BytesRead + 188,
                 PacketsParsed := p.PacketsParsed }) } := by
  have hr : ReadFull p.Source buf = { n := 188, buf := f, src := rest, err := none } := by
    rw [ReadFull_ok _ _ (by rw [hs, List.length_append]; omega), hbuf, hs,
      List.take_left' hfl, List.drop_left' hfl]
  have hoff2 : off < (aliasPayloads f first off 0 pb).length := by
    rw [length_aliasPayloads]; exact hoff
  rw [Parse.loop]
  simp only [hr, List.getElem?_eq_getElem hoff2]
  rw [ParsePacket_no_sync _ _ f 0 (by omega) hf0]
  simp only [set_getElem_same]
  rfl

theorem Parse_synced (p : MPEGTSParser) (pb : List MPEGTSPacket) (h : p.Synced = true) :
    Parse p pb =
      Parse.loop 0 pb.length p pb (List.replicate MPEGTS_PACKET_SIZE 0) 0 0 := by
  unfold Parse
  simp [h]

theorem Parse_sync_err (p : MPEGTSParser) (pb : List MPEGTSPacket) (h : p.Synced = false)
    (s : SyncResult) (hs : sync p = some s) (e : GoError) (he : s.err = some e) :
    Parse p pb = some { p := s.p, packetBuffer := pb, n := 0, err := some e } := by
  unfold Parse
  simp [h, hs, he]

theorem Parse_sync_ok (p q : MPEGTSParser) (pb : List MPEGTSPacket) (h : p.Synced = false)
    (k0 k1 k2 : MPEGTSPacket)
    (hs : sync p = some { p := q, packets := [k0, k1, k2], err := none })
    (hL : 3 ≤ pb.length) :
    Parse p pb =
      Parse.loop 3 (pb.length - 3) { q with Synced := true }
        (((pb.set 0 k0).set 1 k1).set 2 k2) (List.replicate MPEGTS_PACKET_SIZE 0) 3 3 := by
  have h0 : 0 < pb.length := by omega
  have h1 : 1 < pb.length := by omega
  have h2 : 2 < pb.length := by omega
  unfold Parse
  simp [h, hs, setSlot, h0, h1, h2]

theorem slice_append_mid (a f c : List Byte) (lo hi : Nat) (hlo : lo = a.length)
    (hhi : hi = a.length + f.length) : slice (a ++ (f ++ c)) lo hi = f := by
  subst hlo hhi
  unfold slice
  rw [← List.append_assoc, List.take_left' (by rw [List.length_append]), List.drop_left]

theorem getElem?_append_mid (a f c : List Byte) (i : Nat) (hi : i = a.length)
    (hf : 0 < f.length) : (a ++ (f ++ c))[i]? = f[0]? := by
  subst hi
  rw [List.getElem?_append_right (le_refl _), Nat.sub_self, List.getElem?_append_left hf]

/-- Synchronisation on `g`, three frames that start with the sync byte, and
anything after them, when no earlier offset shows the three sync bytes. -/
theorem sync_frames (p : MPEGTSParser) (g f1 f2 f3 rest : List Byte)
    (hs : p.Source = g ++ (f1 ++ (f2 ++ (f3 ++ rest))))
    (h1 : ValidFrame f1) (h2 : ValidFrame f2) (h3 : ValidFrame f3) (hg : g.length < 188)
    (hmin : ∀ o1, o1 < g.length → ¬ TripleAt p.Source o1) :
    sync p =
      some { p := { Source := rest, Synced := p.Synced,
                    BytesRead := p.BytesRead + 564 + g.length,
                    BytesParsed := p.BytesParsed + 188 + g.length + 188 + 188,
                    PacketsParsed := p.PacketsParsed + 1 + 1 + 1 }
             packets := [decodeFrame f1, decodeFrame f2, decodeFrame f3]
             err := none } := by
  obtain ⟨l1, z1⟩ := h1
  obtain ⟨l2, z2⟩ := h2
  obtain ⟨l3, z3⟩ := h3
  have a2 : p.Source = (g ++ f1) ++ (f2 ++ (f3 ++ rest)) := by
    rw [hs, List.append_assoc]
  have a3 : p.Source = (g ++ f1 ++ f2) ++ (f3 ++ rest) := by
    rw [hs]; simp only [List.append_assoc]
  have a4 : p.Source = (g ++ f1 ++ f2 ++ f3) ++ rest := by
    rw [hs]; simp only [List.append_assoc]
  have hlen : p.Source.length = g.length + 564 + rest.length := by
    rw [hs]; simp only [List.length_append, l1, l2, l3]; omega
  have ht : TripleAt p.Source g.length := by
    refine ⟨?_, ?_, ?_⟩
    · rw [hs, getElem?_append_mid g f1 _ _ rfl (by omega)]; exact z1
    · rw [a2, getElem?_append_mid (g ++ f1) f2 _ _ (by rw [List.length_append, l1]) (by omega)]
      exact z2
    · rw [a3, getElem?_append_mid (g ++ f1 ++ f2) f3 _ _
        (by simp only [List.length_append, l1, l2]) (by omega)]
      exact z3
  rw [sync_aligned p g.length hg (by omega) ht hmin]
  have s1 : slice p.Source g.length (g.length + 188) = f1 := by
    rw [hs]; exact slice_append_mid g f1 _ _ _ rfl (by rw [l1])
  have s2 : slice p.Source (g.length + 188) (g.length + 376) = f2 := by
    rw [a2]
    exact slice_append_mid (g ++ f1) f2 _ _ _ (by rw [List.length_append, l1])
      (by rw [List.length_append, l1, l2])
  have s3 : slice p.Source (g.length + 376) (g.length + 564) = f3 := by
    rw [a3]
    exact slice_append_mid (g ++ f1 ++ f2) f3 _ _ _ (by simp only [List.length_append, l1, l2])
      (by simp only [List.length_append, l1, l2, l3])
  have s4 : List.drop (564 + g.length) p.Source = rest := by
    rw [a4]
    exact List.drop_left' (by simp only [List.length_append, l1, l2, l3]; omega)
  rw [s1, s2, s3, s4]

/-- A call on a synchronised parser whose source starts with the frames `fs`:
the fill loop decodes them into the first slots. -/
theorem synced_call (p : MPEGTSParser) (pb : List MPEGTSPacket) (fs : List (List Byte))
    (rest : List Byte) (hsy : p.Synced = true) (hs : p.Source = fs.flatten ++ rest)
    (hv : ∀ f ∈ fs, ValidFrame f) (hL : fs.length ≤ pb.length) :
    ∃ pb2 buf2, Parse p pb =
        Parse.loop 0 (pb.length - fs.length)
          { Source := rest, Synced := true, BytesRead := p.BytesRead + 188 * fs.length,
            BytesParsed := p.BytesParsed + 188 * fs.length,
            PacketsParsed := p.PacketsParsed + fs.length }
          pb2 buf2 fs.length fs.length ∧
      pb2.length = pb.length ∧ buf2.length = 188 ∧
      (pb2.take fs.length).map header = fs.map (fun f => header (decodeFrame f)) := by
  obtain ⟨pb2, buf2, h1, h2, h3, h4⟩ := loop_frames 0 fs pb.length p pb
    (List.replicate MPEGTS_PACKET_SIZE 0) 0 0 rest hs hv (by omega) hL length_buffer0
  refine ⟨pb2, buf2, ?_, h2, h3, ?_⟩
  · rw [Parse_synced p pb hsy, h1, hsy]
    simp only [Nat.zero_add, zero_add]
  · simpa using h4

/-- The first call on a source that starts with `g`, then at least three
frames `fs`: synchronisation decodes three of them and the fill loop the
others. -/
theorem first_call (p : MPEGTSParser) (pb : List MPEGTSPacket) (g : List Byte)
    (fs : List (List Byte)) (rest : List Byte) (hsy : p.Synced = false)
    (hs : p.Source = g ++ (fs.flatten ++ rest)) (hv : ∀ f ∈ fs, ValidFrame f)
    (hK : 3 ≤ fs.length) (hL : fs.length ≤ pb.length) (hg : g.length < 188)
    (hmin : ∀ o1, o1 < g.length → ¬ TripleAt p.Source o1) :
    ∃ pb2 buf2, Parse p pb =
        Parse.loop 3 (pb.length - fs.length)
          { Source := rest, Synced := true,
            BytesRead := p.BytesRead + g.length + 188 * fs.length,
            BytesParsed := p.BytesParsed + g.length + 188 * fs.length,
            PacketsParsed := p.PacketsParsed + fs.length }
          pb2 buf2 fs.length fs.length ∧
      pb2.length = pb.length ∧ buf2.length = 188 ∧
      (pb2.take fs.length).map header = fs.map (fun f => header (decodeFrame f)) := by
  match fs, hK with
  | f1 :: f2 :: f3 :: ft, _ =>
    have v1 : ValidFrame f1 := hv f1 (by simp)
    have v2 : ValidFrame f2 := hv f2 (by simp)
    have v3 : ValidFrame f3 := hv f3 (by simp)
    have hs2 : p.Source = g ++ (f1 ++ (f2 ++ (f3 ++ (ft.flatten ++ rest)))) := by
      rw [hs]; simp only [List.flatten_cons, List.append_assoc]
    simp only [List.length_cons] at hL
    have hsync := sync_frames p g f1 f2 f3 (ft.flatten ++ rest) hs2 v1 v2 v3 hg hmin
    rw [Parse_sync_ok p _ pb hsy _ _ _ hsync (by omega)]
    obtain ⟨pb2, buf2, h1, h2, h3, h4⟩ := loop_frames 3 ft (pb.length - 3)
      { Source := ft.flatten ++ rest, Synced := true,
        BytesRead := p.BytesRead + 564 + g.length,
        BytesParsed := p.BytesParsed + 188 + g.length + 188 + 188,
        PacketsParsed := p.PacketsParsed + 1 + 1 + 1 }
      (((pb.set 0 (decodeFrame f1)).set 1 (decodeFrame f2)).set 2 (decodeFrame f3))
      (List.replicate MPEGTS_PACKET_SIZE 0) 3 3 rest rfl
      (fun f hf => hv f (by simp [hf])) (by simp only [List.length_set]; omega) (by omega)
      length_buffer0
    refine ⟨pb2, buf2, ?_, ?_, h3, ?_⟩
    · rw [h1]
      have e1 : pb.length - 3 - ft.length = pb.length - (ft.length + 1 + 1 + 1) := by omega
      have e2 : 3 + ft.length = ft.length + 1 + 1 + 1 := by omega
      have e3 : (3 : Int) + (ft.length : Int) = ((ft.length + 1 + 1 + 1 : Nat) : Int) := by
        push_cast; ring
      have e4 : p.BytesRead + 564 + (g.length : Int) + 188 * (ft.length : Int) =
          p.BytesRead + g.length + 188 * ((ft.length + 1 + 1 + 1 : Nat) : Int) := by
        push_cast; ring
      have e5 : p.BytesParsed + 188 + (g.length : Int) + 188 + 188 + 188 * (ft.length : Int) =
          p.BytesParsed + g.length + 188 * ((ft.length + 1 + 1 + 1 : Nat) : Int) := by
        push_cast; ring
      have e6 : p.PacketsParsed + 1 + 1 + 1 + (ft.length : Int) =
          p.PacketsParsed + ((ft.length + 1 + 1 + 1 : Nat) : Int) := by
        push_cast; ring
      simp only [List.length_cons, e1, e2, e3, e4, e5, e6]
    · rw [h2]; simp only [List.length_set]
    · have e2 : (f1 :: f2 :: f3 :: ft).length = 3 + ft.length := by
        simp only [List.length_cons]; omega
      rw [e2, h4]
      have hp : List.take 3 (((pb.set 0 (decodeFrame f1)).set 1 (decodeFrame f2)).set 2
          (decodeFrame f3)) = [decodeFrame f1, decodeFrame f2, decodeFrame f3] := by
        match pb, hL with
        | a :: b :: c :: t, _ => rfl
      rw [hp]
      rfl

/-- The fill loop when the slots are full or the stream has ended cleanly, with
at least one packet produced: the call returns its count and no error. -/
theorem loop_finish_clean (first todo : Nat) (q : MPEGTSParser) (pb : List MPEGTSPacket)
    (buf : List Byte) (off : Nat) (n : Int) (h : todo = 0 ∨ q.Source = []) (hn : 0 < n)
    (hbuf : buf.length = 188) :
    ∃ r, Parse.loop first todo q pb buf off n = some r ∧ r.err = none ∧ r.n = n ∧
      r.p.Source = q.Source ∧ r.p.Synced = q.Synced ∧ r.p.BytesRead = q.BytesRead ∧
      r.p.BytesParsed = q.BytesParsed ∧ r.p.PacketsParsed = q.PacketsParsed ∧
      r.packetBuffer.length = pb.length ∧ r.packetBuffer.map header = pb.map header := by
  cases todo with
  | zero => exact ⟨_, rfl, rfl, rfl, rfl, rfl, rfl, rfl, rfl, rfl, rfl⟩
  | succ t =>
    have hs : q.Source = [] := by
      rcases h with h | h
      · omega
      · exact h
    rw [loop_eof first t q pb buf off n hs hbuf]
    refine ⟨_, rfl, ?_, rfl, ?_, rfl, ?_, rfl, rfl, ?_, ?_⟩
    · simp [hn]
    · simp [hs]
    · simp
    · simp [length_aliasPayloads]
    · simp [map_header_aliasPayloads]

/-- A call on a synchronised parser at the clean end of the stream. -/
theorem Parse_at_end (p : MPEGTSParser) (pb : List MPEGTSPacket) (hsy : p.Synced = true)
    (hs : p.Source = []) (hL : 1 ≤ pb.length) :
    ∃ r, Parse p pb = some r ∧ r.n = 0 ∧ r.err = some GoError.EOF ∧
      r.p.Source = [] ∧ r.p.Synced = true ∧ r.p.BytesRead = p.BytesRead ∧
      r.p.BytesParsed = p.BytesParsed ∧ r.p.PacketsParsed = p.PacketsParsed := by
  obtain ⟨t, ht⟩ : ∃ t, pb.length = t + 1 := ⟨pb.length - 1, by omega⟩
  rw [Parse_synced p pb hsy, ht, loop_eof 0 t p pb _ 0 0 hs length_buffer0]
  refine ⟨_, rfl, rfl, ?_, rfl, hsy, ?_, rfl, rfl⟩
  · simp
  · simp

theorem flatten_take_drop (frames : List (List Byte)) (m : Nat) :
    frames.flatten = (frames.take m).flatten ++ (frames.drop m).flatten := by
  rw [← List.flatten_append, List.take_append_drop]

theorem clean_finish_cond (frames : List (List Byte)) (L : Nat) :
    L - (frames.take (min L frames.length)).length = 0 ∨
      (frames.drop (min L frames.length)).flatten = [] := by
  by_cases h : L ≤ frames.length
  · left
    rw [List.length_take, Nat.min_eq_left h, Nat.min_eq_left h]; omega
  · right
    rw [Nat.min_eq_right (by omega), List.drop_length]; rfl

/-- A call on a synchronised parser in front of whole frames only: it delivers
as many of them as the slots hold. -/
theorem call_clean (p : MPEGTSParser) (pb : List MPEGTSPacket) (frames : List (List Byte))
    (hsy : p.Synced = true) (hs : p.Source = frames.flatten)
    (hv : ∀ f ∈ frames, ValidFrame f) (hne : 1 ≤ frames.length) (hL : 1 ≤ pb.length) :
    ∃ r, Parse p pb = some r ∧ r.err = none ∧
      r.n = ((min pb.length frames.length : Nat) : Int) ∧
      r.p.Synced = true ∧ r.p.Source = (frames.drop (min pb.length frames.length)).flatten ∧
      r.p.BytesRead = p.BytesRead + 188 * ((min pb.length frames.length : Nat) : Int) ∧
      r.p.BytesParsed = p.BytesParsed + 188 * ((min pb.length frames.length : Nat) : Int) ∧
      r.p.PacketsParsed = p.PacketsParsed + ((min pb.length frames.length : Nat) : Int) ∧
      r.packetBuffer.length = pb.length ∧
      (r.packetBuffer.take (min pb.length frames.length)).map header =
        (frames.take (min pb.length frames.length)).map (fun f => header (decodeFrame f)) := by
  have hm : (frames.take (min pb.length frames.length)).length = min pb.length frames.length := by
    rw [List.length_take]; omega
  have hmpos : 0 < min pb.length frames.length := by omega
  obtain ⟨pb2, buf2, h1, h2, h3, h4⟩ := synced_call p pb
    (frames.take (min pb.length frames.length))
    (frames.drop (min pb.length frames.length)).flatten hsy
    (by rw [hs]; exact flatten_take_drop frames _)
    (fun f hf => hv f (List.mem_of_mem_take hf)) (by rw [hm]; omega)
  obtain ⟨r, e1, e2, e3, e4, e5, e6, e7, e8, e9, e10⟩ := loop_finish_clean 0
    (pb.length - (frames.take (min pb.length frames.length)).length)
    { Source := (frames.drop (min pb.length frames.length)).flatten, Synced := true,
      BytesRead := p.BytesRead + 188 * (frames.take (min pb.length frames.length)).length,
      BytesParsed := p.BytesParsed + 188 * (frames.take (min pb.length frames.length)).length,
      PacketsParsed := p.PacketsParsed + (frames.take (min pb.length frames.length)).length }
    pb2 buf2 (frames.take (min pb.length frames.length)).length
    (frames.take (min pb.length frames.length)).length
    (clean_finish_cond frames pb.length)
    (by rw [hm]; exact_mod_cast hmpos) h3
  rw [hm] at e3 e6 e7 e8 h4
  rw [h1]
  refine ⟨r, e1, e2, e3, e5, e4, e6, e7, e8, ?_, ?_⟩
  · rw [e9, h2]
  · rw [List.map_take, e10, ← List.map_take, h4]

/-- The first call on a new parser in front of at least three whole frames. -/
theorem call_clean_first (p : MPEGTSParser) (pb : List MPEGTSPacket)
    (frames : List (List Byte)) (hsy : p.Synced = false) (hs : p.Source = frames.flatten)
    (hv : ∀ f ∈ frames, ValidFrame f) (hK : 3 ≤ frames.length) (hL : 3 ≤ pb.length) :
    ∃ r, Parse p pb = some r ∧ r.err = none ∧
      r.n = ((min pb.length frames.length : Nat) : Int) ∧
      r.p.Synced = true ∧ r.p.Source = (frames.drop (min pb.length frames.length)).flatten ∧
      r.p.BytesRead = p.BytesRead + 188 * ((min pb.length frames.length : Nat) : Int) ∧
      r.p.BytesParsed = p.BytesParsed + 188 * ((min pb.length frames.length : Nat) : Int) ∧
      r.p.PacketsParsed = p.PacketsParsed + ((min pb.length frames.length : Nat) : Int) ∧
      r.packetBuffer.length = pb.length ∧
      (r.packetBuffer.take (min pb.length frames.length)).map header =
        (frames.take (min pb.length frames.length)).map (fun f => header (decodeFrame f)) := by
  have hm : (frames.take (min pb.length frames.length)).length = min pb.length frames.length := by
    rw [List.length_take]; omega
  have hmpos : 3 ≤ min pb.length frames.length := by omega
  obtain ⟨pb2, buf2, h1, h2, h3, h4⟩ := first_call p pb []
    (frames.take (min pb.length frames.length))
    (frames.drop (min pb.length frames.length)).flatten hsy
    (by rw [hs, List.nil_append]; exact flatten_take_drop frames _)
    (fun f hf => hv f (List.mem_of_mem_take hf)) (by rw [hm]; omega) (by rw [hm]; omega)
    (by simp) (by simp)
  obtain ⟨r, e1, e2, e3, e4, e5, e6, e7, e8, e9, e10⟩ := loop_finish_clean 3
    (pb.length - (frames.take (min pb.length frames.length)).length)
    { Source := (frames.drop (min pb.length frames.length)).flatten, Synced := true,
      BytesRead := p.BytesRead + (([] : List Byte).length : Int) +
        188 * (frames.take (min pb.length frames.length)).length,
      BytesParsed := p.BytesParsed + (([] : List Byte).length : Int) +
        188 * (frames.take (min pb.length frames.length)).length,
      PacketsParsed := p.PacketsParsed + (frames.take (min pb.length frames.length)).length }
    pb2 buf2 (frames.take (min pb.length frames.length)).length
    (frames.take (min pb.length frames.length)).length
    (clean_finish_cond frames pb.length)
    (by rw [hm]; exact_mod_cast (by omega : 0 < min pb.length frames.length)) h3
  rw [hm] at e3 e6 e7 e8 h4
  rw [h1]
  refine ⟨r, e1, e2, e3, e5, e4, ?_, ?_, e8, ?_, ?_⟩
  · rw [e6]; simp
  · rw [e7]; simp
  · rw [e9, h2]
  · rw [List.map_take, e10, ← List.map_take, h4]

/-- Synchronisation on a full window without three sync bytes 188 apart. -/
theorem sync_none (p : MPEGTSParser) (hlen : 564 ≤ p.Source.length)
    (hno : ∀ o, o < 188 → ¬ TripleAt p.Source o) :
    sync p =
      some { p := { p with Source := p.Source.drop 564, BytesRead := p.BytesRead + 564 }
             packets := []
             err := some (GoError.Parser
               { Message := "No sync byte present", BytesRead := p.BytesRead + 564,
                 PacketsParsed := p.PacketsParsed }) } := by
  have hwl : (p.Source.take 564).length = 564 := by
    rw [List.length_take]; omega
  rw [sync_window p hlen, sync_loop_none _ _ hwl 188 0 (by omega)
    (fun o1 _ h2 => fun h => hno o1 h2 ((TripleAt_take _ _ h2).mp h))]
  rfl

/-- Synchronisation that finds an alignment at `o` but meets the end of the
stream while reading the tail of the third frame. -/
theorem sync_tail_short (p : MPEGTSParser) (o : Nat) (ho : o < 188)
    (hlen : 564 ≤ p.Source.length) (hlen2 : p.Source.length < 564 + o)
    (ht : TripleAt p.Source o) (hmin : ∀ o1, o1 < o → ¬ TripleAt p.Source o1) :
    sync p =
      some { p := { Source := [], Synced := p.Synced,
                    BytesRead := p.BytesRead + 564 + ((p.Source.length - 564 : Nat) : Int),
                    BytesParsed := p.BytesParsed + 188 + o + 188,
                    PacketsParsed := p.PacketsParsed + 1 + 1 }
             packets := []
             err := some (if p.Source.length = 564 then GoError.EOF
                          else GoError.ErrUnexpectedEOF) } := by
  have hwl : (p.Source.take 564).length = 564 := by
    rw [List.length_take]; omega
  rw [sync_window p hlen,
    sync_loop_found _ _ hwl o ho ((TripleAt_take _ _ ho).mpr ht) 188 0 (by omega) (by omega)
      (fun o1 _ h2 => fun h => hmin o1 h2 ((TripleAt_take _ _ (by omega)).mp h)),
    sync_found_eq _ _ hwl o ho ((TripleAt_take _ _ ho).mpr ht)]
  simp only []
  have hdl : (List.drop 564 p.Source).length = p.Source.length - 564 := List.length_drop _ _
  rcases ReadFull_cases (List.drop 564 p.Source) (List.replicate o 0) with
    ⟨hl, _⟩ | ⟨he, _, hr⟩ | ⟨h0, _, hr⟩
  · rw [List.length_replicate, hdl] at hl; omega
  · rw [hr]
    have h564 : p.Source.length = 564 := by
      have := congrArg List.length he
      rw [hdl, List.length_nil] at this; omega
    simp only [h564, if_true, Nat.sub_self, Nat.cast_zero, add_zero]
  · rw [hr]
    have h564 : ¬ p.Source.length = 564 := by
      rw [hdl] at h0; omega
    simp only [h564, if_false, hdl]

/-- The four ways `sync` can end. -/
theorem sync_cases (p : MPEGTSParser) :
    (p.Source.length < 564 ∧
      sync p = some { p := { p with Source := [], BytesRead := p.BytesRead + p.Source.length },
                      packets := [],
                      err := some (if p.Source = [] then GoError.EOF
                                   else GoError.ErrUnexpectedEOF) }) ∨
    (564 ≤ p.Source.length ∧ (∀ o, o < 188 → ¬ TripleAt p.Source o) ∧
      sync p = some { p := { p with Source := p.Source.drop 564,
                                    BytesRead := p.BytesRead + 564 }
                      packets := []
                      err := some (GoError.Parser
                        { Message := "No sync byte present", BytesRead := p.BytesRead + 564,
                          PacketsParsed := p.PacketsParsed }) }) ∨
    (∃ o, o < 188 ∧ TripleAt p.Source o ∧ (∀ o1, o1 < o → ¬ TripleAt p.Source o1) ∧
      564 ≤ p.Source.length ∧ p.Source.length < 564 + o ∧
      sync p = some { p := { Source := [], Synced := p.Synced,
                             BytesRead := p.BytesRead + 564 +
                               ((p.Source.length - 564 : Nat) : Int),
                             BytesParsed := p.BytesParsed + 188 + o + 188,
                             PacketsParsed := p.PacketsParsed + 1 + 1 }
                      packets := []
                      err := some (if p.Source.length = 564 then GoError.EOF
                                   else GoError.ErrUnexpectedEOF) }) ∨
    (∃ o, o < 188 ∧ TripleAt p.Source o ∧ (∀ o1, o1 < o → ¬ TripleAt p.Source o1) ∧
      564 + o ≤ p.Source.length ∧
      sync p = some { p := { Source := p.Source.drop (564 + o), Synced := p.Synced,
                             BytesRead := p.BytesRead + 564 + o,
                             BytesParsed := p.BytesParsed + 188 + o + 188 + 188,
                             PacketsParsed := p.PacketsParsed + 1 + 1 + 1 }
                      packets := [decodeFrame (slice p.Source o (o + 188)),
                                  decodeFrame (slice p.Source (o + 188) (o + 376)),
                                  decodeFrame (slice p.Source (o + 376) (o + 564))]
                      err := none }) := by
  by_cases h1 : p.Source.length < 564
  · exact Or.inl ⟨h1, sync_short p h1⟩
  · have h564 : 564 ≤ p.Source.length := by omega
    by_cases hex : ∃ o, o < 188 ∧ TripleAt p.Source o
    · have ho := Nat.find_spec hex
      have hmin : ∀ o1, o1 < Nat.find hex → ¬ TripleAt p.Source o1 := by
        intro o1 h hT
        exact Nat.find_min hex h ⟨by omega, hT⟩
      by_cases h2 : p.Source.length < 564 + Nat.find hex
      · exact Or.inr (Or.inr (Or.inl ⟨Nat.find hex, ho.1, ho.2, hmin, h564, h2,
          sync_tail_short p _ ho.1 h564 h2 ho.2 hmin⟩))
      · exact Or.inr (Or.inr (Or.inr ⟨Nat.find hex, ho.1, ho.2, hmin, by omega,
          sync_aligned p _ ho.1 (by omega) ho.2 hmin⟩))
    · have hno : ∀ o, o < 188 → ¬ TripleAt p.Source o := fun o h hT => hex ⟨o, h, hT⟩
      exact Or.inr (Or.inl ⟨h564, hno, sync_none p h564 hno⟩)

/-- What any run of the fill loop does to the parser: `m` packets decoded out
of `j` bytes read, `188*m ≤ j`. -/
theorem loop_effect (first : Nat) :
    ∀ (todo : Nat) (p : MPEGTSParser) (pb : List MPEGTSPacket) (buf : List Byte) (off : Nat)
      (n : Int) (r : ParseResult), buf.length = 188 →
      Parse.loop first todo p pb buf off n = some r →
      ∃ m j : Nat, r.p.PacketsParsed = p.PacketsParsed + m ∧
        r.p.BytesParsed = p.BytesParsed + 188 * (m : Int) ∧
        r.p.BytesRead = p.BytesRead + j ∧ r.p.Synced = p.Synced ∧
        r.p.Source = p.Source.drop j ∧ 188 * m ≤ j ∧ j ≤ p.Source.length ∧
        r.n = n + m := by
  intro todo
  induction todo with
  | zero =>
    intro p pb buf off n r _ h
    rw [Parse.loop] at h
    cases h
    exact ⟨0, 0, by simp, by simp, by simp, rfl, by simp, by omega, by omega, by simp⟩
  | succ t ih =>
    intro p pb buf off n r hbuf h
    rcases ReadFull_cases p.Source buf with ⟨hl, hr⟩ | ⟨he, _, hr⟩ | ⟨h0, h1, hr⟩
    · rw [hbuf] at hl hr
      have htl : (List.take 188 p.Source).length = 188 := by
        rw [List.length_take]; omega
      rw [Parse.loop] at h
      simp only [hr] at h
      cases hslot : (aliasPayloads (List.take 188 p.Source) first off 0 pb)[off]? with
      | none => rw [hslot] at h; simp at h
      | some slot =>
        rw [hslot] at h
        simp only [] at h
        by_cases hb : (List.take 188 p.Source)[0]? = some MPEGTS_SYNC_BYTE
        · rw [ParsePacket_ok _ _ _ 0 (by omega) hb] at h
          simp only [] at h
          obtain ⟨m, j, a1, a2, a3, a4, a5, a6, a7, a8⟩ := ih _ _ _ _ _ r htl h
          simp only [List.length_drop, List.drop_drop] at a1 a2 a3 a4 a5 a7
          refine ⟨m + 1, 188 + j, ?_, ?_, ?_, a4, ?_, by omega, by omega, ?_⟩
          · rw [a1]; push_cast; ring
          · rw [a2]; push_cast; ring
          · rw [a3]; push_cast; ring
          · rw [a5]
          · rw [a8]; push_cast; ring
        · rw [ParsePacket_no_sync _ _ _ 0 (by omega) hb] at h
          simp only [Option.some.injEq] at h
          subst h
          exact ⟨0, 188, by simp, by simp, by simp, rfl, rfl, by omega, hl, by simp⟩
    · rw [Parse.loop] at h
      simp only [hr] at h
      by_cases hn : n > 0
      · simp only [hn, and_true, if_true, Option.some.injEq] at h
        subst h
        exact ⟨0, 0, by simp, by simp, by simp, rfl, by simp [he], by omega, by omega, by simp⟩
      · simp only [hn, and_false, if_false, Option.some.injEq] at h
        subst h
        exact ⟨0, 0, by simp, by simp, by simp, rfl, by simp [he], by omega, by omega, by simp⟩
    · rw [Parse.loop] at h
      simp only [hr] at h
      simp only [reduceCtorEq, false_and, if_false, Option.some.injEq] at h
      subst h
      exact ⟨0, p.Source.length, by simp, by simp, by simp, rfl, by simp, by omega,
        le_refl _, by simp⟩

/-- What any `Parse` call with at least three slots does to the parser: the
fill loop alone on a synchronised parser, one of the three failures of `sync`,
or a synchronisation at offset `o` followed by the fill loop. -/
theorem Parse_cases (p : MPEGTSParser) (pb : List MPEGTSPacket) (r : ParseResult)
    (hL : 3 ≤ pb.length) (h : Parse p pb = some r) :
    (p.Synced = true ∧ ∃ m j : Nat, r.p.PacketsParsed = p.PacketsParsed + m ∧
        r.p.BytesParsed = p.BytesParsed + 188 * (m : Int) ∧
        r.p.BytesRead = p.BytesRead + j ∧ r.p.Synced = true ∧
        r.p.Source = p.Source.drop j ∧ 188 * m ≤ j ∧ j ≤ p.Source.length ∧ r.n = m) ∨
    (p.Synced = false ∧ p.Source.length < 564 ∧ r.n = 0 ∧
        r.err = some (if p.Source = [] then GoError.EOF else GoError.ErrUnexpectedEOF) ∧
        r.p.PacketsParsed = p.PacketsParsed ∧ r.p.BytesParsed = p.BytesParsed ∧
        r.p.BytesRead = p.BytesRead + p.Source.length ∧ r.p.Synced = false ∧
        r.p.Source = []) ∨
    (p.Synced = false ∧ 564 ≤ p.Source.length ∧ (∀ o, o < 188 → ¬ TripleAt p.Source o) ∧
        r.n = 0 ∧
        r.err = some (GoError.Parser
          { Message := "No sync byte present", BytesRead := p.BytesRead + 564,
            PacketsParsed := p.PacketsParsed }) ∧
        r.p.PacketsParsed = p.PacketsParsed ∧ r.p.BytesParsed = p.BytesParsed ∧
        r.p.BytesRead = p.BytesRead + 564 ∧ r.p.Synced = false ∧
        r.p.Source = p.Source.drop 564 ∧ r.packetBuffer = pb) ∨
    (p.Synced = false ∧ ∃ o, o < 188 ∧ TripleAt p.Source o ∧
        (∀ o1, o1 < o → ¬ TripleAt p.Source o1) ∧
        564 ≤ p.Source.length ∧ p.Source.length < 564 + o ∧ r.n = 0 ∧
        r.err = some (if p.Source.length = 564 then GoError.EOF
                      else GoError.ErrUnexpectedEOF) ∧
        r.p.PacketsParsed = p.PacketsParsed + 2 ∧
        r.p.BytesParsed = p.BytesParsed + o + 376 ∧
        r.p.BytesRead = p.BytesRead + p.Source.length ∧ r.p.Synced = false ∧
        r.p.Source = []) ∨
    (p.Synced = false ∧ ∃ o, o < 188 ∧ TripleAt p.Source o ∧
        (∀ o1, o1 < o → ¬ TripleAt p.Source o1) ∧ 564 + o ≤ p.Source.length ∧
        ∃ m j : Nat, r.p.PacketsParsed = p.PacketsParsed + 3 + m ∧
          r.p.BytesParsed = p.BytesParsed + o + 564 + 188 * (m : Int) ∧
          r.p.BytesRead = p.BytesRead + 564 + o + j ∧ r.p.Synced = true ∧
          r.p.Source = p.Source.drop (564 + o + j) ∧ 188 * m ≤ j ∧
          564 + o + j ≤ p.Source.length ∧ r.n = 3 + m) := by
  cases hsy : p.Synced with
  | true =>
    left
    rw [Parse_synced p pb hsy] at h
    obtain ⟨m, j, a1, a2, a3, a4, a5, a6, a7, a8⟩ := loop_effect 0 _ _ _ _ _ _ r length_buffer0 h
    exact ⟨rfl, m, j, a1, a2, a3, by rw [a4, hsy], a5, a6, a7, by rw [a8]; simp⟩
  | false =>
    right
    rcases sync_cases p with ⟨c1, hs⟩ | ⟨c1, c2, hs⟩ | ⟨o, c1, c2, c3, c4, c5, hs⟩ |
      ⟨o, c1, c2, c3, c4, hs⟩
    · left
      rw [Parse_sync_err p pb hsy _ hs _ rfl] at h
      cases h
      exact ⟨rfl, c1, rfl, rfl, rfl, rfl, rfl, hsy, rfl⟩
    · right; left
      rw [Parse_sync_err p pb hsy _ hs _ rfl] at h
      cases h
      exact ⟨rfl, c1, c2, rfl, rfl, rfl, rfl, rfl, hsy, rfl, rfl⟩
    · right; right; left
      rw [Parse_sync_err p pb hsy _ hs _ rfl] at h
      cases h
      refine ⟨rfl, o, c1, c2, c3, c4, c5, rfl, rfl, ?_, ?_, ?_, hsy, rfl⟩
      · simp only; ring
      · simp only; ring
      · simp only; omega
    · right; right; right
      rw [Parse_sync_ok p _ pb hsy _ _ _ hs hL] at h
      obtain ⟨m, j, a1, a2, a3, a4, a5, a6, a7, a8⟩ :=
        loop_effect 3 _ _ _ _ _ _ r length_buffer0 h
      simp only [List.drop_drop, List.length_drop] at a1 a2 a3 a4 a5 a7
      refine ⟨rfl, o, c1, c2, c3, c4, m, j, ?_, ?_, ?_, a4, ?_, a6, by omega, a8⟩
      · rw [a1]; ring
      · rw [a2]; ring
      · rw [a3]
      · rw [a5]

/-- Totality of `ParsePacket`: it always returns, with or without an error; either the packet
is decoded and both counters move, or nothing changes. -/
theorem ParsePacket_cases (p : MPEGTSParser) (packet : MPEGTSPacket) (b : List Byte) (o : Nat) :
    ∃ r, ParsePacket p packet b o = some r ∧
      ((r.err = none ∧ o + 188 ≤ b.length ∧ b[o]? = some MPEGTS_SYNC_BYTE ∧
          r.p = { p with PacketsParsed := p.PacketsParsed + 1,
                         BytesParsed := p.BytesParsed + 188 } ∧
          r.packet = decodeFrame (slice b o (o + 188))) ∨
       (r.err ≠ none ∧ r.p = p ∧ r.packet = packet)) := by
  by_cases h : b.length < o + 188
  · exact ⟨_, ParsePacket_too_small p packet b o h, Or.inr ⟨by simp, rfl, rfl⟩⟩
  · by_cases hb : b[o]? = some MPEGTS_SYNC_BYTE
    · exact ⟨_, ParsePacket_ok p packet b o (by omega) hb,
        Or.inl ⟨rfl, by omega, hb, rfl, rfl⟩⟩
    · exact ⟨_, ParsePacket_no_sync p packet b o (by omega) hb, Or.inr ⟨by simp, rfl, rfl⟩⟩

/-- Repeated calls on a synchronised parser in front of whole frames only
deliver every frame, then report `io.EOF`. -/
theorem drain_clean :
    ∀ (k : Nat) (frames : List (List Byte)), frames.length = k →
      ∀ (p : MPEGTSParser) (pb : List MPEGTSPacket), p.Synced = true →
        p.Source = frames.flatten → (∀ f ∈ frames, ValidFrame f) → 1 ≤ pb.length →
        ∃ calls d, ParseUntilError calls p pb = some d ∧
          d.counts.sum = (k : Int) ∧
          d.delivered = frames.map (fun f => header (decodeFrame f)) ∧
          d.last.n = 0 ∧ d.last.err = some GoError.EOF ∧
          d.last.p.BytesRead = p.BytesRead + 188 * (k : Int) ∧
          d.last.p.BytesParsed = p.BytesParsed + 188 * (k : Int) ∧
          d.last.p.PacketsParsed = p.PacketsParsed + (k : Int) := by
  intro k
  induction k using Nat.strong_induction_on with
  | _ k ih =>
    intro frames hk p pb hsy hs hv hL
    by_cases h0 : k = 0
    · subst h0
      have hf : frames = [] := List.length_eq_zero.mp hk
      subst hf
      obtain ⟨r, a1, a2, a3, _, _, a6, a7, a8⟩ := Parse_at_end p pb hsy (by rw [hs]; rfl) hL
      refine ⟨1, { counts := [], delivered := [], last := r }, ?_, rfl, rfl, a2, a3, ?_, ?_, ?_⟩
      · simp [ParseUntilError, a1, a3]
      · simp [a6]
      · simp [a7]
      · simp [a8]
    · obtain ⟨r, e1, e2, e3, e4, e5, e6, e7, e8, e9, e10⟩ :=
        call_clean p pb frames hsy hs hv (by omega) hL
      have hm1 : 1 ≤ min pb.length frames.length := by omega
      have hm2 : min pb.length frames.length ≤ k := by omega
      obtain ⟨calls, d, b1, b2, b3, b4, b5, b6, b7, b8⟩ := ih (k - min pb.length frames.length)
        (by omega) (frames.drop (min pb.length frames.length))
        (by rw [List.length_drop]; omega) r.p r.packetBuffer e4 e5
        (fun f hf => hv f (List.mem_of_mem_drop hf)) (by rw [e9]; exact hL)
      refine ⟨calls + 1,
        { counts := r.n :: d.counts,
          delivered := (r.packetBuffer.take r.n.toNat).map header ++ d.delivered,
          last := d.last }, ?_, ?_, ?_, b4, b5, ?_, ?_, ?_⟩
      · simp [ParseUntilError, e1, e2, b1]
      · simp only [List.sum_cons, b2, e3]
        push_cast
        omega
      · simp only [e3, Int.toNat_ofNat, e10, b3, ← List.map_append, List.take_append_drop]
      · rw [b6, e6]; push_cast; omega
      · rw [b7, e7]; push_cast; omega
      · rw [b8, e8]; push_cast; omega

theorem BytesRead_step (p : MPEGTSParser) (pb : List MPEGTSPacket) (r : ParseResult)
    (hL : 3 ≤ pb.length) (h : Parse p pb = some r) (hi : p.BytesParsed ≤ p.BytesRead) :
    r.p.BytesParsed ≤ r.p.BytesRead := by
  rcases Parse_cases p pb r hL h with
    ⟨_, m, j, _, a2, a3, _, _, a6, _⟩ | ⟨_, _, _, _, _, a2, a3, _⟩ |
    ⟨_, _, _, _, _, _, a2, a3, _⟩ |
    ⟨_, g, g1, _, _, hl, _, _, _, _, a2, a3, _⟩ |
    ⟨_, g, g1, _, _, _, m, j, _, a2, a3, _, _, a6, _⟩
  · rw [a2, a3]; omega
  · rw [a2, a3]; omega
  · rw [a2, a3]; omega
  · rw [a2, a3]; omega
  · rw [a2, a3]; omega

/-! ## Properties of the specification, C1 to C10 -/

/-- C1: for a buffer `b` and offset `o` with `len(b) ≥ o+188` and `b[o] = 0x47`,
`ParsePacket` returns no error and sets
`PID = ((b[o+1] & 0x1F) << 8) | b[o+2]`,
`Flags = [b[o+1]&0x80 ≠ 0, b[o+1]&0x40 ≠ 0, b[o+1]&0x20 ≠ 0]` (three entries) and
`Payload` = the 185 bytes `b[o+3 .. o+188)`. -/
theorem ParsePacket_decodes_header (p : MPEGTSParser) (packet : MPEGTSPacket) (b : List Byte)
    (o : Nat) (hlen : o + 188 ≤ b.length) (hsync : b[o] = 0x47) :
    ∃ r, ParsePacket p packet b o = some r ∧ r.err = none ∧
      r.packet.PID = ((((b[o + 1].val &&& 0x1F) <<< 8 ||| b[o + 2].val : Nat) : Int)) ∧
      r.packet.Flags = [b[o + 1].val &&& 0x80 != 0, b[o + 1].val &&& 0x40 != 0,
                        b[o + 1].val &&& 0x20 != 0] ∧
      r.packet.Flags.length = 3 ∧
      r.packet.Payload = (b.drop (o + 3)).take 185 ∧
      r.packet.Payload.length = 185 ∧
      ∀ i, i < 185 → r.packet.Payload[i]? = b[o + 3 + i]? := by
  have hb : b[o]? = some MPEGTS_SYNC_BYTE := by
    rw [List.getElem?_eq_getElem (by omega), hsync]; rfl
  have e1 : (slice b o (o + 188)).getD 1 0 = b[o + 1] := by
    rw [getD_slice b o (o + 188) 1 (by omega), List.getD_eq_getElem _ _ (by omega)]
  have e2 : (slice b o (o + 188)).getD 2 0 = b[o + 2] := by
    rw [getD_slice b o (o + 188) 2 (by omega), List.getD_eq_getElem _ _ (by omega)]
  have e3 : slice (slice b o (o + 188)) 3 188 = (b.drop (o + 3)).take 185 := by
    rw [slice_slice b o 3 188 188 (le_refl _)]
    unfold slice
    rw [List.drop_take]
    congr 1
    omega
  refine ⟨_, ParsePacket_ok p packet b o hlen hb, rfl, ?_, ?_, rfl, ?_, ?_, ?_⟩
  · simp only [decodeFrame, e1, e2]
  · simp only [decodeFrame, e1]
  · simp only [decodeFrame, e3]
  · simp only [decodeFrame, e3, List.length_take, List.length_drop]
    omega
  · intro i hi
    simp only [decodeFrame, e3]
    rw [List.getElem?_take_of_lt hi, List.getElem?_drop]

set_option maxRecDepth 100000 in
theorem ParsePacket_decodes_header_witness :
    0 + 188 ≤ sampleFrame.length ∧ sampleFrame[0]? = some 0x47 ∧
    ∃ r, ParsePacket (NewMPEGTSParser []) MPEGTSPacket.zero sampleFrame 0 = some r ∧
      r.err = none ∧ r.packet.PID = 258 ∧ r.packet.Flags = [false, true, false] ∧
      r.packet.Payload.length = 185 := by
  refine ⟨by decide, by decide, ?_⟩
  obtain ⟨r, h1, h2, h3, h4, _, _, h7, _⟩ :=
    ParsePacket_decodes_header (NewMPEGTSParser []) MPEGTSPacket.zero sampleFrame 0
      (by decide) (by decide)
  exact ⟨r, h1, h2, by rw [h3]; decide, by rw [h4]; decide, h7⟩

/-- C4: with `len(b) ≥ o+188` and `b[o] ≠ 0x47`, `ParsePacket` returns an
`MPEGTSParserError` whose `Message` is "No sync byte present" and whose
`BytesRead` and `PacketsParsed` are the parser's counters at the call. -/
theorem ParsePacket_no_sync_byte (p : MPEGTSParser) (packet : MPEGTSPacket) (b : List Byte)
    (o : Nat) (hlen : o + 188 ≤ b.length) (hsync : b[o] ≠ 0x47) :
    ∃ r e, ParsePacket p packet b o = some r ∧ r.err = some (GoError.Parser e) ∧
      e.Message = "No sync byte present" ∧ e.BytesRead = p.BytesRead ∧
      e.PacketsParsed = p.PacketsParsed := by
  have hb : b[o]? ≠ some MPEGTS_SYNC_BYTE := by
    rw [List.getElem?_eq_getElem (by omega)]
    intro h
    exact hsync (Option.some.inj h)
  exact ⟨_, _, ParsePacket_no_sync p packet b o hlen hb, rfl, rfl, rfl, rfl⟩

set_option maxRecDepth 100000 in
theorem ParsePacket_no_sync_byte_witness :
    0 + 188 ≤ sampleBadFrame.length ∧ sampleBadFrame[0]? ≠ some 0x47 ∧
    ∃ r e, ParsePacket (NewMPEGTSParser []) MPEGTSPacket.zero sampleBadFrame 0 = some r ∧
      r.err = some (GoError.Parser e) ∧ e.Message = "No sync byte present" ∧
      e.BytesRead = 0 ∧ e.PacketsParsed = 0 :=
  ⟨by decide, by decide,
    ParsePacket_no_sync_byte (NewMPEGTSParser []) MPEGTSPacket.zero sampleBadFrame 0
      (by decide) (by decide)⟩

/-- C5: a source of exactly `K ≥ 3` frames, each starting with the sync byte:
calling `Parse` repeatedly on a new parser with at least three slots gives a
finite run of calls with nil error whose counts add up to `K` and whose
packets carry the frames' PIDs and flags in stream order; the next call
returns `(0, io.EOF)`, and then `BytesRead = BytesParsed = 188*K` and
`PacketsParsed = K`. -/
theorem Parse_clean_exhaustion (frames : List (List Byte)) (slots : List MPEGTSPacket)
    (hK : 3 ≤ frames.length) (hL : 3 ≤ slots.length) (hv : ∀ f ∈ frames, ValidFrame f) :
    ∃ calls d, ParseUntilError calls (NewMPEGTSParser frames.flatten) slots = some d ∧
      d.counts.sum = frames.length ∧
      d.delivered = frames.map (fun f => header (decodeFrame f)) ∧
      d.last.n = 0 ∧ d.last.err = some GoError.EOF ∧
      d.last.p.BytesRead = 188 * frames.length ∧
      d.last.p.BytesParsed = 188 * frames.length ∧
      d.last.p.PacketsParsed = frames.length := by
  obtain ⟨r, e1, e2, e3, e4, e5, e6, e7, e8, e9, e10⟩ :=
    call_clean_first (NewMPEGTSParser frames.flatten) slots frames rfl rfl hv hK hL
  have hm2 : min slots.length frames.length ≤ frames.length := by omega
  obtain ⟨calls, d, b1, b2, b3, b4, b5, b6, b7, b8⟩ := drain_clean
    (frames.length - min slots.length frames.length)
    (frames.drop (min slots.length frames.length))
    (by rw [List.length_drop]) r.p r.packetBuffer e4 e5
    (fun f hf => hv f (List.mem_of_mem_drop hf)) (by rw [e9]; omega)
  refine ⟨calls + 1,
    { counts := r.n :: d.counts,
      delivered := (r.packetBuffer.take r.n.toNat).map header ++ d.delivered,
      last := d.last }, ?_, ?_, ?_, b4, b5, ?_, ?_, ?_⟩
  · simp [ParseUntilError, e1, e2, b1]
  · simp only [List.sum_cons, b2, e3]
    push_cast
    omega
  · simp only [e3, Int.toNat_ofNat, e10, b3, ← List.map_append, List.take_append_drop]
  · rw [b6, e6]; simp only [NewMPEGTSParser]; push_cast; omega
  · rw [b7, e7]; simp only [NewMPEGTSParser]; push_cast; omega
  · rw [b8, e8]; simp only [NewMPEGTSParser]; push_cast; omega

set_option maxRecDepth 100000 in
theorem Parse_clean_exhaustion_witness :
    3 ≤ (List.replicate 5 sampleFrame).length ∧
    (∀ f ∈ List.replicate 5 sampleFrame, ValidFrame f) ∧
    ∃ calls d, ParseUntilError calls (NewMPEGTSParser (List.replicate 5 sampleFrame).flatten)
        (List.replicate 3 MPEGTSPacket.zero) = some d ∧
      d.counts.sum = 5 ∧ d.delivered = List.replicate 5 (258, [false, true, false]) ∧
      d.last.n = 0 ∧ d.last.err = some GoError.EOF ∧ d.last.p.BytesRead = 940 ∧
      d.last.p.BytesParsed = 940 ∧ d.last.p.PacketsParsed = 5 := by
  refine ⟨by decide, by decide, ?_⟩
  obtain ⟨calls, d, h1, h2, h3, h4, h5, h6, h7, h8⟩ :=
    Parse_clean_exhaustion (List.replicate 5 sampleFrame) (List.replicate 3 MPEGTSPacket.zero)
      (by decide) (by decide) (by decide)
  exact ⟨calls, d, h1, h2, by rw [h3]; decide, h4, h5, h6, h7, h8⟩

/-- C6: a source of `K ≥ 3` frames, each starting with the sync byte, followed
by `r` extra bytes with `1 ≤ r < 188`: the first `Parse` on a new parser with
more than `K` slots returns `(K, io.ErrUnexpectedEOF)` and leaves
`BytesRead = 188*K + r`, `PacketsParsed = K`, `BytesParsed = 188*K`. -/
theorem Parse_truncated_stream (frames : List (List Byte)) (tail : List Byte)
    (slots : List MPEGTSPacket) (hK : 3 ≤ frames.length) (hv : ∀ f ∈ frames, ValidFrame f)
    (hr1 : 1 ≤ tail.length) (hr2 : tail.length < 188) (hL : frames.length < slots.length) :
    ∃ r, Parse (NewMPEGTSParser (frames.flatten ++ tail)) slots = some r ∧
      r.n = frames.length ∧ r.err = some GoError.ErrUnexpectedEOF ∧
      r.p.BytesRead = 188 * frames.length + tail.length ∧
      r.p.PacketsParsed = frames.length ∧
      r.p.BytesParsed = 188 * frames.length := by
  obtain ⟨pb2, buf2, h1, _, h3, _⟩ := first_call (NewMPEGTSParser (frames.flatten ++ tail))
    slots [] frames tail rfl rfl hv hK (by omega) (by simp) (by simp)
  obtain ⟨t, ht⟩ : ∃ t, slots.length - frames.length = t + 1 :=
    ⟨slots.length - frames.length - 1, by omega⟩
  rw [h1, ht, loop_short _ _ _ _ _ _ _ (by simpa using hr1) (by simpa using hr2) h3]
  refine ⟨_, rfl, rfl, rfl, ?_, ?_, ?_⟩
  · simp [NewMPEGTSParser]
  · simp [NewMPEGTSParser]
  · simp [NewMPEGTSParser]

set_option maxRecDepth 100000 in
theorem Parse_truncated_stream_witness :
    3 ≤ (List.replicate 4 sampleFrame).length ∧
    (∀ f ∈ List.replicate 4 sampleFrame, ValidFrame f) ∧
    ∃ r, Parse (NewMPEGTSParser ((List.replicate 4 sampleFrame).flatten ++
          List.replicate 183 0)) (List.replicate 5 MPEGTSPacket.zero) = some r ∧
      r.n = 4 ∧ r.err = some GoError.ErrUnexpectedEOF ∧ r.p.BytesRead = 935 ∧
      r.p.PacketsParsed = 4 ∧ r.p.BytesParsed = 752 := by
  refine ⟨by decide, by decide, ?_⟩
  obtain ⟨r, h1, h2, h3, h4, h5, h6⟩ :=
    Parse_truncated_stream (List.replicate 4 sampleFrame) (List.replicate 183 0)
      (List.replicate 5 MPEGTSPacket.zero) (by decide) (by decide) (by decide) (by decide)
      (by decide)
  exact ⟨r, h1, h2, h3, h4, h5, h6⟩

/-- C7: a source of `G < 188` leading bytes (no offset below `G` showing three
sync bytes 188 apart), `K ≥ 3` frames starting with the sync byte, and one
188-byte frame that does not start with it: the first `Parse` on a new parser
with more than `K` slots returns `n = K` and the error "No sync byte present"
carrying `PacketsParsed = K` and `BytesRead = G + 188*(K+1)`; the parser is
left with `PacketsParsed = K`, `BytesRead = G + 188*(K+1)` and
`BytesParsed = G + 188*K`. -/
theorem Parse_corrupt_frame (g : List Byte) (frames : List (List Byte)) (bad : List Byte)
    (slots : List MPEGTSPacket) (hg : g.length < 188) (hK : 3 ≤ frames.length)
    (hv : ∀ f ∈ frames, ValidFrame f) (hbl : bad.length = 188)
    (hb0 : bad[0]? ≠ some 0x47) (hL : frames.length < slots.length)
    (hmin : ∀ o1, o1 < g.length → ¬ TripleAt (g ++ (frames.flatten ++ bad)) o1) :
    ∃ r e, Parse (NewMPEGTSParser (g ++ (frames.flatten ++ bad))) slots = some r ∧
      r.n = frames.length ∧ r.err = some (GoError.Parser e) ∧
      e.Message = "No sync byte present" ∧ e.PacketsParsed = frames.length ∧
      e.BytesRead = g.length + 188 * (frames.length + 1) ∧
      r.p.PacketsParsed = frames.length ∧
      r.p.BytesRead = g.length + 188 * (frames.length + 1) ∧
      r.p.BytesParsed = g.length + 188 * frames.length := by
  obtain ⟨pb2, buf2, h1, h2, h3, _⟩ := first_call (NewMPEGTSParser (g ++ (frames.flatten ++ bad)))
    slots g frames bad rfl rfl hv hK (by omega) hg hmin
  obtain ⟨t, ht⟩ : ∃ t, slots.length - frames.length = t + 1 :=
    ⟨slots.length - frames.length - 1, by omega⟩
  rw [h1, ht, loop_bad _ _ _ _ _ _ _ bad [] (by simp) hbl hb0 (by omega) h3]
  refine ⟨_, _, rfl, rfl, rfl, rfl, ?_, ?_, ?_, ?_, ?_⟩
  · simp [NewMPEGTSParser]
  · simp [NewMPEGTSParser]; ring
  · simp [NewMPEGTSParser]
  · simp [NewMPEGTSParser]; ring
  · simp [NewMPEGTSParser]

set_option maxRecDepth 100000 in
theorem Parse_corrupt_frame_witness :
    (∀ o1, o1 < (List.replicate 5 (0 : Byte)).length →
      ¬ TripleAt (List.replicate 5 0 ++ ((List.replicate 4 sampleFrame).flatten ++
        sampleBadFrame)) o1) ∧
    ∃ r e, Parse (NewMPEGTSParser (List.replicate 5 0 ++
          ((List.replicate 4 sampleFrame).flatten ++ sampleBadFrame)))
        (List.replicate 5 MPEGTSPacket.zero) = some r ∧
      r.n = 4 ∧ r.err = some (GoError.Parser e) ∧ e.Message = "No sync byte present" ∧
      e.PacketsParsed = 4 ∧ e.BytesRead = 945 ∧ r.p.PacketsParsed = 4 ∧
      r.p.BytesRead = 945 ∧ r.p.BytesParsed = 757 := by
  refine ⟨by decide, ?_⟩
  obtain ⟨r, e, h1, h2, h3, h4, h5, h6, h7, h8, h9⟩ :=
    Parse_corrupt_frame (List.replicate 5 0) (List.replicate 4 sampleFrame) sampleBadFrame
      (List.replicate 5 MPEGTSPacket.zero) (by decide) (by decide) (by decide) (by decide)
      (by decide) (by decide) (by decide)
  exact ⟨r, e, h1, h2, h3, h4, h5, h6, h7, h8, h9⟩

/-- C8: a source of `G < 188` garbage bytes followed by exactly `N ≥ 3` frames
starting with the sync byte, `G` being the least offset that shows three sync
bytes 188 apart: the first `Parse` on a new parser with at least `N` slots
returns `(N, nil)`, the first `N` slots carry the frames' PIDs and flags in
order, `BytesRead = G + 188*N`, `PacketsParsed = N`, `BytesParsed = G + 188*N`,
and the following call returns `(0, io.EOF)`. -/
theorem Parse_leading_garbage (g : List Byte) (frames : List (List Byte))
    (slots : List MPEGTSPacket) (hg : g.length < 188) (hN : 3 ≤ frames.length)
    (hv : ∀ f ∈ frames, ValidFrame f) (hL : frames.length ≤ slots.length)
    (hmin : ∀ o1, o1 < g.length → ¬ TripleAt (g ++ frames.flatten) o1) :
    ∃ r, Parse (NewMPEGTSParser (g ++ frames.flatten)) slots = some r ∧
      r.n = frames.length ∧ r.err = none ∧
      (r.packetBuffer.take frames.length).map header =
        frames.map (fun f => header (decodeFrame f)) ∧
      r.p.BytesRead = g.length + 188 * frames.length ∧
      r.p.PacketsParsed = frames.length ∧
      r.p.BytesParsed = g.length + 188 * frames.length ∧
      ∀ slots2 : List MPEGTSPacket, 3 ≤ slots2.length →
        ∃ r2, Parse r.p slots2 = some r2 ∧ r2.n = 0 ∧ r2.err = some GoError.EOF := by
  obtain ⟨pb2, buf2, h1, h2, h3, h4⟩ := first_call (NewMPEGTSParser (g ++ frames.flatten))
    slots g frames [] rfl (by simp [NewMPEGTSParser]) hv hN hL hg hmin
  obtain ⟨r, e1, e2, e3, e4, e5, e6, e7, e8, e9, e10⟩ := loop_finish_clean 3
    (slots.length - frames.length)
    { Source := [], Synced := true,
      BytesRead := (NewMPEGTSParser (g ++ frames.flatten)).BytesRead + g.length +
        188 * frames.length,
      BytesParsed := (NewMPEGTSParser (g ++ frames.flatten)).BytesParsed + g.length +
        188 * frames.length,
      PacketsParsed := (NewMPEGTSParser (g ++ frames.flatten)).PacketsParsed + frames.length }
    pb2 buf2 frames.length frames.length
    (Or.inr rfl) (by exact_mod_cast (by omega : 0 < frames.length)) h3
  rw [h1]
  refine ⟨r, e1, e3, e2, ?_, ?_, ?_, ?_, ?_⟩
  · rw [List.map_take, e10, ← List.map_take, h4]
  · rw [e6]; simp [NewMPEGTSParser]
  · rw [e8]; simp [NewMPEGTSParser]
  · rw [e7]; simp [NewMPEGTSParser]
  · intro slots2 hL2
    obtain ⟨r2, a1, a2, a3, _⟩ := Parse_at_end r.p slots2 (by rw [e5]) (by rw [e4]) (by omega)
    exact ⟨r2, a1, a2, a3⟩

set_option maxRecDepth 100000 in
theorem Parse_leading_garbage_witness :
    (∀ o1, o1 < (List.replicate 5 (0x47 : Byte)).length →
      ¬ TripleAt (List.replicate 5 0x47 ++ (List.replicate 5 sampleFrame).flatten) o1) ∧
    ∃ r, Parse (NewMPEGTSParser (List.replicate 5 0x47 ++
          (List.replicate 5 sampleFrame).flatten)) (List.replicate 5 MPEGTSPacket.zero) =
        some r ∧
      r.n = 5 ∧ r.err = none ∧ r.p.BytesRead = 945 ∧ r.p.PacketsParsed = 5 ∧
      r.p.BytesParsed = 945 := by
  refine ⟨by decide, ?_⟩
  obtain ⟨r, h1, h2, h3, _, h5, h6, h7, _⟩ :=
    Parse_leading_garbage (List.replicate 5 0x47) (List.replicate 5 sampleFrame)
      (List.replicate 5 MPEGTSPacket.zero) (by decide) (by decide) (by decide) (by decide)
      (by decide)
  exact ⟨r, h1, h2, h3, h5, h6, h7⟩

set_option maxRecDepth 100000 in
/-- C9 as stated fails: one garbage byte followed by three frames; after the
first `Parse` the parser has `PacketsParsed = 3` and `BytesParsed = 565`, not
`188 * 3 = 564`. -/
theorem BytesParsed_eq_188_PacketsParsed_counterexample :
    ∃ r, Parse (NewMPEGTSParser (0 :: (List.replicate 3 sampleFrame).flatten))
        (List.replicate 3 MPEGTSPacket.zero) = some r ∧
      Reached (0 :: (List.replicate 3 sampleFrame).flatten) r.p ∧
      r.n = 3 ∧ r.err = none ∧ r.p.PacketsParsed = 3 ∧ r.p.BytesParsed = 565 ∧
      r.p.BytesParsed ≠ 188 * r.p.PacketsParsed := by
  have hv : (Parse (NewMPEGTSParser (0 :: (List.replicate 3 sampleFrame).flatten))
      (List.replicate 3 MPEGTSPacket.zero)).map
        (fun r => (r.n, r.err, r.p.PacketsParsed, r.p.BytesParsed)) =
      some (3, none, 3, 565) := by decide
  cases hq : Parse (NewMPEGTSParser (0 :: (List.replicate 3 sampleFrame).flatten))
      (List.replicate 3 MPEGTSPacket.zero) with
  | none => rw [hq] at hv; cases hv
  | some r =>
    rw [hq] at hv
    simp only [Option.map_some', Option.some.injEq, Prod.mk.injEq] at hv
    obtain ⟨h1, h2, h3, h4⟩ := hv
    refine ⟨r, rfl, Reached.parse _ _ r Reached.new (by decide) hq, h1, h2, h3, h4, ?_⟩
    rw [h3, h4]
    decide

/-- C10: for every source and every sequence of `Parse` calls, each with at
least three slots, on a parser made by `NewMPEGTSParser`,
`BytesRead ≥ BytesParsed` holds after every call, failed calls included. -/
theorem BytesRead_ge_BytesParsed (source : List Byte) (p : MPEGTSParser)
    (h : ReachedByParse source p) : p.BytesParsed ≤ p.BytesRead := by
  induction h with
  | new => exact le_refl _
  | parse p pb r _ hL hp ih => exact BytesRead_step p pb r hL hp ih

set_option maxRecDepth 100000 in
theorem BytesRead_ge_BytesParsed_witness :
    ∃ r, Parse (NewMPEGTSParser (List.replicate 5 0 ++ (List.replicate 3 sampleFrame).flatten))
        (List.replicate 3 MPEGTSPacket.zero) = some r ∧
      ReachedByParse (List.replicate 5 0 ++ (List.replicate 3 sampleFrame).flatten) r.p ∧
      r.p.BytesParsed ≤ r.p.BytesRead := by
  have hv : (Parse (NewMPEGTSParser (List.replicate 5 0 ++
      (List.replicate 3 sampleFrame).flatten))
      (List.replicate 3 MPEGTSPacket.zero)).isSome = true := by decide
  cases hq : Parse (NewMPEGTSParser (List.replicate 5 0 ++
      (List.replicate 3 sampleFrame).flatten)) (List.replicate 3 MPEGTSPacket.zero) with
  | none => rw [hq] at hv; cases hv
  | some r =>
    have hr : ReachedByParse (List.replicate 5 0 ++ (List.replicate 3 sampleFrame).flatten)
        r.p := ReachedByParse.parse _ _ r ReachedByParse.new (by decide) hq
    exact ⟨r, rfl, hr, BytesRead_ge_BytesParsed _ r.p hr⟩

/-! ## Lemmas on whole calls: totality, nil returns, monotone counters -/

theorem getElem?_aliasPayloads_low (buffer : List Byte) (first upto : Nat) :
    ∀ (pb : List MPEGTSPacket) (k i : Nat), k + i < first →
      (aliasPayloads buffer first upto k pb)[i]? = pb[i]? := by
  intro pb
  induction pb with
  | nil => intro k i _; rfl
  | cons a t ih =>
    intro k i h
    cases i with
    | zero =>
      have hk : ¬ (first ≤ k ∧ k < upto) := by omega
      simp only [aliasPayloads, hk, if_false, List.getElem?_cons_zero]
    | succ j =>
      simp only [aliasPayloads, List.getElem?_cons_succ]
      exact ih (k + 1) j (by omega)

/-- Every run of the fill loop inside the slots returns: `m` more packets, no
slot below `first` touched, and, when the error is nil, exactly `188*m` bytes
taken from the source, the loop having filled the slots or met the clean end
of the stream after at least one packet. -/
theorem loop_run (first : Nat) :
    ∀ (todo : Nat) (p : MPEGTSParser) (pb : List MPEGTSPacket) (buf : List Byte) (off : Nat)
      (n : Int), off + todo ≤ pb.length → buf.length = 188 →
      ∃ (r : ParseResult) (m : Nat), Parse.loop first todo p pb buf off n = some r ∧
        r.packetBuffer.length = pb.length ∧ m ≤ todo ∧ r.n = n + m ∧
        188 * m ≤ p.Source.length ∧
        (r.err = none → r.p.Source = p.Source.drop (188 * m) ∧
          r.p.BytesRead = p.BytesRead + 188 * (m : Int) ∧
          (m = todo ∨ (p.Source.length = 188 * m ∧ 0 < n + m))) ∧
        (∀ i, i < first → first ≤ off → r.packetBuffer[i]? = pb[i]?) := by
  intro todo
  induction todo with
  | zero =>
    intro p pb buf off n _ _
    exact ⟨_, 0, rfl, rfl, le_refl _, by simp, by omega,
      fun _ => ⟨by simp, by simp, Or.inl rfl⟩, fun _ _ _ => rfl⟩
  | succ t ih =>
    intro p pb buf off n hoff hbuf
    rcases ReadFull_cases p.Source buf with ⟨hl, hr⟩ | ⟨he, _, hr⟩ | ⟨h0, h1, hr⟩
    · rw [hbuf] at hl hr
      have htl : (List.take 188 p.Source).length = 188 := by
        rw [List.length_take]; omega
      have hoff2 : off < (aliasPayloads (List.take 188 p.Source) first off 0 pb).length := by
        rw [length_aliasPayloads]; omega
      rw [Parse.loop]
      simp only [hr, List.getElem?_eq_getElem hoff2]
      by_cases hb : (List.take 188 p.Source)[0]? = some MPEGTS_SYNC_BYTE
      · rw [ParsePacket_ok _ _ _ 0 (by omega) hb]
        simp only []
        obtain ⟨r, m, a1, a2, a3, a4, a5, a6, a7⟩ := ih
          { Source := List.drop 188 p.Source, Synced := p.Synced,
            BytesRead := p.BytesRead + ((188 : Nat) : Int),
            BytesParsed := p.BytesParsed + 188, PacketsParsed := p.PacketsParsed + 1 }
          ((aliasPayloads (List.take 188 p.Source) first off 0 pb).set off
            (decodeFrame (slice (List.take 188 p.Source) 0 (0 + 188))))
          (List.take 188 p.Source) (off + 1) (n + 1)
          (by rw [List.length_set, length_aliasPayloads]; omega) htl
        simp only [List.length_drop, List.drop_drop, List.length_set,
          length_aliasPayloads] at a2 a5 a6
        refine ⟨r, m + 1, a1, a2, by omega, by rw [a4]; push_cast; ring, by omega, ?_, ?_⟩
        · intro he
          obtain ⟨b1, b2, b3⟩ := a6 he
          refine ⟨?_, ?_, ?_⟩
          · rw [b1]; congr 1; omega
          · rw [b2]; push_cast; ring
          · rcases b3 with b3 | ⟨b3, b4⟩
            · left; omega
            · right; exact ⟨by omega, by push_cast; omega⟩
        · intro i hi hfo
          rw [a7 i hi (by omega), List.getElem?_set_ne (by omega)]
          exact getElem?_aliasPayloads_low _ _ _ _ 0 i (by omega)
      · rw [ParsePacket_no_sync _ _ _ 0 (by omega) hb]
        refine ⟨_, 0, rfl, ?_, by omega, by simp, by omega, fun h => by simp at h, ?_⟩
        · simp only [List.length_set, length_aliasPayloads]
        · intro i hi hfo
          simp only []
          rw [List.getElem?_set_ne (by omega)]
          exact getElem?_aliasPayloads_low _ _ _ _ 0 i (by omega)
    · rw [Parse.loop]
      simp only [hr]
      by_cases hn : n > 0
      · simp only [hn, and_true, if_true]
        refine ⟨_, 0, rfl, by simp only [length_aliasPayloads], by omega, by simp, by omega,
          fun _ => ⟨by simp [he], by simp, Or.inr ⟨by simp [he], by simpa using hn⟩⟩, ?_⟩
        intro i hi hfo
        exact getElem?_aliasPayloads_low _ _ _ _ 0 i (by omega)
      · simp only [hn, and_false, if_false]
        refine ⟨_, 0, rfl, by simp only [length_aliasPayloads], by omega, by simp, by omega,
          fun h => by simp at h, ?_⟩
        intro i hi hfo
        exact getElem?_aliasPayloads_low _ _ _ _ 0 i (by omega)
    · rw [Parse.loop]
      simp only [hr, reduceCtorEq, false_and, if_false]
      refine ⟨_, 0, rfl, by simp only [length_aliasPayloads], by omega, by simp, by omega,
        fun h => by simp at h, ?_⟩
      intro i hi hfo
      exact getElem?_aliasPayloads_low _ _ _ _ 0 i (by omega)

theorem Parse_sync_ok_small (p q : MPEGTSParser) (pb : List MPEGTSPacket)
    (h : p.Synced = false) (k0 k1 k2 : MPEGTSPacket)
    (hs : sync p = some { p := q, packets := [k0, k1, k2], err := none })
    (hL : pb.length < 3) : Parse p pb = none := by
  unfold Parse
  simp only [h, hs, Bool.not_false, if_true, List.getElem?_cons_zero, List.getElem?_cons_succ,
    setSlot]
  by_cases h0 : 0 < pb.length
  · by_cases h1 : 1 < pb.length
    · have h2 : ¬ 2 < pb.length := by omega
      simp [h0, h1, h2]
    · simp [h0, h1]
  · simp [h0]

/-- With at least three slots `Parse` always returns, and the slots keep their
number. -/
theorem Parse_total (p : MPEGTSParser) (pb : List MPEGTSPacket) (hL : 3 ≤ pb.length) :
    ∃ r, Parse p pb = some r ∧ r.packetBuffer.length = pb.length := by
  cases hsy : p.Synced with
  | true =>
    obtain ⟨r, m, a1, a2, _⟩ := loop_run 0 pb.length p pb (List.replicate MPEGTS_PACKET_SIZE 0)
      0 0 (by omega) length_buffer0
    exact ⟨r, by rw [Parse_synced p pb hsy, a1], a2⟩
  | false =>
    rcases sync_cases p with ⟨_, hs⟩ | ⟨_, _, hs⟩ | ⟨o, _, _, _, _, _, hs⟩ | ⟨o, _, _, _, _, hs⟩
    · exact ⟨_, Parse_sync_err p pb hsy _ hs _ rfl, rfl⟩
    · exact ⟨_, Parse_sync_err p pb hsy _ hs _ rfl, rfl⟩
    · exact ⟨_, Parse_sync_err p pb hsy _ hs _ rfl, rfl⟩
    · obtain ⟨r, m, a1, a2, _⟩ := loop_run 3 (pb.length - 3)
        { Source := p.Source.drop (564 + o), Synced := true,
          BytesRead := p.BytesRead + 564 + o,
          BytesParsed := p.BytesParsed + 188 + o + 188 + 188,
          PacketsParsed := p.PacketsParsed + 1 + 1 + 1 }
        (((pb.set 0 (decodeFrame (slice p.Source o (o + 188)))).set 1
          (decodeFrame (slice p.Source (o + 188) (o + 376)))).set 2
          (decodeFrame (slice p.Source (o + 376) (o + 564))))
        (List.replicate MPEGTS_PACKET_SIZE 0) 3 3
        (by simp only [List.length_set]; omega) length_buffer0
      refine ⟨r, ?_, ?_⟩
      · rw [Parse_sync_ok p _ pb hsy _ _ _ hs hL]
        exact a1
      · rw [a2]; simp only [List.length_set]

/-- A call that returns a nil error: the count `k` is within the slots, the
source lost exactly `188*k` bytes (plus the alignment offset on the
synchronising call), and the call ended on full slots or on the clean end of
the stream. -/
theorem Parse_nil (p : MPEGTSParser) (pb : List MPEGTSPacket) (r : ParseResult)
    (h : Parse p pb = some r) (he : r.err = none) :
    ∃ k : Nat, r.n = k ∧ k ≤ pb.length ∧ (1 ≤ pb.length → 1 ≤ k) ∧
      (k = pb.length ∨ r.p.Source = []) ∧
      ((p.Synced = true ∧ r.p.Source = p.Source.drop (188 * k) ∧
          188 * k ≤ p.Source.length ∧ r.p.BytesRead = p.BytesRead + 188 * (k : Int)) ∨
       (p.Synced = false ∧ 3 ≤ k ∧ ∃ o, o < 188 ∧ TripleAt p.Source o ∧
          (∀ o1, o1 < o → ¬ TripleAt p.Source o1) ∧
          r.p.Source = p.Source.drop (o + 188 * k) ∧ o + 188 * k ≤ p.Source.length ∧
          r.p.BytesRead = p.BytesRead + o + 188 * (k : Int))) := by
  cases hsy : p.Synced with
  | true =>
    obtain ⟨r2, m, a1, a2, a3, a4, a5, a6, _⟩ := loop_run 0 pb.length p pb
      (List.replicate MPEGTS_PACKET_SIZE 0) 0 0 (by omega) length_buffer0
    rw [Parse_synced p pb hsy, a1] at h
    cases h
    obtain ⟨b1, b2, b3⟩ := a6 he
    refine ⟨m, by rw [a4]; simp, a3, ?_, ?_, Or.inl ⟨rfl, b1, a5, b2⟩⟩
    · intro h1
      rcases b3 with b3 | ⟨_, b4⟩
      · omega
      · omega
    · rcases b3 with b3 | ⟨b3, _⟩
      · exact Or.inl b3
      · right
        rw [b1]
        exact List.drop_eq_nil_of_le (by omega)
  | false =>
    rcases sync_cases p with ⟨_, hs⟩ | ⟨_, _, hs⟩ | ⟨o, _, _, _, _, _, hs⟩ |
      ⟨o, c1, c2, c3, c4, hs⟩
    · rw [Parse_sync_err p pb hsy _ hs _ rfl] at h
      cases h; simp at he
    · rw [Parse_sync_err p pb hsy _ hs _ rfl] at h
      cases h; simp at he
    · rw [Parse_sync_err p pb hsy _ hs _ rfl] at h
      cases h; simp at he
    · by_cases hL : 3 ≤ pb.length
      · obtain ⟨r2, m, a1, a2, a3, a4, a5, a6, _⟩ := loop_run 3 (pb.length - 3)
          { Source := p.Source.drop (564 + o), Synced := true,
            BytesRead := p.BytesRead + 564 + o,
            BytesParsed := p.BytesParsed + 188 + o + 188 + 188,
            PacketsParsed := p.PacketsParsed + 1 + 1 + 1 }
          (((pb.set 0 (decodeFrame (slice p.Source o (o + 188)))).set 1
            (decodeFrame (slice p.Source (o + 188) (o + 376)))).set 2
            (decodeFrame (slice p.Source (o + 376) (o + 564))))
          (List.replicate MPEGTS_PACKET_SIZE 0) 3 3
          (by simp only [List.length_set]; omega) length_buffer0
        rw [Parse_sync_ok p _ pb hsy _ _ _ hs hL, a1] at h
        cases h
        obtain ⟨b1, b2, b3⟩ := a6 he
        simp only [List.length_drop, List.drop_drop] at a5 b1 b2 b3
        refine ⟨3 + m, by rw [a4]; push_cast; ring, by omega, fun _ => by omega, ?_,
          Or.inr ⟨rfl, by omega, o, c1, c2, c3, ?_, by omega, ?_⟩⟩
        · rcases b3 with b3 | ⟨b3, _⟩
          · left; omega
          · right
            rw [b1]
            exact List.drop_eq_nil_of_le (by omega)
        · rw [b1]
          exact congrArg (fun t => List.drop t p.Source) (by omega)
        · rw [b2]; push_cast; ring
      · rw [Parse_sync_ok_small p _ pb hsy _ _ _ hs (by omega)] at h
        cases h

/-- No `Parse` call lowers a counter or clears `Synced`. -/
theorem Parse_monotone (p : MPEGTSParser) (pb : List MPEGTSPacket) (r : ParseResult)
    (h : Parse p pb = some r) :
    p.BytesRead ≤ r.p.BytesRead ∧ p.BytesParsed ≤ r.p.BytesParsed ∧
      p.PacketsParsed ≤ r.p.PacketsParsed ∧ (p.Synced = true → r.p.Synced = true) := by
  cases hsy : p.Synced with
  | true =>
    rw [Parse_synced p pb hsy] at h
    obtain ⟨m, j, a1, a2, a3, a4, _⟩ := loop_effect 0 _ _ _ _ _ _ r length_buffer0 h
    exact ⟨by omega, by omega, by omega, fun _ => by rw [a4, hsy]⟩
  | false =>
    rcases sync_cases p with ⟨_, hs⟩ | ⟨_, _, hs⟩ | ⟨o, _, _, _, _, _, hs⟩ |
      ⟨o, c1, c2, c3, c4, hs⟩
    · rw [Parse_sync_err p pb hsy _ hs _ rfl] at h
      cases h
      exact ⟨by simp only; omega, le_refl _, le_refl _, fun hf => by cases hf⟩
    · rw [Parse_sync_err p pb hsy _ hs _ rfl] at h
      cases h
      exact ⟨by simp only; omega, le_refl _, le_refl _, fun hf => by cases hf⟩
    · rw [Parse_sync_err p pb hsy _ hs _ rfl] at h
      cases h
      exact ⟨by simp only; omega, by simp only; omega, by simp only; omega,
        fun hf => by cases hf⟩
    · by_cases hL : 3 ≤ pb.length
      · rw [Parse_sync_ok p _ pb hsy _ _ _ hs hL] at h
        obtain ⟨m, j, a1, a2, a3, a4, _⟩ := loop_effect 3 _ _ _ _ _ _ r length_buffer0 h
        simp only [] at a1 a2 a3 a4
        exact ⟨by omega, by omega, by omega, fun hf => by cases hf⟩
      · rw [Parse_sync_ok_small p _ pb hsy _ _ _ hs (by omega)] at h
        cases h

theorem pid_eq_add (x b2 : Nat) (h : b2 < 256) : (x <<< 8 ||| b2) = 256 * x + b2 := by
  have e := Nat.mul_add_lt_is_or (show b2 < 2 ^ 8 from h) x
  rw [Nat.shiftLeft_eq, Nat.mul_comm]
  exact e.symm

set_option maxRecDepth 100000 in
theorem byte1_split : ∀ b1 : Fin 256,
    256 * b1.val =
      32768 * (if (b1.val &&& 0x80 != 0) = true then 1 else 0) +
      16384 * (if (b1.val &&& 0x40 != 0) = true then 1 else 0) +
      8192 * (if (b1.val &&& 0x20 != 0) = true then 1 else 0) +
      256 * (b1.val &&& 0x1F) ∧ (b1.val &&& 0x1F) < 32 := by
  decide

/-- The synchronising call puts the three frames found at the alignment `o`
into slots 0, 1, 2, whatever the fill loop meets afterwards. -/
theorem Parse_sync_slots (p : MPEGTSParser) (pb : List MPEGTSPacket) (o : Nat)
    (hsy : p.Synced = false) (hL : 3 ≤ pb.length) (ho : o < 188)
    (hlen : 564 + o ≤ p.Source.length) (ht : TripleAt p.Source o)
    (hmin : ∀ o1, o1 < o → ¬ TripleAt p.Source o1) :
    ∃ r, Parse p pb = some r ∧ r.p.Synced = true ∧
      r.packetBuffer[0]? = some (decodeFrame (slice p.Source o (o + 188))) ∧
      r.packetBuffer[1]? = some (decodeFrame (slice p.Source (o + 188) (o + 376))) ∧
      r.packetBuffer[2]? = some (decodeFrame (slice p.Source (o + 376) (o + 564))) := by
  have hs := sync_aligned p o ho hlen ht hmin
  obtain ⟨r, m, a1, a2, a3, a4, a5, a6, a7⟩ := loop_run 3 (pb.length - 3)
    { Source := p.Source.drop (564 + o), Synced := true,
      BytesRead := p.BytesRead + 564 + o,
      BytesParsed := p.BytesParsed + 188 + o + 188 + 188,
      PacketsParsed := p.PacketsParsed + 1 + 1 + 1 }
    (((pb.set 0 (decodeFrame (slice p.Source o (o + 188)))).set 1
      (decodeFrame (slice p.Source (o + 188) (o + 376)))).set 2
      (decodeFrame (slice p.Source (o + 376) (o + 564))))
    (List.replicate MPEGTS_PACKET_SIZE 0) 3 3
    (by simp only [List.length_set]; omega) length_buffer0
  have hsync : r.p.Synced = true := by
    have h := a1
    obtain ⟨_, _, _, _, _, b4, _⟩ := loop_effect 3 _ _ _ _ _ _ r length_buffer0 h
    exact b4
  refine ⟨r, ?_, hsync, ?_, ?_, ?_⟩
  · rw [Parse_sync_ok p _ pb hsy _ _ _ hs hL]; exact a1
  · rw [a7 0 (by omega) (le_refl _)]
    match pb, hL with
    | a :: b :: c :: t, _ => simp
  · rw [a7 1 (by omega) (le_refl _)]
    match pb, hL with
    | a :: b :: c :: t, _ => simp
  · rw [a7 2 (by omega) (le_refl _)]
    match pb, hL with
    | a :: b :: c :: t, _ => simp

theorem payload_decodeFrame_slice (s : List Byte) (a : Nat) (h : a + 188 ≤ s.length) :
    (decodeFrame (slice s a (a + 188))).Payload = (s.drop (a + 3)).take 185 ∧
      (decodeFrame (slice s a (a + 188))).Payload.length = 185 := by
  have e3 : slice (slice s a (a + 188)) 3 188 = (s.drop (a + 3)).take 185 := by
    rw [slice_slice s a 3 188 188 (le_refl _)]
    unfold slice
    rw [List.drop_take]
    congr 1
    omega
  simp only [decodeFrame, e3, List.length_take, List.length_drop]
  exact ⟨trivial, by omega⟩

/-- Repeated calls with at least three slots come to an error after finitely
many calls, every call before it having returned at least one packet. -/
theorem drain_terminates :
    ∀ (len : Nat) (p : MPEGTSParser) (pb : List MPEGTSPacket), p.Source.length = len →
      3 ≤ pb.length →
      ∃ calls d, ParseUntilError calls p pb = some d ∧ d.last.err ≠ none ∧
        (∀ c ∈ d.counts, 1 ≤ c) ∧ calls ≤ len / 188 + 1 := by
  intro len
  induction len using Nat.strong_induction_on with
  | _ len ih =>
    intro p pb hlen hL
    obtain ⟨r, h1, h2⟩ := Parse_total p pb hL
    cases he : r.err with
    | some e =>
      refine ⟨1, { counts := [], delivered := [], last := r }, ?_, ?_, ?_, by omega⟩
      · simp [ParseUntilError, h1, he]
      · simp [he]
      · intro c hc; simp at hc
    | none =>
      obtain ⟨k, a1, a2, a3, _, a5⟩ := Parse_nil p pb r h1 he
      have hk : 1 ≤ k := a3 (by omega)
      have hshrink : r.p.Source.length + 188 ≤ len := by
        rcases a5 with ⟨_, b1, b2, _⟩ | ⟨_, _, o, _, _, _, b1, b2, _⟩
        · rw [b1, List.length_drop]; omega
        · rw [b1, List.length_drop]; omega
      obtain ⟨calls, d, c1, c2, c3, c4⟩ := ih r.p.Source.length (by omega) r.p r.packetBuffer rfl
        (by rw [h2]; exact hL)
      refine ⟨calls + 1,
        { counts := r.n :: d.counts,
          delivered := (r.packetBuffer.take r.n.toNat).map header ++ d.delivered,
          last := d.last }, ?_, c2, ?_, ?_⟩
      · simp [ParseUntilError, h1, he, c1]
      · intro c hc
        rcases List.mem_cons.mp hc with hc | hc
        · rw [hc, a1]; exact_mod_cast hk
        · exact c3 c hc
      · have : r.p.Source.length / 188 + 1 ≤ len / 188 := by
          rw [← Nat.add_div_right _ (by decide : 0 < 188)]
          exact Nat.div_le_div_right hshrink
        omega

/-! ## Properties of the specification, C11 to C20 -/

/-- C11: a source of at least 564 bytes in which no offset `o` in `0..187`
shows the sync byte at `o`, `o+188` and `o+376`: the first `Parse` on a new
parser returns `n = 0` and the error "No sync byte present", leaves
`Synced = false`, `PacketsParsed = 0`, `BytesParsed = 0`, every slot as it
was, and `BytesRead = 564`. -/
theorem Parse_no_alignment (s : List Byte) (slots : List MPEGTSPacket)
    (hlen : 564 ≤ s.length) (hno : ∀ o, o < 188 → ¬ TripleAt s o) (hL : 3 ≤ slots.length) :
    ∃ r e, Parse (NewMPEGTSParser s) slots = some r ∧ r.n = 0 ∧
      r.err = some (GoError.Parser e) ∧ e.Message = "No sync byte present" ∧
      r.p.Synced = false ∧ r.p.PacketsParsed = 0 ∧ r.p.BytesParsed = 0 ∧
      r.packetBuffer = slots ∧ r.p.BytesRead = 564 ∧ 3 ≤ r.packetBuffer.length := by
  have hs := sync_none (NewMPEGTSParser s) hlen hno
  refine ⟨_, _, Parse_sync_err (NewMPEGTSParser s) slots rfl _ hs _ rfl, rfl, rfl, rfl, rfl,
    rfl, rfl, rfl, ?_, hL⟩
  simp [NewMPEGTSParser]

set_option maxRecDepth 100000 in
theorem Parse_no_alignment_witness :
    564 ≤ (List.replicate 564 (0 : Byte)).length ∧
    (∀ o, o < 188 → ¬ TripleAt (List.replicate 564 0) o) ∧
    ∃ r e, Parse (NewMPEGTSParser (List.replicate 564 0)) (List.replicate 3 MPEGTSPacket.zero) =
        some r ∧ r.n = 0 ∧ r.err = some (GoError.Parser e) ∧
      e.Message = "No sync byte present" ∧ r.p.Synced = false ∧ r.p.BytesRead = 564 := by
  have h1 : 564 ≤ (List.replicate 564 (0 : Byte)).length := by decide
  have h2 : ∀ o, o < 188 → ¬ TripleAt (List.replicate 564 0) o := by decide
  obtain ⟨r, e, a1, a2, a3, a4, a5, _, _, _, a9, _⟩ :=
    Parse_no_alignment (List.replicate 564 0) (List.replicate 3 MPEGTSPacket.zero) h1 h2
      (by decide)
  exact ⟨h1, h2, r, e, a1, a2, a3, a4, a5, a9⟩

/-- C12: `Parse` never over-reads.  A call that returns `(n, nil)` has
`n ≤ len(packetBuffer)` and took exactly `188*n` bytes from the source when
the parser was synchronised, exactly `o + 188*n` on the synchronising call
(`o` the alignment found); and when the source holds as many frames as there
are slots the call returns `(L, nil)` and leaves every byte after the `L`-th
frame in the source. -/
theorem Parse_never_over_reads (p : MPEGTSParser) (pb : List MPEGTSPacket) :
    (∀ r, Parse p pb = some r → r.err = none →
      ∃ k : Nat, r.n = k ∧ k ≤ pb.length ∧
        ((p.Synced = true ∧ r.p.Source = p.Source.drop (188 * k) ∧
            188 * k ≤ p.Source.length ∧ r.p.BytesRead = p.BytesRead + 188 * (k : Int)) ∨
         (p.Synced = false ∧ ∃ o, o < 188 ∧ TripleAt p.Source o ∧
            (∀ o1, o1 < o → ¬ TripleAt p.Source o1) ∧
            r.p.Source = p.Source.drop (o + 188 * k) ∧ o + 188 * k ≤ p.Source.length ∧
            r.p.BytesRead = p.BytesRead + o + 188 * (k : Int)))) ∧
    (∀ (fs : List (List Byte)) (rest : List Byte), p.Synced = true →
      p.Source = fs.flatten ++ rest → (∀ f ∈ fs, ValidFrame f) → fs.length = pb.length →
      ∃ r, Parse p pb = some r ∧ r.n = pb.length ∧ r.err = none ∧ r.p.Source = rest) ∧
    (∀ (g : List Byte) (fs : List (List Byte)) (rest : List Byte), p.Synced = false →
      p.Source = g ++ (fs.flatten ++ rest) → (∀ f ∈ fs, ValidFrame f) → 3 ≤ fs.length →
      fs.length = pb.length → g.length < 188 →
      (∀ o1, o1 < g.length → ¬ TripleAt p.Source o1) →
      ∃ r, Parse p pb = some r ∧ r.n = pb.length ∧ r.err = none ∧ r.p.Source = rest) := by
  refine ⟨?_, ?_, ?_⟩
  · intro r h he
    obtain ⟨k, a1, a2, _, _, a5⟩ := Parse_nil p pb r h he
    refine ⟨k, a1, a2, ?_⟩
    rcases a5 with a5 | ⟨b1, _, b3⟩
    · exact Or.inl a5
    · exact Or.inr ⟨b1, b3⟩
  · intro fs rest hsy hs hv hl
    obtain ⟨pb2, buf2, h1, _, _, _⟩ := synced_call p pb fs rest hsy hs hv (by omega)
    rw [h1, hl, Nat.sub_self]
    exact ⟨_, rfl, rfl, rfl, rfl⟩
  · intro g fs rest hsy hs hv hK hl hg hmin
    obtain ⟨pb2, buf2, h1, _, _, _⟩ := first_call p pb g fs rest hsy hs hv hK (by omega) hg hmin
    rw [h1, hl, Nat.sub_self]
    exact ⟨_, rfl, rfl, rfl, rfl⟩

set_option maxRecDepth 100000 in
theorem Parse_never_over_reads_witness :
    ∃ r, Parse (NewMPEGTSParser (List.replicate 5 sampleFrame).flatten)
        (List.replicate 3 MPEGTSPacket.zero) = some r ∧
      r.n = 3 ∧ r.err = none ∧ r.p.Source = (List.replicate 2 sampleFrame).flatten := by
  obtain ⟨r, h1, h2, h3, h4⟩ :=
    (Parse_never_over_reads (NewMPEGTSParser (List.replicate 5 sampleFrame).flatten)
      (List.replicate 3 MPEGTSPacket.zero)).2.2 [] (List.replicate 3 sampleFrame)
      (List.replicate 2 sampleFrame).flatten rfl (by decide) (by decide) (by decide)
      (by decide) (by decide) (by decide)
  exact ⟨r, h1, h2, h3, h4⟩

set_option maxRecDepth 100000 in
/-- C13 fails on the code.  The stream `cutStream` has 564 bytes and ends 183
bytes into its third frame.  `sync` reads the window, aligns at offset 5,
decodes two frames, and its read of the five missing bytes meets the end of
the stream with nothing read: the first `Parse` returns `(0, io.EOF)` after
taking 564 bytes and counting two packets. -/
theorem Parse_cut_stream_reports_EOF :
    cutStream = List.replicate 5 0 ++ (sampleFrame ++ (sampleFrame ++ sampleFrame.take 183)) ∧
    Parse (NewMPEGTSParser cutStream) (List.replicate 3 MPEGTSPacket.zero) =
      some { p := { Source := [], Synced := false, BytesRead := 564, BytesParsed := 381,
                    PacketsParsed := 2 }
             packetBuffer := List.replicate 3 MPEGTSPacket.zero
             n := 0
             err := some GoError.EOF } := by
  decide

/-- C14: a source `s` whose least offset `o` in `0..187` with the sync byte at
`o`, `o+188`, `o+376` exists, with `len(s) ≥ 564 + o`: the first `Parse` on a
new parser with at least three slots sets `Synced = true` and writes into
slots 0, 1, 2 the decodes (PID, flags, 185-byte payload) of `s[o..o+188)`,
`s[o+188..o+376)` and `s[o+376..o+564)`; `sync` itself reads the 564-byte
window and exactly `o` bytes more. -/
theorem Parse_first_alignment (s : List Byte) (slots : List MPEGTSPacket) (o : Nat)
    (hL : 3 ≤ slots.length) (ho : o < 188) (hlen : 564 + o ≤ s.length) (ht : TripleAt s o)
    (hmin : ∀ o1, o1 < o → ¬ TripleAt s o1) :
    (∃ r, Parse (NewMPEGTSParser s) slots = some r ∧ r.p.Synced = true ∧
      ∀ j, j < 3 →
        r.packetBuffer[j]? = some (decodeFrame (slice s (o + 188 * j) (o + 188 * j + 188))) ∧
        (decodeFrame (slice s (o + 188 * j) (o + 188 * j + 188))).Payload =
          (s.drop (o + 188 * j + 3)).take 185 ∧
        (decodeFrame (slice s (o + 188 * j) (o + 188 * j + 188))).Payload.length = 185) ∧
    (∃ sr, sync (NewMPEGTSParser s) = some sr ∧ sr.err = none ∧ sr.p.BytesRead = 564 + o ∧
      sr.p.Source = s.drop (564 + o) ∧ sr.packets.length = 3) := by
  constructor
  · obtain ⟨r, h1, h2, s0, s1, s2⟩ :=
      Parse_sync_slots (NewMPEGTSParser s) slots o rfl hL ho hlen ht hmin
    refine ⟨r, h1, h2, ?_⟩
    intro j hj
    have hp := payload_decodeFrame_slice s (o + 188 * j) (by omega)
    refine ⟨?_, hp.1, hp.2⟩
    match j, hj with
    | 0, _ => exact s0
    | 1, _ => exact s1
    | 2, _ => exact s2
  · refine ⟨_, sync_aligned (NewMPEGTSParser s) o ho hlen ht hmin, rfl, ?_, rfl, rfl⟩
    simp [NewMPEGTSParser]

set_option maxRecDepth 100000 in
theorem Parse_first_alignment_witness :
    TripleAt (List.replicate 5 0x47 ++ (List.replicate 4 sampleFrame).flatten) 5 ∧
    (∀ o1, o1 < 5 →
      ¬ TripleAt (List.replicate 5 0x47 ++ (List.replicate 4 sampleFrame).flatten) o1) ∧
    ∃ r, Parse (NewMPEGTSParser (List.replicate 5 0x47 ++ (List.replicate 4 sampleFrame).flatten))
        (List.replicate 3 MPEGTSPacket.zero) = some r ∧ r.p.Synced = true ∧
      r.packetBuffer[2]? = some (decodeFrame (slice
        (List.replicate 5 0x47 ++ (List.replicate 4 sampleFrame).flatten) 381 569)) := by
  have h1 : TripleAt (List.replicate 5 0x47 ++ (List.replicate 4 sampleFrame).flatten) 5 := by
    decide
  have h2 : ∀ o1, o1 < 5 →
      ¬ TripleAt (List.replicate 5 0x47 ++ (List.replicate 4 sampleFrame).flatten) o1 := by
    decide
  obtain ⟨⟨r, a1, a2, a3⟩, _⟩ :=
    Parse_first_alignment (List.replicate 5 0x47 ++ (List.replicate 4 sampleFrame).flatten)
      (List.replicate 3 MPEGTSPacket.zero) 5 (by decide) (by decide) (by decide) h1 h2
  exact ⟨h1, h2, r, a1, a2, (a3 2 (by decide)).1⟩

set_option maxRecDepth 100000 in
/-- C15 fails on the code.  Five frames, the fourth with a payload of `0xFF`
bytes, the others with zero payloads, five slots: the call returns `(5, nil)`,
slot 3 has the fourth frame's identifier 3, but its payload shows the zero
bytes of the fifth frame, which the fill loop read into the same buffer. -/
theorem Parse_payload_overwritten :
    ∃ r, Parse (NewMPEGTSParser (sampleFrame ++ (sampleFrame ++ (sampleFrame ++
          (sampleFrameB ++ sampleFrame))))) (List.replicate 5 MPEGTSPacket.zero) = some r ∧
      r.n = 5 ∧ r.err = none ∧
      r.packetBuffer.map header =
        [sampleFrame, sampleFrame, sampleFrame, sampleFrameB, sampleFrame].map
          (fun f => header (decodeFrame f)) ∧
      (r.packetBuffer[3]?).map (fun k => k.Payload) = some (List.replicate 185 0) ∧
      (decodeFrame sampleFrameB).Payload = List.replicate 185 0xFF ∧
      (r.packetBuffer[3]?).map (fun k => k.Payload) ≠ some (decodeFrame sampleFrameB).Payload := by
  have hv1 : (Parse (NewMPEGTSParser (sampleFrame ++ (sampleFrame ++ (sampleFrame ++
      (sampleFrameB ++ sampleFrame))))) (List.replicate 5 MPEGTSPacket.zero)).map
      (fun r => (r.n, r.err)) = some (5, none) := by decide
  have hv2 : (Parse (NewMPEGTSParser (sampleFrame ++ (sampleFrame ++ (sampleFrame ++
      (sampleFrameB ++ sampleFrame))))) (List.replicate 5 MPEGTSPacket.zero)).map
      (fun r => r.packetBuffer.map header) =
      some ([sampleFrame, sampleFrame, sampleFrame, sampleFrameB, sampleFrame].map
        (fun f => header (decodeFrame f))) := by decide
  have hv3 : (Parse (NewMPEGTSParser (sampleFrame ++ (sampleFrame ++ (sampleFrame ++
      (sampleFrameB ++ sampleFrame))))) (List.replicate 5 MPEGTSPacket.zero)).map
      (fun r => (r.packetBuffer[3]?).map (fun k => k.Payload)) =
      some (some (List.replicate 185 (0 : Byte))) := by decide
  cases hq : Parse (NewMPEGTSParser (sampleFrame ++ (sampleFrame ++ (sampleFrame ++
      (sampleFrameB ++ sampleFrame))))) (List.replicate 5 MPEGTSPacket.zero) with
  | none => rw [hq] at hv1; cases hv1
  | some r =>
    rw [hq] at hv1 hv2 hv3
    simp only [Option.map_some', Option.some.injEq, Prod.mk.injEq] at hv1 hv2 hv3
    refine ⟨r, rfl, hv1.1, hv1.2, hv2, ?_, by decide, ?_⟩
    · exact hv3
    · rw [hv3]; decide

/-- C16: `Parse` is index-safe with at least three slots.  For every parser
state and source the call returns (no index leaves its slice) and keeps the
number of slots; `sync` returns too, never with the "buffer too small" error,
and with a parser error only when no offset shows the three sync bytes; and
for a 564-byte window and a candidate offset `o ≤ 187` the three indices are
inside the window, the tail buffer has length `o`, the third frame has 188
bytes, and each of the three `ParsePacket` calls returns a nil error. -/
theorem Parse_index_safe (p : MPEGTSParser) (pb : List MPEGTSPacket) (hL : 3 ≤ pb.length) :
    (∃ r, Parse p pb = some r ∧ r.packetBuffer.length = pb.length) ∧
    (∃ sr, sync p = some sr ∧
      sr.err ≠ some (GoError.New "buffer too small to parse packet") ∧
      (∀ e, sr.err = some (GoError.Parser e) → ∀ o, o < 188 → ¬ TripleAt p.Source o)) ∧
    (∀ (buffer : List Byte) (o : Nat), buffer.length = 564 → o < 188 →
      o < buffer.length ∧ o + 188 < buffer.length ∧ o + 376 < buffer.length ∧
      (MPEGTS_PACKET_SIZE : Int) - ((buffer.length : Int) - ((o + 376 : Nat) : Int)) = o ∧
      sync.isCandidate buffer o = some (decide (TripleAt buffer o)) ∧
      (TripleAt buffer o → ∀ (q : MPEGTSParser) (k : MPEGTSPacket) (tail : List Byte),
        tail.length = o →
        (buffer.drop (o + 376) ++ tail).length = 188 ∧
        (∃ r0, ParsePacket q k buffer o = some r0 ∧ r0.err = none) ∧
        (∃ r1, ParsePacket q k buffer (o + 188) = some r1 ∧ r1.err = none) ∧
        (∃ r2, ParsePacket q k (buffer.drop (o + 376) ++ tail) 0 = some r2 ∧
          r2.err = none))) := by
  refine ⟨Parse_total p pb hL, ?_, ?_⟩
  · rcases sync_cases p with ⟨_, hs⟩ | ⟨_, hno, hs⟩ | ⟨o, _, _, _, _, _, hs⟩ | ⟨o, _, _, _, _, hs⟩
    · refine ⟨_, hs, ?_, ?_⟩
      · simp only []
        split <;> simp
      · intro e he
        simp only [] at he
        split at he <;> simp at he
    · exact ⟨_, hs, by simp, fun _ _ => hno⟩
    · refine ⟨_, hs, ?_, ?_⟩
      · simp only []
        split <;> simp
      · intro e he
        simp only [] at he
        split at he <;> simp at he
    · exact ⟨_, hs, by simp, fun e he => by simp at he⟩
  · intro buffer o hlen ho
    refine ⟨by omega, by omega, by omega, ?_, isCandidate_eq buffer o hlen ho, ?_⟩
    · simp only [MPEGTS_PACKET_SIZE, hlen]
      push_cast
      omega
    · intro ht q k tail htl
      obtain ⟨t1, t2, t3⟩ := ht
      have hl3 : (buffer.drop (o + 376) ++ tail).length = 188 := by
        simp only [List.length_append, List.length_drop, hlen, htl]
        omega
      have h0 : (buffer.drop (o + 376) ++ tail)[0]? = some MPEGTS_SYNC_BYTE := by
        rw [List.getElem?_append_left (by simp only [List.length_drop, hlen]; omega),
          List.getElem?_drop]
        exact t3
      exact ⟨hl3, ⟨_, ParsePacket_ok q k buffer o (by omega) t1, rfl⟩,
        ⟨_, ParsePacket_ok q k buffer (o + 188) (by omega) t2, rfl⟩,
        ⟨_, ParsePacket_ok q k _ 0 (by omega) h0, rfl⟩⟩

set_option maxRecDepth 100000 in
theorem Parse_index_safe_witness :
    3 ≤ (List.replicate 3 MPEGTSPacket.zero).length ∧
    ∃ r, Parse (NewMPEGTSParser cutStream) (List.replicate 3 MPEGTSPacket.zero) = some r ∧
      r.packetBuffer.length = 3 := by
  obtain ⟨⟨r, h1, h2⟩, _⟩ :=
    Parse_index_safe (NewMPEGTSParser cutStream) (List.replicate 3 MPEGTSPacket.zero)
      (by decide)
  exact ⟨by decide, r, h1, by rw [h2]; decide⟩

/-- C18: the 16 header bits after the sync byte are split without loss.  For
every successful `ParsePacket` at offset `o`: `0 ≤ PID ≤ 8191`, `Flags` has
three entries, and
`256*b[o+1] + b[o+2] = 32768*[Flags[0]] + 16384*[Flags[1]] + 8192*[Flags[2]] + PID`,
so `b[o+1]` is that number divided by 256 and `b[o+2]` is `PID mod 256`. -/
theorem header_bits_lossless (p : MPEGTSParser) (packet : MPEGTSPacket) (b : List Byte)
    (o : Nat) (r : PacketResult) (h : ParsePacket p packet b o = some r)
    (he : r.err = none) :
    ∃ (b1 b2 : Byte) (f0 f1 f2 : Bool), b[o + 1]? = some b1 ∧ b[o + 2]? = some b2 ∧
      r.packet.Flags = [f0, f1, f2] ∧ 0 ≤ r.packet.PID ∧ r.packet.PID ≤ 8191 ∧
      256 * (b1.val : Int) + (b2.val : Int) =
        32768 * (if f0 = true then 1 else 0) + 16384 * (if f1 = true then 1 else 0) +
          8192 * (if f2 = true then 1 else 0) + r.packet.PID ∧
      (b1.val : Int) =
        (32768 * (if f0 = true then 1 else 0) + 16384 * (if f1 = true then 1 else 0) +
          8192 * (if f2 = true then 1 else 0) + r.packet.PID) / 256 ∧
      (b2.val : Int) = r.packet.PID % 256 := by
  obtain ⟨r2, h2, hc⟩ := ParsePacket_cases p packet b o
  rw [h] at h2
  cases h2
  rcases hc with ⟨_, hlen, _, _, hk⟩ | ⟨e, _, _⟩
  · have h1 : o + 1 < b.length := by omega
    have h2 : o + 2 < b.length := by omega
    have e1 : (slice b o (o + 188)).getD 1 0 = b[o + 1] := by
      rw [getD_slice b o (o + 188) 1 (by omega), List.getD_eq_getElem _ _ (by omega)]
    have e2 : (slice b o (o + 188)).getD 2 0 = b[o + 2] := by
      rw [getD_slice b o (o + 188) 2 (by omega), List.getD_eq_getElem _ _ (by omega)]
    obtain ⟨hs, hx⟩ := byte1_split b[o + 1]
    have hb2 : (b[o + 2]).val < 256 := (b[o + 2]).isLt
    have hpid := pid_eq_add ((b[o + 1]).val &&& 0x1F) (b[o + 2]).val hb2
    refine ⟨b[o + 1], b[o + 2], (b[o + 1]).val &&& 0x80 != 0, (b[o + 1]).val &&& 0x40 != 0,
      (b[o + 1]).val &&& 0x20 != 0, List.getElem?_eq_getElem h1, List.getElem?_eq_getElem h2,
      ?_, ?_, ?_, ?_, ?_, ?_⟩
    · rw [hk]; simp only [decodeFrame, e1]
    · rw [hk]; simp only [decodeFrame]; exact Int.natCast_nonneg _
    · rw [hk]; simp only [decodeFrame, e1, e2, hpid]; omega
    · rw [hk]; simp only [decodeFrame, e1, e2, hpid]
      split_ifs at hs ⊢ <;> omega
    · rw [hk]; simp only [decodeFrame, e1, e2, hpid]
      split_ifs at hs ⊢ <;> omega
    · rw [hk]; simp only [decodeFrame, e1, e2, hpid]; omega
  · exact absurd he e

set_option maxRecDepth 100000 in
theorem header_bits_lossless_witness :
    ∃ r, ParsePacket (NewMPEGTSParser []) MPEGTSPacket.zero sampleFrame 0 = some r ∧
      r.err = none ∧ r.packet.Flags = [false, true, false] ∧ r.packet.PID = 258 ∧
      256 * (0x41 : Int) + 0x02 = 16384 + 258 := by
  have hv : (ParsePacket (NewMPEGTSParser []) MPEGTSPacket.zero sampleFrame 0).map
      (fun r => (decide (r.err = none), r.packet.Flags, r.packet.PID)) =
      some (true, [false, true, false], 258) := by decide
  cases hq : ParsePacket (NewMPEGTSParser []) MPEGTSPacket.zero sampleFrame 0 with
  | none => rw [hq] at hv; cases hv
  | some r =>
    rw [hq] at hv
    simp only [Option.map_some', Option.some.injEq, Prod.mk.injEq, decide_eq_true_eq] at hv
    obtain ⟨a1, a2, a3⟩ := hv
    obtain ⟨b1, b2, f0, f1, f2, _⟩ :=
      header_bits_lossless (NewMPEGTSParser []) MPEGTSPacket.zero sampleFrame 0 r hq a1
    exact ⟨r, rfl, a1, a2, a3, by decide⟩

set_option maxRecDepth 100000 in
/-- C19 fails on the code.  `cutStream` followed by three more bytes ends 186
bytes into its third frame: the first `Parse` on a new parser returns
`(0, io.ErrUnexpectedEOF)`, so no packet is handed over, while
`PacketsParsed = 2`. -/
theorem Parse_counts_undelivered_packets :
    ∃ r, Parse (NewMPEGTSParser (cutStream ++ [0, 0, 0])) (List.replicate 3 MPEGTSPacket.zero) =
        some r ∧
      ReachedByParse (cutStream ++ [0, 0, 0]) r.p ∧
      r.n = 0 ∧ r.err = some GoError.ErrUnexpectedEOF ∧ r.p.PacketsParsed = 2 ∧
      r.packetBuffer = List.replicate 3 MPEGTSPacket.zero := by
  have hv : Parse (NewMPEGTSParser (cutStream ++ [0, 0, 0]))
      (List.replicate 3 MPEGTSPacket.zero) =
      some { p := { Source := [], Synced := false, BytesRead := 567, BytesParsed := 381,
                    PacketsParsed := 2 }
             packetBuffer := List.replicate 3 MPEGTSPacket.zero
             n := 0
             err := some GoError.ErrUnexpectedEOF } := by decide
  exact ⟨_, hv, ReachedByParse.parse _ _ _ ReachedByParse.new (by decide) hv, rfl, rfl, rfl, rfl⟩

/-- C20: with at least three slots `Parse` makes progress or reports an error.
For every parser state and source the call returns, never with `(0, nil)`; a
nil error comes with `n ≥ 1` and at least 188 bytes taken from the source; and
a caller that calls again until the error is not nil stops after at most
`len(source)/188 + 1` calls. -/
theorem Parse_progress (p : MPEGTSParser) (pb : List MPEGTSPacket) (hL : 3 ≤ pb.length) :
    (∃ r, Parse p pb = some r ∧ ¬ (r.n = 0 ∧ r.err = none) ∧
      (r.err = none → 1 ≤ r.n ∧ r.p.Source.length + 188 ≤ p.Source.length)) ∧
    (∃ calls d, ParseUntilError calls p pb = some d ∧ d.last.err ≠ none ∧
      (∀ c ∈ d.counts, 1 ≤ c) ∧ calls ≤ p.Source.length / 188 + 1) := by
  constructor
  · obtain ⟨r, h1, _⟩ := Parse_total p pb hL
    have key : r.err = none → 1 ≤ r.n ∧ r.p.Source.length + 188 ≤ p.Source.length := by
      intro he
      obtain ⟨k, a1, _, a3, _, a5⟩ := Parse_nil p pb r h1 he
      have hk : 1 ≤ k := a3 (by omega)
      refine ⟨by rw [a1]; exact_mod_cast hk, ?_⟩
      rcases a5 with ⟨_, b1, b2, _⟩ | ⟨_, _, o, _, _, _, b1, b2, _⟩
      · rw [b1, List.length_drop]; omega
      · rw [b1, List.length_drop]; omega
    refine ⟨r, h1, ?_, key⟩
    intro hc
    have := (key hc.2).1
    omega
  · exact drain_terminates p.Source.length p pb rfl hL

set_option maxRecDepth 100000 in
theorem Parse_progress_witness :
    3 ≤ (List.replicate 3 MPEGTSPacket.zero).length ∧
    ∃ calls d, ParseUntilError calls (NewMPEGTSParser cutStream)
        (List.replicate 3 MPEGTSPacket.zero) = some d ∧ d.last.err ≠ none ∧ calls ≤ 4 := by
  obtain ⟨_, calls, d, h1, h2, _, h4⟩ :=
    Parse_progress (NewMPEGTSParser cutStream) (List.replicate 3 MPEGTSPacket.zero)
      (by decide)
  have hl : (NewMPEGTSParser cutStream).Source.length / 188 + 1 = 4 := by decide
  exact ⟨by decide, calls, d, h1, h2, by omega⟩

/-! ## The counter relation with the alignment offset, C9 -/

theorem firstPacketOffset_found (buffer : List Byte) (hlen : buffer.length = 564)
    (o : Nat) (ho : o < 188) (ht : TripleAt buffer o) :
    ∀ (todo o0 : Nat), o0 + todo = 188 → o0 ≤ o →
      (∀ o1, o0 ≤ o1 → o1 < o → ¬ TripleAt buffer o1) →
      sync.firstPacketOffset buffer todo o0 = some o := by
  intro todo
  induction todo with
  | zero => intro o0 h1 h2 _; omega
  | succ k ih =>
    intro o0 h1 h2 hmin
    rw [sync.firstPacketOffset, isCandidate_eq buffer o0 hlen (by omega)]
    by_cases e : o0 = o
    · subst e; simp [ht]
    · have hn : ¬ TripleAt buffer o0 := hmin o0 (le_refl _) (by omega)
      simp only [hn, decide_False]
      exact ih (o0 + 1) (by omega) (by omega) (fun o1 a b => hmin o1 (by omega) b)

theorem firstPacketOffset_none (buffer : List Byte) (hlen : buffer.length = 564) :
    ∀ (todo o0 : Nat), o0 + todo = 188 →
      (∀ o1, o0 ≤ o1 → o1 < 188 → ¬ TripleAt buffer o1) →
      sync.firstPacketOffset buffer todo o0 = none := by
  intro todo
  induction todo with
  | zero => intro o0 _ _; rfl
  | succ k ih =>
    intro o0 h1 hmin
    rw [sync.firstPacketOffset, isCandidate_eq buffer o0 hlen (by omega)]
    have hn : ¬ TripleAt buffer o0 := hmin o0 (le_refl _) (by omega)
    simp only [hn, decide_False]
    exact ih (o0 + 1) (by omega) (fun o1 a b => hmin o1 (by omega) b)

theorem alignmentOffset_synced (p : MPEGTSParser) (h : p.Synced = true) :
    Parse.alignmentOffset p = 0 := by
  unfold Parse.alignmentOffset
  simp [h]

theorem alignmentOffset_short (p : MPEGTSParser) (h : p.Source.length < 564) :
    Parse.alignmentOffset p = 0 := by
  have hrl : (List.replicate (MPEGTS_PACKET_SIZE * 3) (0 : Byte)).length = 564 := by
    rw [List.length_replicate]; rfl
  unfold Parse.alignmentOffset
  split
  · rfl
  · simp only []
    rcases ReadFull_cases p.Source (List.replicate (MPEGTS_PACKET_SIZE * 3) 0) with
      ⟨hl, _⟩ | ⟨_, _, hr⟩ | ⟨_, _, hr⟩
    · rw [hrl] at hl; omega
    · rw [hr]
    · rw [hr]

set_option maxRecDepth 10000 in
theorem alignmentOffset_window (p : MPEGTSParser) (hs : p.Synced = false)
    (h : 564 ≤ p.Source.length) :
    Parse.alignmentOffset p = (sync.firstPacketOffset (p.Source.take 564) 188 0).getD 0 := by
  have hrl : (List.replicate (MPEGTS_PACKET_SIZE * 3) (0 : Byte)).length = 564 := by
    rw [List.length_replicate]; rfl
  unfold Parse.alignmentOffset
  simp only [hs, Bool.false_eq_true, if_false]
  rw [ReadFull_ok _ _ (by rw [hrl]; exact h)]
  simp only [hrl]
  rfl

theorem alignmentOffset_none (p : MPEGTSParser) (h : 564 ≤ p.Source.length)
    (hno : ∀ o, o < 188 → ¬ TripleAt p.Source o) : Parse.alignmentOffset p = 0 := by
  cases hs : p.Synced with
  | true => exact alignmentOffset_synced p hs
  | false =>
    have hwl : (p.Source.take 564).length = 564 := by
      rw [List.length_take]; omega
    rw [alignmentOffset_window p hs h, firstPacketOffset_none _ hwl 188 0 (by omega)
      (fun o1 _ h1 ht => hno o1 h1 ((TripleAt_take p.Source o1 h1).mp ht))]
    rfl

/-- On a parser that is not synchronised the alignment offset is the least
offset below 188 at which the sync byte stands three times, 188 apart, in the
next 564 bytes. -/
theorem alignmentOffset_found (p : MPEGTSParser) (hs : p.Synced = false)
    (h : 564 ≤ p.Source.length) (o : Nat) (ho : o < 188) (ht : TripleAt p.Source o)
    (hmin : ∀ o1, o1 < o → ¬ TripleAt p.Source o1) : Parse.alignmentOffset p = o := by
  have hwl : (p.Source.take 564).length = 564 := by
    rw [List.length_take]; omega
  rw [alignmentOffset_window p hs h, firstPacketOffset_found _ hwl o ho
    ((TripleAt_take p.Source o ho).mpr ht) 188 0 (by omega) (by omega)
    (fun o1 _ h1 ht1 => hmin o1 h1 ((TripleAt_take p.Source o1 (by omega)).mp ht1))]
  rfl

/-- One `Parse` call, whatever the number of slots: `BytesParsed` grows by 188
per packet counted plus the alignment offset of the call. -/
theorem Parse_alignment_step (p : MPEGTSParser) (pb : List MPEGTSPacket) (r : ParseResult)
    (h : Parse p pb = some r) :
    r.p.BytesParsed - 188 * r.p.PacketsParsed =
        p.BytesParsed - 188 * p.PacketsParsed + (Parse.alignmentOffset p : Int) ∧
      Parse.alignmentOffset p ≤ 187 ∧
      (p.Synced = true ∨ p.Source = [] → Parse.alignmentOffset p = 0) ∧
      (p.Synced = true ∨ p.Source = [] → r.p.Synced = true ∨ r.p.Source = []) ∧
      (Parse.alignmentOffset p ≠ 0 → r.p.Synced = true ∨ r.p.Source = []) := by
  cases hsy : p.Synced with
  | true =>
    have hz := alignmentOffset_synced p hsy
    rw [Parse_synced p pb hsy] at h
    obtain ⟨m, j, a1, a2, _, a4, _⟩ := loop_effect 0 _ _ _ _ _ _ r length_buffer0 h
    rw [hz]
    exact ⟨by rw [a1, a2]; push_cast; ring, by omega, fun _ => rfl,
      fun _ => Or.inl (by rw [a4, hsy]), fun hn => absurd rfl hn⟩
  | false =>
    rcases sync_cases p with ⟨c1, hs⟩ | ⟨c1, c2, hs⟩ | ⟨o, c1, c2, c3, c4, c5, hs⟩ |
      ⟨o, c1, c2, c3, c4, hs⟩
    · rw [Parse_sync_err p pb hsy _ hs _ rfl] at h
      cases h
      rw [alignmentOffset_short p c1]
      exact ⟨by simp, by omega, fun _ => rfl, fun _ => Or.inr rfl, fun hn => absurd rfl hn⟩
    · rw [Parse_sync_err p pb hsy _ hs _ rfl] at h
      cases h
      rw [alignmentOffset_none p c1 c2]
      refine ⟨by simp, by omega, fun _ => rfl, ?_, fun hn => absurd rfl hn⟩
      intro hc
      rcases hc with hc | hc
      · cases hc
      · rw [hc] at c1; simp at c1
    · rw [Parse_sync_err p pb hsy _ hs _ rfl] at h
      cases h
      rw [alignmentOffset_found p hsy c4 o c1 c2 c3]
      refine ⟨by simp only; ring, by omega, ?_, fun _ => Or.inr rfl, fun _ => Or.inr rfl⟩
      intro hc
      rcases hc with hc | hc
      · cases hc
      · rw [hc] at c4; simp at c4
    · rw [alignmentOffset_found p hsy (by omega) o c1 c2 c3]
      by_cases hL : 3 ≤ pb.length
      · rw [Parse_sync_ok p _ pb hsy _ _ _ hs hL] at h
        obtain ⟨m, j, a1, a2, _, a4, _⟩ := loop_effect 3 _ _ _ _ _ _ r length_buffer0 h
        simp only [] at a1 a2 a4
        refine ⟨by rw [a1, a2]; ring, by omega, ?_, fun _ => Or.inl a4, fun _ => Or.inl a4⟩
        intro hc
        rcases hc with hc | hc
        · cases hc
        · rw [hc] at c4; simp at c4
      · rw [Parse_sync_ok_small p _ pb hsy _ _ _ hs (by omega)] at h
        cases h

/-- The counter relation with the exact offset: `skipped` is the sum of the
alignment offsets of the `Parse` calls so far, and only one of them can be
other than 0. -/
theorem alignment_invariant (source : List Byte) (p : MPEGTSParser) (skipped : Nat)
    (h : ReachedSkipping source p skipped) :
    p.BytesParsed = 188 * p.PacketsParsed + (skipped : Int) ∧ skipped ≤ 187 ∧
      (skipped ≠ 0 → p.Synced = true ∨ p.Source = []) := by
  induction h with
  | new => exact ⟨rfl, by omega, fun hn => absurd rfl hn⟩
  | parse p g pb r _ hp ih =>
    obtain ⟨i1, i2, i3⟩ := ih
    obtain ⟨s1, s2, s3, s4, s5⟩ := Parse_alignment_step p pb r hp
    refine ⟨by push_cast; omega, ?_, ?_⟩
    · by_cases hg : g = 0
      · omega
      · rw [s3 (i3 hg)]; omega
    · intro hn
      by_cases hg : g = 0
      · exact s5 (by omega)
      · exact s4 (i3 hg)
  | parsePacket p g packet b off r _ hp ih =>
    obtain ⟨i1, i2, i3⟩ := ih
    obtain ⟨r2, h2, hc⟩ := ParsePacket_cases p packet b off
    rw [hp] at h2
    cases h2
    rcases hc with ⟨_, _, _, e, _⟩ | ⟨_, e, _⟩
    · rw [e]
      exact ⟨by simp only [i1]; ring, i2, i3⟩
    · rw [e]
      exact ⟨i1, i2, i3⟩

/-- C9, as amended: after every operation (every `Parse` call, on any number
of slots, and every `ParsePacket` call, successful or failing) on a parser made
by `NewMPEGTSParser`, `BytesParsed = 188 * PacketsParsed + skipped`, where
`skipped` is the sum of the alignment offsets of the `Parse` calls made so far
and is at most 187.  The alignment offset of a call, what line 113 adds, is 0
on a synchronised parser, with fewer than 564 bytes left, and with no offset
below 188 at which the next 564 bytes hold the sync byte three times, 188
apart; else it is the least such offset, and `skipped` is still 0 before
that call. -/
theorem BytesParsed_eq_packets_plus_alignment_offset (source : List Byte) (p : MPEGTSParser)
    (skipped : Nat) (h : ReachedSkipping source p skipped) :
    p.BytesParsed = 188 * p.PacketsParsed + (skipped : Int) ∧ skipped ≤ 187 ∧
    (p.Synced = true ∨ p.Source.length < 564 ∨ (∀ o, o < 188 → ¬ TripleAt p.Source o) →
      Parse.alignmentOffset p = 0) ∧
    (∀ o, p.Synced = false → 564 ≤ p.Source.length → o < 188 → TripleAt p.Source o →
      (∀ o1, o1 < o → ¬ TripleAt p.Source o1) →
      Parse.alignmentOffset p = o ∧ skipped = 0) := by
  obtain ⟨i1, i2, i3⟩ := alignment_invariant source p skipped h
  refine ⟨i1, i2, ?_, ?_⟩
  · intro hc
    rcases hc with hc | hc | hc
    · exact alignmentOffset_synced p hc
    · exact alignmentOffset_short p hc
    · by_cases hl : p.Source.length < 564
      · exact alignmentOffset_short p hl
      · exact alignmentOffset_none p (by omega) hc
  · intro o hs hl ho ht hmin
    refine ⟨alignmentOffset_found p hs hl o ho ht hmin, ?_⟩
    by_contra hn
    rcases i3 hn with hc | hc
    · rw [hs] at hc; cases hc
    · rw [hc] at hl; simp at hl

set_option maxRecDepth 100000 in
theorem BytesParsed_eq_packets_plus_alignment_offset_witness :
    ∃ r, Parse (NewMPEGTSParser (0 :: (List.replicate 3 sampleFrame).flatten))
        (List.replicate 3 MPEGTSPacket.zero) = some r ∧
      ReachedSkipping (0 :: (List.replicate 3 sampleFrame).flatten) r.p 1 ∧
      r.p.PacketsParsed = 3 ∧ r.p.BytesParsed = 188 * 3 + 1 := by
  have hv : (Parse (NewMPEGTSParser (0 :: (List.replicate 3 sampleFrame).flatten))
      (List.replicate 3 MPEGTSPacket.zero)).map (fun r => r.p.PacketsParsed) = some 3 := by
    decide
  have ha : Parse.alignmentOffset
      (NewMPEGTSParser (0 :: (List.replicate 3 sampleFrame).flatten)) = 1 := by decide
  cases hq : Parse (NewMPEGTSParser (0 :: (List.replicate 3 sampleFrame).flatten))
      (List.replicate 3 MPEGTSPacket.zero) with
  | none => rw [hq] at hv; cases hv
  | some r =>
    rw [hq] at hv
    simp only [Option.map_some', Option.some.injEq] at hv
    have hr : ReachedSkipping (0 :: (List.replicate 3 sampleFrame).flatten) r.p 1 := by
      have h0 := ReachedSkipping.parse _ 0 _ r
        (ReachedSkipping.new : ReachedSkipping (0 :: (List.replicate 3 sampleFrame).flatten)
          (NewMPEGTSParser (0 :: (List.replicate 3 sampleFrame).flatten)) 0) hq
      rw [ha] at h0
      exact h0
    obtain ⟨h1, _⟩ := BytesParsed_eq_packets_plus_alignment_offset _ r.p 1 hr
    refine ⟨r, rfl, hr, hv, ?_⟩
    rw [h1, hv]
    rfl

/-! ## The 64-bit functions against the unbounded ones -/

theorem wrapInt_of_inRange (x : Int) (h1 : MinInt64 ≤ x) (h2 : x ≤ MaxInt64) : wrapInt x = x := by
  unfold MinInt64 at h1
  unfold MaxInt64 at h2
  unfold wrapInt
  omega

theorem wrapInt_add_left (a b : Int) : wrapInt (wrapInt a + b) = wrapInt (a + b) := by
  unfold wrapInt
  omega

theorem wrapInt_wrapInt (a : Int) : wrapInt (wrapInt a) = wrapInt a := by
  unfold wrapInt
  omega

theorem wrapInt_inRange (x : Int) : MinInt64 ≤ wrapInt x ∧ wrapInt x ≤ MaxInt64 := by
  unfold MinInt64 MaxInt64 wrapInt
  omega

theorem wrapCounters_of_inRange (p : MPEGTSParser) (h : p.CountersInRange) :
    wrapCounters p = p := by
  obtain ⟨⟨a1, a2⟩, ⟨b1, b2⟩, ⟨c1, c2⟩⟩ := h
  unfold wrapCounters
  rw [wrapInt_of_inRange _ a1 a2, wrapInt_of_inRange _ b1 b2, wrapInt_of_inRange _ c1 c2]

theorem Machine_index_natCast (b : List Byte) (i : Nat) : Machine.index b (i : Int) = b[i]? := by
  simp [Machine.index]

/-- On an offset whose frame end is an `int`, the 64-bit `ParsePacket` is the
unbounded one with the counters reduced to 64 bits. -/
theorem Machine_ParsePacket_wrap (p : MPEGTSParser) (packet : MPEGTSPacket) (b : List Byte)
    (o : Nat) (ho : (o : Int) + 188 ≤ MaxInt64) :
    Machine.ParsePacket (wrapCounters p) packet b (o : Int) =
      (ParsePacket p packet b o).map wrapPacketResult := by
  have hm : (o : Int) + 188 ≤ 9223372036854775807 := ho
  have w188 : wrapInt ((o : Int) + ((MPEGTS_PACKET_SIZE : Nat) : Int)) = ((o + 188 : Nat) : Int) := by
    have : ((MPEGTS_PACKET_SIZE : Nat) : Int) = 188 := rfl
    rw [this]
    unfold wrapInt
    push_cast
    omega
  have w1 : wrapInt ((o : Int) + 1) = ((o + 1 : Nat) : Int) := by
    unfold wrapInt
    push_cast
    omega
  have w2 : wrapInt ((o : Int) + 2) = ((o + 2 : Nat) : Int) := by
    unfold wrapInt
    push_cast
    omega
  have w3 : wrapInt ((o : Int) + 3) = ((o + 3 : Nat) : Int) := by
    unfold wrapInt
    push_cast
    omega
  unfold Machine.ParsePacket
  rw [w188, w1, w2, w3, Machine_index_natCast, Machine_index_natCast, Machine_index_natCast]
  by_cases h : b.length < o + 188
  · have h' : (b.length : Int) < ((o + 188 : Nat) : Int) := by exact_mod_cast h
    rw [if_pos h', ParsePacket_too_small p packet b o h]
    rfl
  · have h' : ¬ (b.length : Int) < ((o + 188 : Nat) : Int) := by
      intro hc; exact h (by exact_mod_cast hc)
    rw [if_neg h']
    have h0 : o < b.length := by omega
    by_cases hb : b[o]? = some MPEGTS_SYNC_BYTE
    · rw [ParsePacket_ok p packet b o (by omega) hb]
      have hb0 : b[o] = MPEGTS_SYNC_BYTE := by
        rw [List.getElem?_eq_getElem h0] at hb
        exact Option.some.inj hb
      have hs : Machine.slice b ((o + 3 : Nat) : Int) ((o + 188 : Nat) : Int) =
          some (slice b (o + 3) (o + 188)) := by
        unfold Machine.slice
        rw [if_pos ⟨by omega, by omega, by omega⟩, Int.toNat_ofNat, Int.toNat_ofNat]
      have e1 := getD_slice b o (o + 188) 1 (by omega)
      have e2 := getD_slice b o (o + 188) 2 (by omega)
      have e3 := slice_slice b o 3 188 188 (le_refl _)
      rw [hs, List.getElem?_eq_getElem h0, List.getElem?_eq_getElem (by omega : o + 1 < b.length),
        List.getElem?_eq_getElem (by omega : o + 2 < b.length)]
      simp only [hb0, ne_eq, not_true_eq_false, if_false, Option.map_some', wrapPacketResult,
        wrapCounters, decodeFrame, e1, e2, e3, Option.map_none', wrapInt_add_left,
        List.getD_eq_getElem _ _ (by omega : o + 1 < b.length),
        List.getD_eq_getElem _ _ (by omega : o + 2 < b.length)]
      rfl
    · rw [ParsePacket_no_sync p packet b o (by omega) hb]
      have hb0 : b[o] ≠ MPEGTS_SYNC_BYTE := by
        intro e; exact hb (by rw [List.getElem?_eq_getElem h0, e])
      rw [List.getElem?_eq_getElem h0]
      simp only [hb0, ne_eq, not_false_eq_true, if_true, Option.map_some', wrapPacketResult,
        wrapError, MPEGTSParser.NoSyncBytePresentError, MPEGTSParser.ParseError, wrapCounters]

theorem Machine_ParsePacket_wrap_zero (p : MPEGTSParser) (packet : MPEGTSPacket)
    (b : List Byte) :
    Machine.ParsePacket (wrapCounters p) packet b 0 =
      (ParsePacket p packet b 0).map wrapPacketResult := by
  have h := Machine_ParsePacket_wrap p packet b 0 (by decide)
  simpa using h

theorem wrapCounters_read (p : MPEGTSParser) (src : List Byte) (n : Nat) :
    ({ (wrapCounters p) with
        Source := src
        BytesRead := wrapInt ((wrapCounters p).BytesRead + (n : Int)) } : MPEGTSParser) =
      wrapCounters { p with Source := src, BytesRead := p.BytesRead + (n : Int) } := by
  simp only [wrapCounters, wrapInt_add_left]

theorem wrapInt_natCast_add (o k : Nat) (h : (o : Int) + 188 ≤ MaxInt64) (hk : k ≤ 188) :
    wrapInt ((o : Int) + (k : Int)) = ((o + k : Nat) : Int) := by
  unfold MaxInt64 at h
  unfold wrapInt
  push_cast
  omega

theorem Machine_ParsePacket_too_small (q : MPEGTSParser) (packet : MPEGTSPacket)
    (b : List Byte) (o : Nat) (ho : (o : Int) + 188 ≤ MaxInt64) (h : b.length < o + 188) :
    Machine.ParsePacket q packet b (o : Int) =
      some { p := q, packet := packet,
             err := some (GoError.New "buffer too small to parse packet") } := by
  have w := wrapInt_natCast_add o 188 ho (le_refl _)
  have h' : (b.length : Int) < ((o + 188 : Nat) : Int) := by exact_mod_cast h
  unfold Machine.ParsePacket
  rw [show ((MPEGTS_PACKET_SIZE : Nat) : Int) = ((188 : Nat) : Int) from rfl, w, if_pos h']

theorem Machine_ParsePacket_no_sync (q : MPEGTSParser) (packet : MPEGTSPacket)
    (b : List Byte) (o : Nat) (ho : (o : Int) + 188 ≤ MaxInt64) (h : o + 188 ≤ b.length)
    (hb : b[o]? ≠ some MPEGTS_SYNC_BYTE) :
    Machine.ParsePacket q packet b (o : Int) =
      some { p := q, packet := packet,
             err := some (GoError.Parser q.NoSyncBytePresentError) } := by
  have w := wrapInt_natCast_add o 188 ho (le_refl _)
  have h' : ¬ (b.length : Int) < ((o + 188 : Nat) : Int) := by
    intro hc
    have : b.length < o + 188 := by exact_mod_cast hc
    omega
  have h0 : o < b.length := by omega
  have hb0 : b[o] ≠ MPEGTS_SYNC_BYTE := by
    intro e; exact hb (by rw [List.getElem?_eq_getElem h0, e])
  unfold Machine.ParsePacket
  rw [show ((MPEGTS_PACKET_SIZE : Nat) : Int) = ((188 : Nat) : Int) from rfl, w, if_neg h',
    Machine_index_natCast, List.getElem?_eq_getElem h0]
  simp only [hb0, ne_eq, not_false_eq_true, if_true]

theorem Machine_ParsePacket_ok (q : MPEGTSParser) (packet : MPEGTSPacket)
    (b : List Byte) (o : Nat) (ho : (o : Int) + 188 ≤ MaxInt64) (h : o + 188 ≤ b.length)
    (hb : b[o]? = some MPEGTS_SYNC_BYTE) :
    Machine.ParsePacket q packet b (o : Int) =
      some { p := { q with PacketsParsed := wrapInt (q.PacketsParsed + 1),
                           BytesParsed := wrapInt (q.BytesParsed + 188) }
             packet := decodeFrame (slice b o (o + 188))
             err := none } := by
  have w := wrapInt_natCast_add o 188 ho (le_refl _)
  have w1 := wrapInt_natCast_add o 1 ho (by omega)
  have w2 := wrapInt_natCast_add o 2 ho (by omega)
  have w3 := wrapInt_natCast_add o 3 ho (by omega)
  have h' : ¬ (b.length : Int) < ((o + 188 : Nat) : Int) := by
    intro hc
    have : b.length < o + 188 := by exact_mod_cast hc
    omega
  have h0 : o < b.length := by omega
  have hb0 : b[o] = MPEGTS_SYNC_BYTE := by
    rw [List.getElem?_eq_getElem h0] at hb
    exact Option.some.inj hb
  have hs : Machine.slice b ((o + 3 : Nat) : Int) ((o + 188 : Nat) : Int) =
      some (slice b (o + 3) (o + 188)) := by
    unfold Machine.slice
    rw [if_pos ⟨by omega, by omega, by omega⟩, Int.toNat_ofNat, Int.toNat_ofNat]
  have e1 := getD_slice b o (o + 188) 1 (by omega)
  have e2 := getD_slice b o (o + 188) 2 (by omega)
  have e3 := slice_slice b o 3 188 188 (le_refl _)
  unfold Machine.ParsePacket
  rw [show ((MPEGTS_PACKET_SIZE : Nat) : Int) = ((188 : Nat) : Int) from rfl, w, if_neg h',
    show ((o : Int) + 1) = (o : Int) + ((1 : Nat) : Int) from rfl, w1,
    show ((o : Int) + 2) = (o : Int) + ((2 : Nat) : Int) from rfl, w2,
    show ((o : Int) + 3) = (o : Int) + ((3 : Nat) : Int) from rfl, w3,
    Machine_index_natCast, Machine_index_natCast, Machine_index_natCast, hs,
    List.getElem?_eq_getElem h0, List.getElem?_eq_getElem (by omega : o + 1 < b.length),
    List.getElem?_eq_getElem (by omega : o + 2 < b.length)]
  simp only [hb0, ne_eq, not_true_eq_false, if_false, decodeFrame, e1, e2, e3,
    List.getD_eq_getElem _ _ (by omega : o + 1 < b.length),
    List.getD_eq_getElem _ _ (by omega : o + 2 < b.length)]
  rfl

theorem Machine_ParsePacket_ok_zero (q : MPEGTSParser) (packet : MPEGTSPacket)
    (b : List Byte) (h : 188 ≤ b.length) (hb : b[0]? = some MPEGTS_SYNC_BYTE) :
    Machine.ParsePacket q packet b 0 =
      some { p := { q with PacketsParsed := wrapInt (q.PacketsParsed + 1),
                           BytesParsed := wrapInt (q.BytesParsed + 188) }
             packet := decodeFrame (slice b 0 (0 + 188))
             err := none } := by
  have h1 := Machine_ParsePacket_ok q packet b 0 (by decide) (by omega) hb
  rw [Nat.cast_zero] at h1
  exact h1

theorem Machine_ParsePacket_no_sync_zero (q : MPEGTSParser) (packet : MPEGTSPacket)
    (b : List Byte) (h : 188 ≤ b.length) (hb : b[0]? ≠ some MPEGTS_SYNC_BYTE) :
    Machine.ParsePacket q packet b 0 =
      some { p := q, packet := packet,
             err := some (GoError.Parser q.NoSyncBytePresentError) } := by
  have h1 := Machine_ParsePacket_no_sync q packet b 0 (by decide) (by omega) hb
  rw [Nat.cast_zero] at h1
  exact h1

theorem ReadFull_err_wrap (r buf : List Byte) (e : GoError)
    (h : (ReadFull r buf).err = some e) : wrapError e = e := by
  rcases ReadFull_cases r buf with ⟨_, hr⟩ | ⟨_, _, hr⟩ | ⟨_, _, hr⟩
  · rw [hr] at h; cases h
  · rw [hr] at h; cases h; rfl
  · rw [hr] at h; cases h; rfl

set_option maxRecDepth 10000 in
theorem Machine_sync_found_wrap (p : MPEGTSParser) (buffer : List Byte) (o : Nat)
    (ho : o < 188) :
    Machine.sync.found (wrapCounters p) buffer o =
      (sync.found p buffer o).map wrapSyncResult := by
  have hb1 : (o : Int) + 188 ≤ MaxInt64 := by unfold MaxInt64; omega
  have hb2 : ((o + MPEGTS_PACKET_SIZE : Nat) : Int) + 188 ≤ MaxInt64 := by
    unfold MaxInt64 MPEGTS_PACKET_SIZE; push_cast; omega
  unfold Machine.sync.found sync.found
  simp only []
  rw [Machine_ParsePacket_wrap p _ buffer o hb1]
  cases h0 : ParsePacket p MPEGTSPacket.zero buffer o with
  | none => rfl
  | some r0 =>
    simp only [Option.map_some']
    cases he0 : r0.err with
    | some e => simp only [wrapPacketResult, he0, Option.map_some', wrapSyncResult]
    | none =>
      simp only [wrapPacketResult, he0, Option.map_none']
      have e1 : ({ (wrapCounters r0.p) with
            BytesParsed := wrapInt ((wrapCounters r0.p).BytesParsed + (o : Int)) } :
            MPEGTSParser) =
          wrapCounters { r0.p with BytesParsed := r0.p.BytesParsed + (o : Int) } := by
        simp only [wrapCounters, wrapInt_add_left]
      rw [e1, Machine_ParsePacket_wrap _ _ buffer (o + MPEGTS_PACKET_SIZE) hb2]
      cases h1 : ParsePacket { r0.p with BytesParsed := r0.p.BytesParsed + (o : Int) }
          MPEGTSPacket.zero buffer (o + MPEGTS_PACKET_SIZE) with
      | none => rfl
      | some r1 =>
        simp only [Option.map_some']
        cases he1 : r1.err with
        | some e => simp only [wrapPacketResult, he1, Option.map_some', wrapSyncResult]
        | none =>
          simp only [wrapPacketResult, he1, Option.map_none']
          split
          · rfl
          · rw [show (wrapCounters r1.p).Source = r1.p.Source from rfl, wrapCounters_read]
            cases hrd : (ReadFull r1.p.Source (List.replicate
                ((MPEGTS_PACKET_SIZE : Int) - ((buffer.length : Int) -
                  ((o + MPEGTS_PACKET_SIZE + MPEGTS_PACKET_SIZE : Nat) : Int))).toNat 0)).err with
            | some e =>
              simp only [Option.map_some', wrapSyncResult, ReadFull_err_wrap _ _ e hrd]
            | none =>
              simp only []
              rw [Machine_ParsePacket_wrap_zero]
              cases h2 : ParsePacket
                  { r1.p with
                    Source := (ReadFull r1.p.Source (List.replicate
                      ((MPEGTS_PACKET_SIZE : Int) - ((buffer.length : Int) -
                        ((o + MPEGTS_PACKET_SIZE + MPEGTS_PACKET_SIZE : Nat) : Int))).toNat 0)).src,
                    BytesRead := r1.p.BytesRead + ((ReadFull r1.p.Source (List.replicate
                      ((MPEGTS_PACKET_SIZE : Int) - ((buffer.length : Int) -
                        ((o + MPEGTS_PACKET_SIZE + MPEGTS_PACKET_SIZE : Nat) : Int))).toNat 0)).n : Int) }
                  MPEGTSPacket.zero
                  (List.drop (o + MPEGTS_PACKET_SIZE + MPEGTS_PACKET_SIZE) buffer ++
                    (ReadFull r1.p.Source (List.replicate
                      ((MPEGTS_PACKET_SIZE : Int) - ((buffer.length : Int) -
                        ((o + MPEGTS_PACKET_SIZE + MPEGTS_PACKET_SIZE : Nat) : Int))).toNat 0)).buf)
                  0 with
              | none => rfl
              | some r2 =>
                simp only [Option.map_some']
                cases he2 : r2.err with
                | some e => simp only [wrapPacketResult, he2, Option.map_some', wrapSyncResult]
                | none =>
                  simp only [wrapPacketResult, he2, Option.map_none', Option.map_some',
                    wrapSyncResult]

theorem Machine_sync_loop_wrap (p : MPEGTSParser) (buffer : List Byte) :
    ∀ (todo o : Nat), o + todo ≤ 188 →
      Machine.sync.loop (wrapCounters p) buffer todo o =
        (sync.loop p buffer todo o).map wrapSyncResult := by
  intro todo
  induction todo with
  | zero =>
    intro o _
    simp only [Machine.sync.loop, sync.loop, Option.map_some', wrapSyncResult, wrapError,
      MPEGTSParser.NoSyncBytePresentError, MPEGTSParser.ParseError, wrapCounters]
  | succ t ih =>
    intro o ho
    rw [Machine.sync.loop, sync.loop]
    cases hc : sync.isCandidate buffer o with
    | none => rfl
    | some c =>
      cases c with
      | true => exact Machine_sync_found_wrap p buffer o (by omega)
      | false => exact ih (o + 1) (by omega)

theorem Machine_sync_wrap (p : MPEGTSParser) :
    Machine.sync (wrapCounters p) = (sync p).map wrapSyncResult := by
  unfold Machine.sync sync
  simp only []
  rw [show (wrapCounters p).Source = p.Source from rfl, wrapCounters_read]
  cases hrd : (ReadFull p.Source (List.replicate (MPEGTS_PACKET_SIZE * 3) 0)).err with
  | some e => simp only [Option.map_some', wrapSyncResult, ReadFull_err_wrap _ _ e hrd]
  | none =>
    simp only []
    exact Machine_sync_loop_wrap _ _ MPEGTS_PACKET_SIZE 0 (by decide)

set_option maxRecDepth 10000 in
theorem Machine_Parse_loop_wrap (first : Nat) :
    ∀ (todo : Nat) (p : MPEGTSParser) (pb : List MPEGTSPacket) (buf : List Byte) (off : Nat)
      (n : Int),
      Machine.Parse.loop first todo (wrapCounters p) pb buf off n =
        (Parse.loop first todo p pb buf off n).map wrapParseResult := by
  intro todo
  induction todo with
  | zero =>
    intro p pb buf off n
    simp only [Machine.Parse.loop, Parse.loop, Option.map_some', wrapParseResult,
      Option.map_none']
  | succ t ih =>
    intro p pb buf off n
    rw [Machine.Parse.loop, Parse.loop]
    simp only []
    rw [show (wrapCounters p).Source = p.Source from rfl, wrapCounters_read]
    cases hrd : (ReadFull p.Source buf).err with
    | some e =>
      simp only []
      split
      · simp only [Option.map_some', wrapParseResult, Option.map_none']
      · simp only [Option.map_some', wrapParseResult, ReadFull_err_wrap _ _ e hrd]
    | none =>
      simp only []
      cases hs : (aliasPayloads (ReadFull p.Source buf).buf first off 0 pb)[off]? with
      | none => rfl
      | some slot =>
        simp only []
        rw [Machine_ParsePacket_wrap_zero]
        cases hq : ParsePacket
            { p with Source := (ReadFull p.Source buf).src
                     BytesRead := p.BytesRead + ((ReadFull p.Source buf).n : Int) }
            slot (ReadFull p.Source buf).buf 0 with
        | none => rfl
        | some r =>
          simp only [Option.map_some']
          cases he : r.err with
          | some e => simp only [wrapPacketResult, he, Option.map_some', wrapParseResult]
          | none =>
            simp only [wrapPacketResult, he, Option.map_none']
            exact ih _ _ _ _ _

set_option maxRecDepth 10000 in
theorem Machine_Parse_wrap (p : MPEGTSParser) (pb : List MPEGTSPacket) :
    Machine.Parse (wrapCounters p) pb = (Parse p pb).map wrapParseResult := by
  unfold Machine.Parse Parse
  simp only []
  rw [show (wrapCounters p).Synced = p.Synced from rfl]
  cases hsy : p.Synced with
  | true =>
    simp only [Bool.not_true, Bool.false_eq_true, if_false]
    exact Machine_Parse_loop_wrap _ _ _ _ _ _ _
  | false =>
    simp only [Bool.not_false, if_true]
    rw [Machine_sync_wrap]
    cases hs : sync p with
    | none => rfl
    | some s =>
      simp only [Option.map_some']
      cases he : s.err with
      | some e => simp only [wrapSyncResult, he, Option.map_some', wrapParseResult]
      | none =>
        simp only [wrapSyncResult, he, Option.map_none']
        cases h0 : s.packets[0]? with
        | none => rfl
        | some k0 =>
          cases h1 : s.packets[1]? with
          | none => rfl
          | some k1 =>
            cases h2 : s.packets[2]? with
            | none => rfl
            | some k2 =>
              simp only []
              cases g0 : setSlot pb 0 k0 with
              | none => rfl
              | some b0 =>
                simp only []
                cases g1 : setSlot b0 1 k1 with
                | none => rfl
                | some b1 =>
                  simp only []
                  cases g2 : setSlot b1 2 k2 with
                  | none => rfl
                  | some b2 =>
                    simp only []
                    exact Machine_Parse_loop_wrap 3 _ { s.p with Synced := true } _ _ _ _

/-- What a returning `ParsePacket` call does to the parser, at any offset:
nothing with an error, both counters stepped (in 64 bits) without one. -/
theorem Machine_ParsePacket_effect (p : MPEGTSParser) (packet : MPEGTSPacket) (b : List Byte)
    (o : Int) (r : PacketResult) (h : Machine.ParsePacket p packet b o = some r) :
    (r.err ≠ none ∧ r.p = p ∧ r.packet = packet) ∨
    (r.err = none ∧
      r.p = { p with PacketsParsed := wrapInt (p.PacketsParsed + 1),
                     BytesParsed := wrapInt (p.BytesParsed + 188) }) := by
  unfold Machine.ParsePacket at h
  split at h
  · cases h
    exact Or.inl ⟨by simp, rfl, rfl⟩
  · split at h
    · cases h
    · split at h
      · cases h
        exact Or.inl ⟨by simp, rfl, rfl⟩
      · split at h
        · cases h
          exact Or.inr ⟨rfl, rfl⟩
        · cases h

/-- Inside the range of `int` offsets whose frame end does not wrap,
`ParsePacket` returns. -/
theorem Machine_ParsePacket_total (p : MPEGTSParser) (packet : MPEGTSPacket) (b : List Byte)
    (o : Int) (ho : 0 ≤ o) (hm : o + 188 ≤ MaxInt64) :
    ∃ r, Machine.ParsePacket p packet b o = some r := by
  obtain ⟨n, rfl⟩ := Int.eq_ofNat_of_zero_le ho
  by_cases h : b.length < n + 188
  · exact ⟨_, Machine_ParsePacket_too_small p packet b n hm h⟩
  · by_cases hb : b[n]? = some MPEGTS_SYNC_BYTE
    · exact ⟨_, Machine_ParsePacket_ok p packet b n hm (by omega) hb⟩
    · exact ⟨_, Machine_ParsePacket_no_sync p packet b n hm (by omega) hb⟩

/-- No `Parse` call raises a counter by more than the bytes left in the
source. -/
theorem Parse_bounds (p : MPEGTSParser) (pb : List MPEGTSPacket) (r : ParseResult)
    (h : Parse p pb = some r) :
    r.p.BytesRead ≤ p.BytesRead + p.Source.length ∧
      r.p.BytesParsed ≤ p.BytesParsed + p.Source.length ∧
      r.p.PacketsParsed ≤ p.PacketsParsed + p.Source.length := by
  cases hsy : p.Synced with
  | true =>
    rw [Parse_synced p pb hsy] at h
    obtain ⟨m, j, a1, a2, a3, _, _, a6, a7, _⟩ := loop_effect 0 _ _ _ _ _ _ r length_buffer0 h
    exact ⟨by omega, by omega, by omega⟩
  | false =>
    rcases sync_cases p with ⟨_, hs⟩ | ⟨c1, _, hs⟩ | ⟨o, _, _, _, c4, _, hs⟩ |
      ⟨o, c1, c2, c3, c4, hs⟩
    · rw [Parse_sync_err p pb hsy _ hs _ rfl] at h
      cases h
      exact ⟨by simp only; omega, by simp only; omega, by simp only; omega⟩
    · rw [Parse_sync_err p pb hsy _ hs _ rfl] at h
      cases h
      exact ⟨by simp only; omega, by simp only; omega, by simp only; omega⟩
    · rw [Parse_sync_err p pb hsy _ hs _ rfl] at h
      cases h
      exact ⟨by simp only; omega, by simp only; omega, by simp only; omega⟩
    · by_cases hL : 3 ≤ pb.length
      · rw [Parse_sync_ok p _ pb hsy _ _ _ hs hL] at h
        obtain ⟨m, j, a1, a2, a3, _, _, a6, a7, _⟩ :=
          loop_effect 3 _ _ _ _ _ _ r length_buffer0 h
        simp only [List.length_drop] at a1 a2 a3 a7
        exact ⟨by omega, by omega, by omega⟩
      · rw [Parse_sync_ok_small p _ pb hsy _ _ _ hs (by omega)] at h
        cases h

/-- On a parser whose counters are `int` values, the 64-bit `Parse` is the
unbounded one with the resulting counters reduced to 64 bits. -/
theorem Machine_Parse_of_inRange (p : MPEGTSParser) (hr : p.CountersInRange)
    (pb : List MPEGTSPacket) :
    Machine.Parse p pb = (Parse p pb).map wrapParseResult := by
  have h := Machine_Parse_wrap p pb
  rw [wrapCounters_of_inRange p hr] at h
  exact h

/-- The counters after a 64-bit `Parse` call: each one is the old value plus
an amount between 0 and the number of bytes left in the source, reduced to 64
bits; `Synced` is never cleared. -/
theorem Machine_Parse_effect (p : MPEGTSParser) (hr : p.CountersInRange)
    (pb : List MPEGTSPacket) (r : ParseResult) (h : Machine.Parse p pb = some r) :
    (p.Synced = true → r.p.Synced = true) ∧
    ∃ a c k : Int, 0 ≤ a ∧ a ≤ p.Source.length ∧ 0 ≤ c ∧ c ≤ p.Source.length ∧
      0 ≤ k ∧ k ≤ p.Source.length ∧
      r.p.BytesRead = wrapInt (p.BytesRead + a) ∧
      r.p.BytesParsed = wrapInt (p.BytesParsed + c) ∧
      r.p.PacketsParsed = wrapInt (p.PacketsParsed + k) := by
  rw [Machine_Parse_of_inRange p hr pb] at h
  cases hq : Parse p pb with
  | none => rw [hq] at h; cases h
  | some r1 =>
    rw [hq] at h
    simp only [Option.map_some', Option.some.injEq] at h
    subst h
    obtain ⟨m1, m2, m3, m4⟩ := Parse_monotone p pb r1 hq
    obtain ⟨b1, b2, b3⟩ := Parse_bounds p pb r1 hq
    refine ⟨m4, r1.p.BytesRead - p.BytesRead, r1.p.BytesParsed - p.BytesParsed,
      r1.p.PacketsParsed - p.PacketsParsed, by omega, by omega, by omega, by omega, by omega,
      by omega, ?_, ?_, ?_⟩
    · simp only [wrapParseResult, wrapCounters]
      congr 1; omega
    · simp only [wrapParseResult, wrapCounters]
      congr 1; omega
    · simp only [wrapParseResult, wrapCounters]
      congr 1; omega

theorem wrapInt_max_succ : wrapInt (MaxInt64 + 1) = MinInt64 := by
  unfold wrapInt MaxInt64 MinInt64
  norm_num

theorem wrapInt_max_frame : wrapInt (MaxInt64 + 188) = -9223372036854775621 := by
  unfold wrapInt MaxInt64
  norm_num

theorem wrapInt_small (x : Int) (h0 : 0 ≤ x) (h1 : x ≤ 1000) : wrapInt x = x := by
  unfold wrapInt
  omega

/-- An `int` offset whose frame end wraps: the size check passes and the index
expression of line 142 panics. -/
theorem Machine_ParsePacket_wrapped_offset (p : MPEGTSParser) (packet : MPEGTSPacket)
    (b : List Byte) (hb : b.length ≤ 1000) :
    Machine.ParsePacket p packet b MaxInt64 = none := by
  have hi : Machine.index b MaxInt64 = none := by
    unfold Machine.index MaxInt64
    rw [if_pos (by decide)]
    exact List.getElem?_eq_none (by
      have : (9223372036854775807 : Int).toNat = 9223372036854775807 := rfl
      rw [this]; omega)
  have hs : ¬ ((b.length : Int) < -9223372036854775621) := by omega
  unfold Machine.ParsePacket
  rw [show MaxInt64 + ((MPEGTS_PACKET_SIZE : Nat) : Int) = MaxInt64 + 188 from rfl,
    wrapInt_max_frame, if_neg hs, hi]

/-! ## Properties of the specification on 64-bit `int`: C2, C3 and C17 -/

set_option maxRecDepth 100000 in
/-- C2 as stated fails: on a parser whose `PacketsParsed` is the largest `int`
a valid frame is decoded with a nil error and `PacketsParsed` wraps to the
smallest `int` instead of growing by 1; and at offset `MaxInt64` the call on a
188-byte buffer panics instead of returning. -/
theorem ParsePacket_atomic_counterexample :
    (∃ r, Machine.ParsePacket sampleFullParser MPEGTSPacket.zero sampleFrame 0 = some r ∧
      r.err = none ∧ r.p.PacketsParsed = MinInt64 ∧
      r.p.PacketsParsed ≠ sampleFullParser.PacketsParsed + 1) ∧
    Machine.ParsePacket sampleFullParser MPEGTSPacket.zero sampleFrameB MaxInt64 = none := by
  refine ⟨⟨_, Machine_ParsePacket_ok_zero sampleFullParser MPEGTSPacket.zero sampleFrame
    (by decide) (by decide), rfl, wrapInt_max_succ, ?_⟩,
    Machine_ParsePacket_wrapped_offset _ _ _ (by decide)⟩
  show wrapInt (MaxInt64 + 1) ≠ MaxInt64 + 1
  rw [wrapInt_max_succ]
  decide

/-- C2, as amended: decode and counter update go together as long as no `int`
wraps.  For every parser state (its counters `int` values), buffer and offset
`o` with `0 ≤ o` and `o + 188 ≤ MaxInt64`, `ParsePacket` returns; with a nil
error `PacketsParsed` has grown by 1 and `BytesParsed` by 188, both in 64-bit
arithmetic; when `PacketsParsed < MaxInt64` and `BytesParsed + 188 ≤ MaxInt64`
the error is nil exactly when `PacketsParsed` is up by exactly 1 and
`BytesParsed` by exactly 188; on an error both counters and the destination
packet are unchanged; `BytesRead`, `Synced` and the source are unchanged in
both cases. -/
theorem ParsePacket_atomic_in_range (p : MPEGTSParser) (packet : MPEGTSPacket)
    (b : List Byte) (o : Int) (hr : p.CountersInRange) (ho : 0 ≤ o)
    (hm : o + 188 ≤ MaxInt64) :
    ∃ r, Machine.ParsePacket p packet b o = some r ∧
      (r.err = none →
        r.p.PacketsParsed = wrapInt (p.PacketsParsed + 1) ∧
        r.p.BytesParsed = wrapInt (p.BytesParsed + 188)) ∧
      (p.PacketsParsed < MaxInt64 → p.BytesParsed + 188 ≤ MaxInt64 →
        (r.err = none ↔
          (r.p.PacketsParsed = p.PacketsParsed + 1 ∧
            r.p.BytesParsed = p.BytesParsed + 188))) ∧
      (r.err ≠ none →
        r.p.PacketsParsed = p.PacketsParsed ∧ r.p.BytesParsed = p.BytesParsed ∧
        r.packet = packet) ∧
      r.p.BytesRead = p.BytesRead ∧ r.p.Synced = p.Synced ∧ r.p.Source = p.Source := by
  obtain ⟨r, h⟩ := Machine_ParsePacket_total p packet b o ho hm
  obtain ⟨_, ⟨b1, b2⟩, ⟨c1, c2⟩⟩ := hr
  refine ⟨r, h, ?_⟩
  rcases Machine_ParsePacket_effect p packet b o r h with ⟨e, hp, hk⟩ | ⟨e, hp⟩
  · rw [hp]
    refine ⟨fun h0 => absurd h0 e, fun _ _ => ⟨fun h0 => absurd h0 e, fun h1 => ?_⟩,
      fun _ => ⟨rfl, rfl, hk⟩, rfl, rfl, rfl⟩
    omega
  · rw [hp]
    refine ⟨fun _ => ⟨rfl, rfl⟩, fun g1 g2 => ⟨fun _ => ⟨?_, ?_⟩, fun _ => e⟩,
      fun h0 => absurd e h0, rfl, rfl, rfl⟩
    · exact wrapInt_of_inRange _ (by unfold MinInt64 at c1 ⊢; omega) (by omega)
    · exact wrapInt_of_inRange _ (by unfold MinInt64 at b1 ⊢; omega) g2

set_option maxRecDepth 100000 in
theorem ParsePacket_atomic_in_range_witness :
    (∃ r, Machine.ParsePacket (NewMPEGTSParser []) MPEGTSPacket.zero sampleFrame 0 = some r ∧
      r.err = none ∧ r.p.PacketsParsed = 1 ∧ r.p.BytesParsed = 188 ∧
      r.p.BytesRead = 0 ∧ r.p.Synced = false) ∧
    (∃ r, Machine.ParsePacket (NewMPEGTSParser []) MPEGTSPacket.zero sampleBadFrame 0 =
        some r ∧
      r.err ≠ none ∧ r.p.PacketsParsed = 0 ∧ r.p.BytesParsed = 0 ∧
      r.packet = MPEGTSPacket.zero ∧ r.p.BytesRead = 0 ∧ r.p.Synced = false) := by
  constructor
  · obtain ⟨r, h1, _, h3, _, h5, h6, _⟩ :=
      ParsePacket_atomic_in_range (NewMPEGTSParser []) MPEGTSPacket.zero sampleFrame 0
        (by decide) (by decide) (by decide)
    have he : r.err = none := by
      rw [Machine_ParsePacket_ok_zero _ _ _ (by decide) (by decide)] at h1
      cases h1
      rfl
    obtain ⟨a, c⟩ := (h3 (by decide) (by decide)).mp he
    exact ⟨r, h1, he, a, c, h5, h6⟩
  · obtain ⟨r, h1, _, _, h4, h5, h6, _⟩ :=
      ParsePacket_atomic_in_range (NewMPEGTSParser []) MPEGTSPacket.zero sampleBadFrame 0
        (by decide) (by decide) (by decide)
    have he : r.err ≠ none := by
      rw [Machine_ParsePacket_no_sync_zero _ _ _ (by decide) (by decide)] at h1
      cases h1
      simp
    obtain ⟨a, c, d⟩ := h4 he
    exact ⟨r, h1, he, a, c, d, h5, h6⟩

set_option maxRecDepth 100000 in
/-- C3 as stated fails: at offset `MaxInt64` the sum `offset + 188` wraps to a
negative `int`, so a buffer of 188 bytes, shorter than `offset + 188`, passes
the size check and the index expression that follows panics; no "buffer too
small" error is returned. -/
theorem ParsePacket_buffer_too_small_counterexample :
    (0 : Int) ≤ MaxInt64 ∧ (sampleFrame.length : Int) < MaxInt64 + 188 ∧
    Machine.ParsePacket (NewMPEGTSParser []) MPEGTSPacket.zero sampleFrame MaxInt64 = none :=
  ⟨by decide, by decide, Machine_ParsePacket_wrapped_offset _ _ _ (by decide)⟩

/-- C3, as amended: for every buffer `b` and offset `o` with `0 ≤ o`,
`o + 188 ≤ MaxInt64` and `len(b) < o + 188`, `ParsePacket` returns the "buffer
too small to parse packet" error whatever the buffer holds, and leaves parser
and packet untouched: the size check comes before the sync-byte check. -/
theorem ParsePacket_buffer_too_small_in_range (p : MPEGTSParser) (packet : MPEGTSPacket)
    (b : List Byte) (o : Int) (ho : 0 ≤ o) (hm : o + 188 ≤ MaxInt64)
    (h : (b.length : Int) < o + 188) :
    Machine.ParsePacket p packet b o =
      some { p := p, packet := packet,
             err := some (GoError.New "buffer too small to parse packet") } := by
  obtain ⟨n, rfl⟩ := Int.eq_ofNat_of_zero_le ho
  exact Machine_ParsePacket_too_small p packet b n hm (by omega)

set_option maxRecDepth 100000 in
theorem ParsePacket_buffer_too_small_in_range_witness :
    ((List.replicate 10 (0 : Byte)).length : Int) < 0 + 188 ∧
    Machine.ParsePacket (NewMPEGTSParser []) MPEGTSPacket.zero (List.replicate 10 0) 0 =
      some { p := NewMPEGTSParser [], packet := MPEGTSPacket.zero,
             err := some (GoError.New "buffer too small to parse packet") } ∧
    (sampleFrame.length : Int) < (MaxInt64 - 188) + 188 ∧
    Machine.ParsePacket (NewMPEGTSParser []) MPEGTSPacket.zero sampleFrame (MaxInt64 - 188) =
      some { p := NewMPEGTSParser [], packet := MPEGTSPacket.zero,
             err := some (GoError.New "buffer too small to parse packet") } :=
  ⟨by decide,
    ParsePacket_buffer_too_small_in_range (NewMPEGTSParser []) MPEGTSPacket.zero
      (List.replicate 10 0) 0 (by decide) (by decide) (by decide),
    by decide,
    ParsePacket_buffer_too_small_in_range (NewMPEGTSParser []) MPEGTSPacket.zero
      sampleFrame (MaxInt64 - 188) (by decide) (by decide) (by decide)⟩

set_option maxRecDepth 100000 in
/-- C17 as stated fails: on a parser whose `BytesRead` and `BytesParsed` are
the largest `int`, a `ParsePacket` call that decodes a frame leaves
`BytesParsed` below its old value, and a `Parse` call that reads one frame
leaves `BytesRead` below its old value: the counters wrap. -/
theorem counters_monotone_counterexample :
    (∃ r, Machine.ParsePacket sampleBrimParser MPEGTSPacket.zero sampleFrame 0 = some r ∧
      r.err = none ∧ r.p.BytesParsed < sampleBrimParser.BytesParsed) ∧
    (∃ r, Machine.Parse sampleBrimParser [MPEGTSPacket.zero] = some r ∧
      r.p.BytesRead < sampleBrimParser.BytesRead) := by
  constructor
  · refine ⟨_, Machine_ParsePacket_ok_zero sampleBrimParser MPEGTSPacket.zero sampleFrame
      (by decide) (by decide), rfl, ?_⟩
    show wrapInt (MaxInt64 + 188) < MaxInt64
    rw [wrapInt_max_frame]
    decide
  · have e := Machine_Parse_of_inRange sampleBrimParser (by decide) [MPEGTSPacket.zero]
    have hv : (Parse sampleBrimParser [MPEGTSPacket.zero]).map (fun r => r.p.BytesRead) =
        some (MaxInt64 + 188) := by decide
    cases hq : Parse sampleBrimParser [MPEGTSPacket.zero] with
    | none => rw [hq] at hv; cases hv
    | some r1 =>
      rw [hq] at e hv
      simp only [Option.map_some', Option.some.injEq] at hv
      refine ⟨wrapParseResult r1, e, ?_⟩
      show wrapInt r1.p.BytesRead < MaxInt64
      rw [hv, wrapInt_max_frame]
      decide

/-- C17, as amended: synchronisation is sticky and the counters grow until an
`int` wraps.  For every parser state (its counters `int` values): a `Parse`
call on a `Synced` parser leaves it `Synced`, whatever error it returns, and
leaves each of `BytesRead`, `BytesParsed`, `PacketsParsed` at least what it was
when that counter plus the number of bytes left in the source is at most
`MaxInt64`; a `ParsePacket` call, at any offset, leaves `Synced` and
`BytesRead` as they were, `BytesParsed` at least what it was when
`BytesParsed + 188 ≤ MaxInt64`, and `PacketsParsed` at least what it was when
`PacketsParsed < MaxInt64`. -/
theorem counters_monotone_until_wrap (p : MPEGTSParser) (hr : p.CountersInRange) :
    (∀ (pb : List MPEGTSPacket) (r : ParseResult), Machine.Parse p pb = some r →
      (p.Synced = true → r.p.Synced = true) ∧
      (p.BytesRead + p.Source.length ≤ MaxInt64 → p.BytesRead ≤ r.p.BytesRead) ∧
      (p.BytesParsed + p.Source.length ≤ MaxInt64 → p.BytesParsed ≤ r.p.BytesParsed) ∧
      (p.PacketsParsed + p.Source.length ≤ MaxInt64 →
        p.PacketsParsed ≤ r.p.PacketsParsed)) ∧
    (∀ (packet : MPEGTSPacket) (b : List Byte) (o : Int) (r : PacketResult),
      Machine.ParsePacket p packet b o = some r →
      r.p.Synced = p.Synced ∧ r.p.BytesRead = p.BytesRead ∧
      (p.BytesParsed + 188 ≤ MaxInt64 → p.BytesParsed ≤ r.p.BytesParsed) ∧
      (p.PacketsParsed < MaxInt64 → p.PacketsParsed ≤ r.p.PacketsParsed)) := by
  obtain ⟨⟨a1, a2⟩, ⟨b1, b2⟩, ⟨c1, c2⟩⟩ := hr
  have hmin : MinInt64 = -9223372036854775808 := rfl
  constructor
  · intro pb r h
    obtain ⟨hs, a, c, k, ha0, ha1, hc0, hc1, hk0, hk1, ea, ec, ek⟩ :=
      Machine_Parse_effect p ⟨⟨a1, a2⟩, ⟨b1, b2⟩, ⟨c1, c2⟩⟩ pb r h
    refine ⟨hs, fun g => ?_, fun g => ?_, fun g => ?_⟩
    · rw [ea, wrapInt_of_inRange _ (by omega) (by omega)]; omega
    · rw [ec, wrapInt_of_inRange _ (by omega) (by omega)]; omega
    · rw [ek, wrapInt_of_inRange _ (by omega) (by omega)]; omega
  · intro packet b o r h
    rcases Machine_ParsePacket_effect p packet b o r h with ⟨_, hp, _⟩ | ⟨_, hp⟩
    · rw [hp]
      exact ⟨rfl, rfl, fun _ => le_refl _, fun _ => le_refl _⟩
    · rw [hp]
      refine ⟨rfl, rfl, fun g => ?_, fun g => ?_⟩
      · show p.BytesParsed ≤ wrapInt (p.BytesParsed + 188)
        rw [wrapInt_of_inRange _ (by omega) g]; omega
      · show p.PacketsParsed ≤ wrapInt (p.PacketsParsed + 1)
        rw [wrapInt_of_inRange _ (by omega) (by omega)]; omega

set_option maxRecDepth 100000 in
theorem counters_monotone_until_wrap_witness :
    sampleSyncedParser.Synced = true ∧
    ∃ r, Machine.Parse sampleSyncedParser (List.replicate 4 MPEGTSPacket.zero) = some r ∧
      r.err ≠ none ∧ r.p.Synced = true ∧ sampleSyncedParser.BytesRead ≤ r.p.BytesRead ∧
      sampleSyncedParser.BytesParsed ≤ r.p.BytesParsed ∧
      sampleSyncedParser.PacketsParsed ≤ r.p.PacketsParsed := by
  have e := Machine_Parse_of_inRange sampleSyncedParser (by decide)
    (List.replicate 4 MPEGTSPacket.zero)
  have hv : (Parse sampleSyncedParser (List.replicate 4 MPEGTSPacket.zero)).map
      (fun r => decide (r.err = none)) = some false := by decide
  cases hq : Parse sampleSyncedParser (List.replicate 4 MPEGTSPacket.zero) with
  | none => rw [hq] at hv; cases hv
  | some r1 =>
    rw [hq] at e hv
    simp only [Option.map_some', Option.some.injEq, decide_eq_false_iff_not] at hv e
    obtain ⟨h1, h2, h3, h4⟩ :=
      (counters_monotone_until_wrap sampleSyncedParser (by decide)).1
        (List.replicate 4 MPEGTSPacket.zero) (wrapParseResult r1) e
    refine ⟨rfl, wrapParseResult r1, e, ?_, h1 rfl, h2 (by decide), h3 (by decide),
      h4 (by decide)⟩
    intro hn
    apply hv
    cases he : r1.err with
    | none => rfl
    | some x =>
      simp only [wrapParseResult, he, Option.map_some'] at hn
      cases hn

end MpegtsParser
